import Mathlib

/-!
# httpd2.c — a shallow embedding of the standalone HTTP/1.0 server

The development follows `src/linux-std/syakyou/httpd2.c`.

Modelling conventions.

* A byte is a natural number; the C type `char` only ever carries the
  values `0 … 255`, and every definition below treats larger numbers like any
  other non-special byte.
* The inbound stream `FILE *in` is the list of bytes that have not been read
  yet; end of file is the empty list.  The outbound stream `FILE *out` is the
  list of bytes written so far.
* A C pointer into a character buffer is the list of bytes from that address
  on (terminator and whatever lies behind it included); the C string at a
  pointer is `cstr p`, the bytes before the first `0`.
* `log_exit` ends the process: a function that may call it returns
  `Except Fatal _` (input side) or an `Outcome` carrying the bytes written
  before the call (output side).
* `xmalloc` is assumed to succeed, writes to `out` are assumed to succeed, and
  reading `in` meets no error other than end of file.
* A string stored in a struct field (`method`, `path`, `name`, `value`) is the
  list of its bytes without the terminator.
* Loops of the C program are functions with a bound on the number of
  iterations; the callers pass a bound that is never reached
  (`read_header_fields_within_bound`, `copy_blocks_all`).
* The signal dispositions of a process are a table by signal number; the
  delivery of a signal looks the signal up in the table and runs the default
  action, nothing, or the handler.
-/

namespace Httpd2

/-! ## Bytes and constants -/

/-- The bytes of an ASCII string literal of the source. -/
def bytes (s : String) : List Nat := s.toList.map Char.toNat

def SERVER_NAME : List Nat := bytes "LittleHTTP"
def SERVER_VERSION : List Nat := bytes "1.0"
def HTTP_MINOR_VERSION : Int := 0
def BLOCK_BUF_SIZE : Nat := 1024
def LINE_BUF_SIZE : Nat := 4096
def MAX_REQUEST_BODY_LENGTH : Int := 1024 * 1024

/-- The calls of `log_exit` in the embedded functions, one constructor for
each call site's message.  `out_of_fuel` is not a call of `log_exit`: it marks
the exhaustion of the iteration bound of a modelled loop. -/
inductive Fatal where
  | no_request_line
  | parse_error_on_request_line_1
  | parse_error_on_request_line_2
  | parse_error_request_line_3
  | failed_to_read_request_header_field
  | parse_error_on_request_header_field
  | negative_content_length_value
  | request_body_too_long
  | failed_to_read_request_body
  | failed_to_open
  | failed_to_read
  | failed_to_write_to_socket
  | gmtime_failed
  | out_of_fuel
  | sigaction_failed
  | exit_by_signal (sig : Nat)
  deriving DecidableEq, Repr

-- Results of fallible functions are compared by evaluation.
deriving instance DecidableEq for Except

/-! ## Data types -/

structure HTTPHeaderField where
  name : List Nat
  value : List Nat
  deriving DecidableEq, Repr

/-- The struct `HTTPRequest`; the linked list `header` is a list whose head is
the most recently added field, `body = none` is the `NULL` body. -/
structure HTTPRequest where
  protocol_minor_version : Int
  method : List Nat
  path : List Nat
  header : List HTTPHeaderField
  body : Option (List Nat)
  length : Int
  deriving DecidableEq, Repr

structure FileInfo where
  path : List Nat
  size : Int
  ok : Bool
  deriving DecidableEq, Repr

/-! ## The C library functions used by the server -/

def isspace (c : Nat) : Bool := decide (c = 32) || (decide (9 ≤ c) && decide (c ≤ 13))

def isdigit (c : Nat) : Bool := decide (48 ≤ c) && decide (c ≤ 57)

def toupper (c : Nat) : Nat := if 97 ≤ c ∧ c ≤ 122 then c - 32 else c

def tolower (c : Nat) : Nat := if 65 ≤ c ∧ c ≤ 90 then c + 32 else c

/-- The C string that starts at a pointer: the bytes before the first `0`. -/
def cstr : List Nat → List Nat
  | [] => []
  | c :: cs => if c = 0 then [] else c :: cstr cs

def strlen (p : List Nat) : Nat := (cstr p).length

/-- The function `strchr(p, c)`: `none` is `NULL`; `some (before, at)` gives the pointer
`at` to the first `c` of the string together with the bytes `before` it. -/
def strchr : List Nat → Nat → Option (List Nat × List Nat)
  | [], _ => none
  | x :: xs, c =>
    if x = c then some ([], x :: xs)
    else if x = 0 then none
    else match strchr xs c with
      | none => none
      | some (before, at_c) => some (x :: before, at_c)

/-- The function `strspn(p, accept)`: the length of the longest initial run of bytes of the
string at `p` that occur in the string `accept`. -/
def strspn : List Nat → List Nat → Nat
  | [], _ => 0
  | c :: cs, accept => if c ≠ 0 ∧ c ∈ cstr accept then strspn cs accept + 1 else 0

def strcmp : List Nat → List Nat → Int
  | [], [] => 0
  | [], b :: _ => 0 - (b : Int)
  | a :: _, [] => (a : Int)
  | a :: as, b :: bs =>
    if a = b then (if a = 0 then 0 else strcmp as bs) else (a : Int) - (b : Int)

def strcasecmp : List Nat → List Nat → Int
  | [], [] => 0
  | [], b :: _ => 0 - (tolower b : Int)
  | a :: _, [] => (tolower a : Int)
  | a :: as, b :: bs =>
    if tolower a = tolower b then (if a = 0 then 0 else strcasecmp as bs)
    else (tolower a : Int) - (tolower b : Int)

def strncasecmp : List Nat → List Nat → Nat → Int
  | _, _, 0 => 0
  | [], [], _ + 1 => 0
  | [], b :: _, _ + 1 => 0 - (tolower b : Int)
  | a :: _, [], _ + 1 => (tolower a : Int)
  | a :: as, b :: bs, n + 1 =>
    if tolower a = tolower b then (if a = 0 then 0 else strncasecmp as bs n)
    else (tolower a : Int) - (tolower b : Int)

def LONG_MAX : Int := 2 ^ 63 - 1
def LONG_MIN : Int := 0 - 2 ^ 63

/-- The value of the leading run of decimal digits, most significant first. -/
def digits_value : List Nat → Nat → Nat
  | [], acc => acc
  | c :: cs, acc => if isdigit c then digits_value cs (acc * 10 + (c - 48)) else acc

/-- The function `strtol(p, NULL, 10)`: leading white space, an optional sign, then digits;
a value out of the range of `long` is clamped (glibc). -/
def strtol (p : List Nat) : Int :=
  match p.dropWhile isspace with
  | 45 :: q => max LONG_MIN (0 - (digits_value q 0 : Int))
  | 43 :: q => min LONG_MAX (digits_value q 0 : Int)
  | q => min LONG_MAX (digits_value q 0 : Int)

def atol (p : List Nat) : Int := strtol p

/-- The function `atoi`, which is `(int) strtol(p, NULL, 10)`: the `long` is cut to 32 bits. -/
def atoi (p : List Nat) : Int := (strtol p + 2 ^ 31) % 2 ^ 32 - 2 ^ 31

/-- The bytes `fgets` stores for a request of at most `n` bytes: it stops after
a newline, at end of file, or when `n` bytes are stored.  The result is the
stored bytes and the stream behind them. -/
def fgets_read : Nat → List Nat → List Nat × List Nat
  | 0, inp => ([], inp)
  | _ + 1, [] => ([], [])
  | n + 1, c :: cs =>
    if c = 10 then ([c], cs)
    else ((c :: (fgets_read n cs).1), (fgets_read n cs).2)

/-- The function `fgets(buf, size, in)`: `none` is `NULL` (end of file before any byte);
otherwise the bytes stored in `buf` in front of the terminating `0`, and the
rest of the stream. -/
def fgets (size : Nat) (inp : List Nat) : Option (List Nat × List Nat) :=
  match inp with
  | [] => none
  | _ :: _ => some (fgets_read (size - 1) inp)

/-- The function `fread(ptr, size, 1, in)`: the number of complete items read (0 or 1),
the bytes stored and the rest of the stream. -/
def fread (size : Nat) (inp : List Nat) : Nat × List Nat × List Nat :=
  if size ≤ inp.length then (1, inp.take size, inp.drop size) else (0, inp, [])

/-- The text that `printf` writes for `%d` or `%ld` and an integer. -/
def fmt_d (n : Int) : List Nat :=
  if n < 0 then 45 :: (Nat.toDigits 10 n.natAbs).map Char.toNat
  else (Nat.toDigits 10 n.natAbs).map Char.toNat

/-! ## Request parser -/

/-- The function `upcase`: every byte of the string through `toupper`. -/
def upcase (str : List Nat) : List Nat := str.map toupper

def HTTP_1_DOT : List Nat := bytes "HTTP/1."

/-- The function `read_request_line(req, in)`.  `stale` is the memory behind the terminator
that `fgets` stores in `buf`: the C code moves `p` seven bytes forward without
looking, so for a protocol token shorter than seven bytes `atoi` reads it. -/
def read_request_line (stale : List Nat) (req : HTTPRequest) (inp : List Nat) :
    Except Fatal (HTTPRequest × List Nat) :=
  match fgets LINE_BUF_SIZE inp with
  | none => .error .no_request_line
  | some (line, rest) =>
    let buf := line ++ 0 :: stale
    match strchr buf 32 with
    | none => .error .parse_error_on_request_line_1
    | some (method, p) =>
      let p := p.tail
      let req := { req with method := upcase method }
      let path := p
      match strchr path 32 with
      | none => .error .parse_error_on_request_line_2
      | some (path, p) =>
        let p := p.tail
        let req := { req with path := path }
        if strncasecmp p HTTP_1_DOT (if strlen HTTP_1_DOT ≠ 0 then 1 else 0) ≠ 0 then
          .error .parse_error_request_line_3
        else
          let p := p.drop (strlen HTTP_1_DOT)
          .ok ({ req with protocol_minor_version := atoi p }, rest)

/-- The function `read_header_field(in)`: `none` in the result is the `NULL` returned for
the empty line. -/
def read_header_field (inp : List Nat) :
    Except Fatal (Option HTTPHeaderField × List Nat) :=
  match fgets LINE_BUF_SIZE inp with
  | none => .error .failed_to_read_request_header_field
  | some (line, rest) =>
    let buf := line ++ [0]
    if buf.head? = some 10 ∨ strcmp buf (bytes "\r\n") = 0 then .ok (none, rest)
    else
      match strchr buf 58 with
      | none => .error .parse_error_on_request_header_field
      | some (name, p) =>
        let p := p.tail
        let p := p.drop (strspn p (bytes " \t"))
        .ok (some { name := name, value := cstr p }, rest)

def lookup_header_field_value (req : HTTPRequest) (name : List Nat) : Option (List Nat) :=
  match req.header.find? (fun h => decide (strcasecmp h.name name = 0)) with
  | none => none
  | some h => some h.value

def content_length (req : HTTPRequest) : Except Fatal Int :=
  match lookup_header_field_value req (bytes "Content-Length") with
  | none => .ok 0
  | some val =>
    let len := atol val
    if len < 0 then .error .negative_content_length_value else .ok len

/-- The loop `while (h = read_header_field(in))` of `read_request`: each field
becomes the new head of the list.  The first argument bounds the number of
iterations. -/
def read_header_fields : Nat → List HTTPHeaderField → List Nat →
    Except Fatal (List HTTPHeaderField × List Nat)
  | 0, _, _ => .error .out_of_fuel
  | fuel + 1, header, inp =>
    match read_header_field inp with
    | .error e => .error e
    | .ok (none, rest) => .ok (header, rest)
    | .ok (some h, rest) => read_header_fields fuel (h :: header) rest

/-- The request as `xmalloc` hands it out; every field is assigned before
`read_request` returns. -/
def HTTPRequest.blank : HTTPRequest :=
  { protocol_minor_version := 0, method := [], path := [], header := [],
    body := none, length := 0 }

/-- The function `read_request(in)`.  Every iteration of the header loop consumes at least
one byte, so `inp.length + 1` iterations are never exceeded. -/
def read_request (stale : List Nat) (inp : List Nat) :
    Except Fatal (HTTPRequest × List Nat) :=
  match read_request_line stale HTTPRequest.blank inp with
  | .error e => .error e
  | .ok (req, inp) =>
    match read_header_fields (inp.length + 1) [] inp with
    | .error e => .error e
    | .ok (header, inp) =>
      let req := { req with header := header }
      match content_length req with
      | .error e => .error e
      | .ok len =>
        let req := { req with length := len }
        if req.length ≠ (0 : Int) then
          if req.length > MAX_REQUEST_BODY_LENGTH then .error .request_body_too_long
          else
            match fread req.length.toNat inp with
            | (n, body, inp) =>
              if n < 1 then .error .failed_to_read_request_body
              else .ok ({ req with body := some body }, inp)
        else .ok ({ req with body := none }, inp)

/-! ## File system and clock -/

inductive FileKind where
  | regular
  | directory
  | symlink
  | special
  deriving DecidableEq, Repr

/-- What a path names: the type of the entry (as `lstat` sees it, a symbolic
link is not followed), the size that `lstat` reports in `st_size`, the bytes a
reader gets, and whether `open` for reading is permitted.  The reported size
need not be the number of bytes a reader gets: for the regular files of procfs
it is 0. -/
structure Entry where
  kind : FileKind
  size : Nat
  content : List Nat
  readable : Bool
  deriving DecidableEq, Repr

/-- The file system as the system calls see it: the entry a path string names,
if any.  It does not change while one request is served. -/
abbrev FileSystem := List Nat → Option Entry

/-- The fields of `struct stat` the server looks at. -/
structure Stat where
  is_reg : Bool
  st_size : Int
  deriving DecidableEq, Repr

/-- The function `lstat(path, &st)`: `none` is a negative return value. -/
def lstat (fs : FileSystem) (path : List Nat) : Option Stat :=
  match fs path with
  | none => none
  | some e => some { is_reg := decide (e.kind = FileKind.regular), st_size := e.size }

/-- The function `open(path, O_RDONLY)`: `none` is a negative return value, otherwise the
descriptor, modelled by the bytes that are still to be read from it. -/
def sys_open (fs : FileSystem) (path : List Nat) : Option (List Nat) :=
  match fs path with
  | none => none
  | some e => if e.readable then some e.content else none

/-- The function `read(fd, buf, count)`: the return value, the bytes stored in `buf` and
the descriptor afterwards. -/
def sys_read (fd : List Nat) (count : Nat) : Int × List Nat × List Nat :=
  (((fd.take count).length : Int), fd.take count, fd.drop count)

/-- The clock as the server sees it through `time`, `gmtime` and `strftime`:
the text of the current UTC time in the format
`%a, %d %b %Y %H:%M:%S GMT`, or `none` when `gmtime` returns `NULL`. -/
abbrev Clock := Option (List Nat)

/-! ## Response writer -/

/-- Bytes written to `out`, and the call of `log_exit` that ended the
process, if any. -/
structure Outcome where
  out : List Nat
  fatal : Option Fatal
  deriving DecidableEq, Repr

/-- The function `fprintf(out, ...)` with the formatted text `s`. -/
def fprintf (out : List Nat) (s : List Nat) : List Nat := out ++ s

/-- The function `fwrite(buf, 1, n, out)`: the number of bytes written and the stream. -/
def fwrite (buf : List Nat) (out : List Nat) : Int × List Nat :=
  ((buf.length : Int), out ++ buf)

def CRLF : List Nat := bytes "\r\n"

def build_fspath (docroot : List Nat) (urlpath : List Nat) : List Nat :=
  docroot ++ urlpath

def get_fileinfo (fs : FileSystem) (docroot : List Nat) (urlpath : List Nat) : FileInfo :=
  let info : FileInfo := { path := build_fspath docroot urlpath, size := 0, ok := false }
  match lstat fs info.path with
  | none => info
  | some st =>
    if !st.is_reg then info
    else { info with ok := true, size := st.st_size }

def guess_content_type (_info : FileInfo) : List Nat := bytes "text/plain"

def output_common_header_fields (clock : Clock) (_req : HTTPRequest) (out : List Nat)
    (status : List Nat) : Outcome :=
  match clock with
  | none => { out := out, fatal := some .gmtime_failed }
  | some buf =>
    let out := fprintf out (bytes "HTTP/1." ++ fmt_d HTTP_MINOR_VERSION ++ bytes " " ++ status ++ CRLF)
    let out := fprintf out (bytes "Date: " ++ buf ++ CRLF)
    let out := fprintf out (bytes "Server: " ++ SERVER_NAME ++ bytes "/" ++ SERVER_VERSION ++ CRLF)
    let out := fprintf out (bytes "Connection: close\r\n")
    { out := out, fatal := none }

def not_found (clock : Clock) (req : HTTPRequest) (out : List Nat) : Outcome :=
  match output_common_header_fields clock req out (bytes "404 Not Found") with
  | { out := out, fatal := some e } => { out := out, fatal := some e }
  | { out := out, fatal := none } =>
    let out := fprintf out (bytes "Content-Type: text/html\r\n")
    let out := fprintf out (bytes "\r\n")
    if strcmp req.method (bytes "HEAD") ≠ 0 then
      let out := fprintf out (bytes "<html>\r\n")
      let out := fprintf out (bytes "<header><title>Not Found</title><header>\r\n")
      let out := fprintf out (bytes "<body><p>File not found</p></body>\r\n")
      let out := fprintf out (bytes "</html>\r\n")
      { out := out, fatal := none }
    else { out := out, fatal := none }

def method_not_allowed (clock : Clock) (req : HTTPRequest) (out : List Nat) : Outcome :=
  match output_common_header_fields clock req out (bytes "405 Method Not Allowed") with
  | { out := out, fatal := some e } => { out := out, fatal := some e }
  | { out := out, fatal := none } =>
    let out := fprintf out (bytes "Content-Type: text/html\r\n")
    let out := fprintf out (bytes "\r\n")
    let out := fprintf out (bytes "<html>\r\n")
    let out := fprintf out (bytes "<header>\r\n")
    let out := fprintf out (bytes "<title>405 Method Not Allowed</title>\r\n")
    let out := fprintf out (bytes "<header>\r\n")
    let out := fprintf out (bytes "<body>\r\n")
    let out := fprintf out
      (bytes "<p>The request method " ++ req.method ++ bytes " is not allowed</p>\r\n")
    let out := fprintf out (bytes "</body>\r\n")
    let out := fprintf out (bytes "</html>\r\n")
    { out := out, fatal := none }

def not_implemented (clock : Clock) (req : HTTPRequest) (out : List Nat) : Outcome :=
  match output_common_header_fields clock req out (bytes "501 Not Implemented") with
  | { out := out, fatal := some e } => { out := out, fatal := some e }
  | { out := out, fatal := none } =>
    let out := fprintf out (bytes "Content-Type: text/html\r\n")
    let out := fprintf out (bytes "\r\n")
    let out := fprintf out (bytes "<html>\r\n")
    let out := fprintf out (bytes "<header>\r\n")
    let out := fprintf out (bytes "<title>501 Not Implemented</title>\r\n")
    let out := fprintf out (bytes "<header>\r\n")
    let out := fprintf out (bytes "<body>\r\n")
    let out := fprintf out
      (bytes "<p>The request method " ++ req.method ++ bytes " is not implemented</p>\r\n")
    let out := fprintf out (bytes "</body>\r\n")
    let out := fprintf out (bytes "</html>\r\n")
    { out := out, fatal := none }

/-- The loop `for (;;)` of `do_file_response` that copies the open file `fd`
to `out` block by block.  The first argument bounds the number of
iterations. -/
def copy_blocks : Nat → List Nat → List Nat → Outcome
  | 0, _, out => { out := out, fatal := some .out_of_fuel }
  | fuel + 1, fd, out =>
    match sys_read fd BLOCK_BUF_SIZE with
    | (n, buf, fd) =>
      if n < 0 then { out := out, fatal := some .failed_to_read }
      else if n = 0 then { out := out, fatal := none }
      else
        match fwrite buf out with
        | (written, out) =>
          if written < n then { out := out, fatal := some .failed_to_write_to_socket }
          else copy_blocks fuel fd out

/-- The function `do_file_response(req, out, docroot)`.  Every iteration of the copy loop
but the last consumes at least one byte of the file, so `fd.length + 1`
iterations are never exceeded. -/
def do_file_response (fs : FileSystem) (clock : Clock) (req : HTTPRequest) (out : List Nat)
    (docroot : List Nat) : Outcome :=
  let info := get_fileinfo fs docroot req.path
  if !info.ok then not_found clock req out
  else
    match output_common_header_fields clock req out (bytes "200 OK") with
    | { out := out, fatal := some e } => { out := out, fatal := some e }
    | { out := out, fatal := none } =>
      let out := fprintf out (bytes "Content-Length: " ++ fmt_d info.size ++ CRLF)
      let out := fprintf out (bytes "Content-Type: " ++ guess_content_type info ++ CRLF)
      let out := fprintf out (bytes "\r\n")
      if strcmp req.method (bytes "HEAD") ≠ 0 then
        match sys_open fs info.path with
        | none => { out := out, fatal := some .failed_to_open }
        | some fd => copy_blocks (fd.length + 1) fd out
      else { out := out, fatal := none }

def respond_to (fs : FileSystem) (clock : Clock) (req : HTTPRequest) (out : List Nat)
    (docroot : List Nat) : Outcome :=
  if strcmp req.method (bytes "GET") = 0 then do_file_response fs clock req out docroot
  else if strcmp req.method (bytes "HEAD") = 0 then do_file_response fs clock req out docroot
  else if strcmp req.method (bytes "POST") = 0 then method_not_allowed clock req out
  else not_implemented clock req out

/-- The function `service(in, out, docroot)`: nothing is written when `read_request` ends
in `log_exit`. -/
def service (fs : FileSystem) (clock : Clock) (stale : List Nat) (inp : List Nat)
    (out : List Nat) (docroot : List Nat) : Outcome :=
  match read_request stale inp with
  | .error e => { out := out, fatal := some e }
  | .ok (req, _) => respond_to fs clock req out docroot

/-! ## Expected texts -/

/-- The four lines every response starts with, for a status text and a
timestamp, written out as the bytes on the wire. -/
def common_header_text (status : List Nat) (date : List Nat) : List Nat :=
  bytes "HTTP/1.0 " ++ status ++ bytes "\r\n" ++ (bytes "Date: " ++ date ++ bytes "\r\n") ++
    bytes "Server: LittleHTTP/1.0\r\n" ++ bytes "Connection: close\r\n"

/-- The header block of a 200 response for a file of `size` bytes, the blank
line that ends it included. -/
def ok_header_text (date : List Nat) (size : Nat) : List Nat :=
  common_header_text (bytes "200 OK") date ++
    (bytes "Content-Length: " ++ bytes (Nat.repr size) ++ bytes "\r\n") ++
    bytes "Content-Type: text/plain\r\n" ++ bytes "\r\n"

/-- The header block of an error response, the blank line included. -/
def error_header_text (status : List Nat) (date : List Nat) : List Nat :=
  common_header_text status date ++ bytes "Content-Type: text/html\r\n" ++ bytes "\r\n"

/-- The HTML body of the 404 response. -/
def not_found_body : List Nat :=
  bytes "<html>\r\n<header><title>Not Found</title><header>\r\n<body><p>File not found</p></body>\r\n</html>\r\n"

/-- The HTML body of the 405 response for a method. -/
def method_not_allowed_body (method : List Nat) : List Nat :=
  bytes "<html>\r\n<header>\r\n<title>405 Method Not Allowed</title>\r\n<header>\r\n<body>\r\n" ++
    (bytes "<p>The request method " ++ method ++ bytes " is not allowed</p>\r\n") ++
    bytes "</body>\r\n</html>\r\n"

/-- The HTML body of the 501 response for a method. -/
def not_implemented_body (method : List Nat) : List Nat :=
  bytes "<html>\r\n<header>\r\n<title>501 Not Implemented</title>\r\n<header>\r\n<body>\r\n" ++
    (bytes "<p>The request method " ++ method ++ bytes " is not implemented</p>\r\n") ++
    bytes "</body>\r\n</html>\r\n"

/-! ## Notions used to state the properties -/

/-- The first line of the input: the bytes up to and including the first
newline, or the whole input when it holds no newline. -/
def first_line : List Nat → List Nat
  | [] => []
  | c :: cs => if c = 10 then [c] else c :: first_line cs

/-- The text behind leading white space and an optional sign, where `atoi`
expects the digits. -/
def skip_sign : List Nat → List Nat
  | 45 :: q => q
  | 43 :: q => q
  | q => q

/-- Whether `atoi` finds an integer in the text: behind leading white space
and an optional sign a decimal digit follows. -/
def has_integer (t : List Nat) : Bool :=
  match skip_sign (t.dropWhile isspace) with
  | [] => false
  | c :: _ => isdigit c

/-- The header fields of the input in textual order, the field of the first
header line first, up to the empty line; the second component is the input
behind the empty line.  The first argument bounds the number of lines. -/
def fields_in_text_order : Nat → List Nat → Except Fatal (List HTTPHeaderField × List Nat)
  | 0, _ => .error .out_of_fuel
  | fuel + 1, inp =>
    match read_header_field inp with
    | .error e => .error e
    | .ok (none, rest) => .ok ([], rest)
    | .ok (some h, rest) =>
      match fields_in_text_order fuel rest with
      | .error e => .error e
      | .ok (hs, rest2) => .ok (h :: hs, rest2)

/-- Two strings are equal ignoring ASCII case. -/
def eq_ignoring_case (a b : List Nat) : Prop := a.map tolower = b.map tolower

instance (a b : List Nat) : Decidable (eq_ignoring_case a b) := by
  unfold eq_ignoring_case
  infer_instance

/-! ## Sample data -/

/-- A document root `/srv` with a 13-byte file `index.html`, a directory
`pub`, a symbolic link `link` and a file `secret.txt` that may not be opened;
and the file `/proc/sys/kernel/ostype`, a regular file for which `lstat`
reports the size 0 and from which a reader gets six bytes. -/
def sample_fs : FileSystem := fun p =>
  if p = bytes "/srv/index.html" then
    some { kind := FileKind.regular, size := 13, content := bytes "Hello, world\n",
           readable := true }
  else if p = bytes "/srv/pub" then
    some { kind := FileKind.directory, size := 4096, content := [], readable := true }
  else if p = bytes "/srv/link" then
    some { kind := FileKind.symlink, size := 10, content := bytes "Hello, world\n",
           readable := true }
  else if p = bytes "/srv/secret.txt" then
    some { kind := FileKind.regular, size := 13, content := bytes "Hello, world\n",
           readable := false }
  else if p = bytes "/proc/sys/kernel/ostype" then
    some { kind := FileKind.regular, size := 0, content := bytes "Linux\n", readable := true }
  else none

def sample_date : List Nat := bytes "Sun, 01 Nov 2026 09:30:00 GMT"

/-- A POST request whose header announces five body bytes, with more bytes
behind them. -/
def sample_post : List Nat :=
  bytes "POST /x HTTP/1.0\r\nContent-Length: 5\r\n\r\nhelloEXTRA"

/-- A request whose header announces one byte more than the maximum. -/
def sample_too_long : List Nat :=
  bytes "POST /x HTTP/1.0\r\nContent-Length: 1048577\r\n\r\nhello"

/-- A request with two header lines of the same name in different case. -/
def sample_duplicates : List Nat :=
  bytes "GET / HTTP/1.0\r\nHost: a\r\nX-Id: 1\r\nhost: b\r\n\r\n"

/-- The fields of the header lines of `sample_duplicates` in textual order. -/
def sample_duplicates_fields : List HTTPHeaderField :=
  [{ name := bytes "Host", value := bytes "a\r\n" },
   { name := bytes "X-Id", value := bytes "1\r\n" },
   { name := bytes "host", value := bytes "b\r\n" }]

/-- The request that `read_request` returns for `sample_duplicates`. -/
def sample_duplicates_request : HTTPRequest :=
  { protocol_minor_version := 0, method := bytes "GET", path := bytes "/",
    header := sample_duplicates_fields.reverse, body := none, length := 0 }

/-- A file system without any entry. -/
def empty_fs : FileSystem := fun _ => none

/-- A request as `read_request` builds it for a request line without headers
and body. -/
def sample_request (method : List Nat) (path : List Nat) : HTTPRequest :=
  { protocol_minor_version := 0, method := method, path := path, header := [],
    body := none, length := 0 }

/-! ## Signals -/

def SIGPIPE : Nat := 13
def SIGCHLD : Nat := 17

/-- The handler functions of the program. -/
inductive Handler where
  | signal_exit
  | noop_handler
  deriving DecidableEq, Repr

/-- The struct `sigaction` as the program fills it: the handler and the two
flags it uses; the mask is always empty. -/
structure Sigaction where
  sa_handler : Handler
  SA_RESTART : Bool
  SA_NOCLDWAIT : Bool
  deriving DecidableEq, Repr

/-- What a process does with a signal: the default action (`SIG_DFL`),
nothing (`SIG_IGN`), or a call of a handler. -/
inductive Disposition where
  | default
  | ignore
  | caught (act : Sigaction)
  deriving DecidableEq, Repr

/-- The signal dispositions of a process, by signal number. -/
abbrev SignalTable := Nat → Disposition

/-- What becomes of a process when a signal is delivered to it. -/
inductive Fate where
  | continues
  | killed (sig : Nat)
  | exited (e : Fatal)
  deriving DecidableEq, Repr

/-- The system call `sigaction(sig, &act, NULL)`: the return value and the
table afterwards.  It fails for a signal number that is out of range and for
SIGKILL and SIGSTOP, and for the two signals that the C library keeps for
itself (32 and 33). -/
def sigaction (t : SignalTable) (sig : Nat) (act : Sigaction) : Int × SignalTable :=
  if sig = 0 ∨ 64 < sig ∨ sig = 9 ∨ sig = 19 ∨ sig = 32 ∨ sig = 33 then (-1, t)
  else (0, fun s => if s = sig then Disposition.caught act else t s)

def trap_signal (t : SignalTable) (sig : Nat) (handler : Handler) : Except Fatal SignalTable :=
  let act : Sigaction := { sa_handler := handler, SA_RESTART := true, SA_NOCLDWAIT := false }
  match sigaction t sig act with
  | (r, t) => if r < 0 then .error .sigaction_failed else .ok t

def detach_children (t : SignalTable) : Except Fatal SignalTable :=
  let act : Sigaction :=
    { sa_handler := Handler.noop_handler, SA_RESTART := true, SA_NOCLDWAIT := true }
  match sigaction t SIGCHLD act with
  | (r, t) => if r < 0 then .error .sigaction_failed else .ok t

def install_signal_handlers (t : SignalTable) : Except Fatal SignalTable :=
  match trap_signal t SIGPIPE Handler.signal_exit with
  | .error e => .error e
  | .ok t => detach_children t

/-- The handler `signal_exit(sig)`: it calls `log_exit("exit by signal %d", sig)`,
which ends the process. -/
def signal_exit (sig : Nat) : Fate := Fate.exited (Fatal.exit_by_signal sig)

/-- The handler `noop_handler(sig)`: it returns at once. -/
def noop_handler (_sig : Nat) : Fate := Fate.continues

/-- The default action of a signal: SIGCHLD is discarded, SIGPIPE (like most
signals) terminates the process. -/
def default_action (sig : Nat) : Fate :=
  if sig = SIGCHLD then Fate.continues else Fate.killed sig

/-- Delivery of a signal to a process with the given dispositions. -/
def deliver (t : SignalTable) (sig : Nat) : Fate :=
  match t sig with
  | .default => default_action sig
  | .ignore => Fate.continues
  | .caught act =>
    match act.sa_handler with
    | .signal_exit => signal_exit sig
    | .noop_handler => noop_handler sig

/-- The system call `fork()`: the child starts with the signal dispositions of
its parent. -/
def fork_child (t : SignalTable) : SignalTable := t

/-- A `write` on a connection that the peer has closed: SIGPIPE is delivered
to the writing process; when the process goes on, the call returns `-1`
(`EPIPE`), an ordinary write failure.  The result is the fate of the process
and the return value of the call, if it returns. -/
def write_to_closed_socket (t : SignalTable) : Fate × Option Int :=
  match deliver t SIGPIPE with
  | .continues => (Fate.continues, some (-1))
  | f => (f, none)

/-! ## Lines of the input -/

/-- The input behind its first line. -/
def after_first_line : List Nat → List Nat
  | [] => []
  | c :: cs => if c = 10 then cs else after_first_line cs

/-- The lines of the input, each with its newline; the last one has none when
the input does not end in a newline. -/
def split_lines : List Nat → List (List Nat)
  | [] => []
  | c :: cs =>
    if c = 10 then [10] :: split_lines cs
    else
      match split_lines cs with
      | [] => [[c]]
      | l :: ls => (c :: l) :: ls

/-- An empty line: a line that is `\n` or `\r\n`. -/
def is_empty_line (l : List Nat) : Prop := l = [10] ∨ l = [13, 10]

instance (l : List Nat) : Decidable (is_empty_line l) := by
  unfold is_empty_line
  infer_instance

/-- A space or a tab. -/
def is_space_or_tab (c : Nat) : Bool := decide (c = 32) || decide (c = 9)

/-- The four lines every response starts with, line by line. -/
def four_common_lines (status : List Nat) (date : List Nat) : List Nat :=
  (bytes "HTTP/1.0 " ++ status ++ bytes "\r\n") ++ (bytes "Date: " ++ date ++ bytes "\r\n") ++
    bytes "Server: LittleHTTP/1.0\r\n" ++ bytes "Connection: close\r\n"

/-- The status texts of the four response variants. -/
def status_texts : List (List Nat) :=
  [bytes "200 OK", bytes "404 Not Found", bytes "405 Method Not Allowed",
   bytes "501 Not Implemented"]

/-- A request with the given header fields and nothing else of interest. -/
def sample_with_header (header : List HTTPHeaderField) : HTTPRequest :=
  { protocol_minor_version := 0, method := bytes "POST", path := bytes "/x", header := header,
    body := none, length := 0 }

/-- A header line with a zero byte in front of its colon. -/
def sample_nul_in_name : List Nat := 88 :: 0 :: bytes ": a\r\n"

/-- A header line with a zero byte in its value. -/
def sample_nul_in_value : List Nat := bytes "Host: exam" ++ 0 :: bytes "ple\r\n"

/-- A header line of 4108 bytes: `Host: `, 4100 times the letter `a`, and the
terminator. -/
def sample_long_line : List Nat := bytes "Host: " ++ List.replicate 4100 97 ++ [13, 10]

/-! ## Header lines of the input -/

/-- The name of a header line: its text in front of the first colon. -/
def line_name (l : List Nat) : List Nat := l.takeWhile (fun c => decide (c ≠ 58))

/-- The value of a header line, as a C string: the text behind the first
colon without its leading spaces and tabs, the line terminator included, up
to the first zero byte if the line holds one. -/
def line_value (l : List Nat) : List Nat :=
  (((l.dropWhile (fun c => decide (c ≠ 58))).tail).dropWhile is_space_or_tab).takeWhile
    (fun c => decide (c ≠ 0))

/-- The header field that a header line stands for: its name and its value. -/
def field_of_line (l : List Nat) : HTTPHeaderField :=
  { name := line_name l, value := line_value l }

/-- A well-formed header line of the input: it fits the line buffer, ends in
its only newline, and holds a colon with no zero byte in front of it. -/
def is_header_line (l : List Nat) : Prop :=
  l.length < LINE_BUF_SIZE ∧ l.getLast? = some 10 ∧ 10 ∉ l.dropLast ∧ 58 ∈ l ∧
    0 ∉ line_name l

instance (l : List Nat) : Decidable (is_header_line l) := by
  unfold is_header_line
  infer_instance

/-- A POST request with two `Content-Length` header lines, the first for five
bytes and the second for three, and ten bytes behind the empty line. -/
def sample_two_lengths : List Nat :=
  bytes "POST /x HTTP/1.0\r\nContent-Length: 5\r\nContent-Length: 3\r\n\r\nhelloEXTRA"

/-- A POST request with the header line `Content-Length: 5`, then a header
line of 4096 bytes (`X: `, 4091 times the letter `a`, CR, LF), then the empty
line and the five bytes `hello`. -/
def sample_long_header_post : List Nat :=
  bytes "POST /x HTTP/1.0\r\n" ++ (bytes "Content-Length: 5\r\n" ++
    (bytes "X: " ++ List.replicate 4091 97 ++ (bytes "\r\n" ++ (bytes "\r\n" ++ bytes "hello"))))

/-- A GET request with one header line, `A: ` followed by 4092 times the
letter `a` and the text `Host: evil`, and the empty line. -/
def sample_split_header : List Nat :=
  bytes "GET / HTTP/1.0\r\n" ++
    (bytes "A: " ++ List.replicate 4092 97 ++ (bytes "Host: evil\r\n" ++ bytes "\r\n"))

/-! ## Lemmas on the library functions -/

theorem fmt_d_natCast (n : Nat) : fmt_d (n : Int) = bytes (Nat.repr n) := by
  have h : ¬ ((n : Int) < 0) := by omega
  simp [fmt_d, h, bytes, Nat.repr, List.asString]

theorem strcmp_self (a : List Nat) : strcmp a a = 0 := by
  induction a with
  | nil => simp [strcmp]
  | cons x xs ih => simp [strcmp, ih]

/-- On strings without a zero byte `strcmp` returns 0 exactly for equal
strings. -/
theorem strcmp_eq_zero_iff (a b : List Nat) (ha : 0 ∉ a) (hb : 0 ∉ b) :
    strcmp a b = 0 ↔ a = b := by
  induction a generalizing b with
  | nil =>
    cases b with
    | nil => simp [strcmp]
    | cons y ys =>
      have hy : y ≠ 0 := fun h => hb (by simp [h])
      have hne : (0 : Int) - (y : Int) ≠ 0 := by omega
      simp only [strcmp, hne, false_iff]
      exact fun h => List.noConfusion h
  | cons x xs ih =>
    have hx : x ≠ 0 := fun h => ha (by simp [h])
    cases b with
    | nil =>
      have hne : (x : Int) ≠ 0 := by omega
      simp only [strcmp, hne, false_iff]
      exact fun h => List.noConfusion h
    | cons y ys =>
      have hxs : 0 ∉ xs := fun h => ha (by simp [h])
      have hys : 0 ∉ ys := fun h => hb (by simp [h])
      by_cases hxy : x = y
      · subst hxy
        simp [strcmp, hx, ih ys hxs hys]
      · have hne : (x : Int) - (y : Int) ≠ 0 := by omega
        simp [strcmp, hxy, hne]

/-! ## Lemmas on the response writer -/

theorem output_common_header_fields_some (date : List Nat) (req : HTTPRequest)
    (out status : List Nat) :
    output_common_header_fields (some date) req out status =
      { out := out ++ common_header_text status date, fatal := none } := by
  have h : bytes "HTTP/1." ++ fmt_d HTTP_MINOR_VERSION ++ bytes " " = bytes "HTTP/1.0 " := by
    decide
  have h2 : bytes "Server: " ++ SERVER_NAME ++ bytes "/" ++ SERVER_VERSION ++ CRLF =
      bytes "Server: LittleHTTP/1.0\r\n" := by decide
  have h3 : CRLF = bytes "\r\n" := rfl
  simp only [output_common_header_fields, fprintf, common_header_text, h2]
  rw [← h, h3]
  simp only [List.append_assoc]

theorem copy_blocks_all (fuel : Nat) (fd out : List Nat) (h : fd.length < fuel) :
    copy_blocks fuel fd out = { out := out ++ fd, fatal := none } := by
  induction fuel generalizing fd out with
  | zero => omega
  | succ k ih =>
    unfold copy_blocks
    simp only [sys_read, fwrite]
    have hneg : ¬ (((List.take BLOCK_BUF_SIZE fd).length : Int) < 0) := by omega
    rw [if_neg hneg]
    by_cases hz : ((List.take BLOCK_BUF_SIZE fd).length : Int) = 0
    · rw [if_pos hz]
      have : fd = [] := by
        have h0 : (List.take BLOCK_BUF_SIZE fd).length = 0 := by exact_mod_cast hz
        rw [List.length_take] at h0
        have hb : BLOCK_BUF_SIZE = 1024 := rfl
        have : fd.length = 0 := by omega
        exact List.length_eq_zero.mp this
      simp [this]
    · rw [if_neg hz, if_neg (lt_irrefl _)]
      have hpos : 0 < (List.take BLOCK_BUF_SIZE fd).length := by
        rcases Nat.eq_zero_or_pos (List.take BLOCK_BUF_SIZE fd).length with h0 | h0
        · exact absurd (by exact_mod_cast h0) hz
        · exact h0
      have hlen : (List.drop BLOCK_BUF_SIZE fd).length < k := by
        rw [List.length_take] at hpos
        rw [List.length_drop]
        omega
      rw [ih _ _ hlen, List.append_assoc, List.take_append_drop]

theorem get_fileinfo_regular (fs : FileSystem) (docroot path : List Nat) (e : Entry)
    (hfile : fs (docroot ++ path) = some e) (hreg : e.kind = FileKind.regular) :
    get_fileinfo fs docroot path =
      { path := docroot ++ path, size := e.size, ok := true } := by
  simp [get_fileinfo, build_fspath, lstat, hfile, hreg]

theorem get_fileinfo_absent (fs : FileSystem) (docroot path : List Nat)
    (hfile : fs (docroot ++ path) = none) :
    (get_fileinfo fs docroot path).ok = false := by
  simp [get_fileinfo, build_fspath, lstat, hfile]

theorem get_fileinfo_not_regular (fs : FileSystem) (docroot path : List Nat) (e : Entry)
    (hfile : fs (docroot ++ path) = some e) (hreg : e.kind ≠ FileKind.regular) :
    (get_fileinfo fs docroot path).ok = false := by
  simp [get_fileinfo, build_fspath, lstat, hfile, hreg]

theorem not_found_some (date : List Nat) (req : HTTPRequest) (out : List Nat) :
    not_found (some date) req out =
      { out := out ++ error_header_text (bytes "404 Not Found") date ++
          (if strcmp req.method (bytes "HEAD") = 0 then [] else not_found_body),
        fatal := none } := by
  have hb : bytes "<html>\r\n" ++ (bytes "<header><title>Not Found</title><header>\r\n" ++
      (bytes "<body><p>File not found</p></body>\r\n" ++ bytes "</html>\r\n")) = not_found_body := by
    decide
  simp only [not_found, output_common_header_fields_some, fprintf, error_header_text]
  by_cases h : strcmp req.method (bytes "HEAD") = 0
  · simp [h]
  · simp only [ne_eq, h, not_false_eq_true, if_true, if_false, List.append_assoc, hb]

/-- A regular file is answered with the 200 header block; unless the method is
`HEAD` the file's bytes follow when it can be opened, and the process ends in
the fatal error of `open` when it cannot. -/
theorem do_file_response_regular (fs : FileSystem) (date : List Nat) (req : HTTPRequest)
    (out docroot : List Nat) (e : Entry)
    (hfile : fs (docroot ++ req.path) = some e) (hreg : e.kind = FileKind.regular) :
    do_file_response fs (some date) req out docroot =
      if strcmp req.method (bytes "HEAD") = 0 then
        { out := out ++ ok_header_text date e.size, fatal := none }
      else if e.readable then
        { out := out ++ ok_header_text date e.size ++ e.content, fatal := none }
      else
        { out := out ++ ok_header_text date e.size, fatal := some .failed_to_open } := by
  have hinfo := get_fileinfo_regular fs docroot req.path e hfile hreg
  have hct : ∀ i : FileInfo, bytes "Content-Type: " ++ guess_content_type i ++ CRLF =
      bytes "Content-Type: text/plain\r\n" := fun _ => rfl
  have h3 : CRLF = bytes "\r\n" := rfl
  simp only [do_file_response, hinfo, output_common_header_fields_some, fprintf,
    hct, fmt_d_natCast, Bool.not_true, Bool.false_eq_true, if_false]
  rw [h3]
  by_cases h : strcmp req.method (bytes "HEAD") = 0
  · simp [h, ok_header_text]
  · simp only [ne_eq, h, not_false_eq_true, if_true, if_false]
    by_cases hread : e.readable = true
    · have hopen : sys_open fs (docroot ++ req.path) = some e.content := by
        simp [sys_open, hfile, hread]
      simp only [hopen, hread, if_true]
      rw [copy_blocks_all _ _ _ (Nat.lt_succ_self _)]
      simp [ok_header_text]
    · have hopen : sys_open fs (docroot ++ req.path) = none := by
        simp [sys_open, hfile, hread]
      simp only [hopen, hread, if_false]
      simp [ok_header_text]

theorem method_not_allowed_some (date : List Nat) (req : HTTPRequest) (out : List Nat) :
    method_not_allowed (some date) req out =
      { out := out ++ error_header_text (bytes "405 Method Not Allowed") date ++
          method_not_allowed_body req.method, fatal := none } := by
  have h1 : ∀ x : List Nat, bytes "<html>\r\n" ++ (bytes "<header>\r\n" ++
      (bytes "<title>405 Method Not Allowed</title>\r\n" ++ (bytes "<header>\r\n" ++
      (bytes "<body>\r\n" ++ x)))) =
      bytes "<html>\r\n<header>\r\n<title>405 Method Not Allowed</title>\r\n<header>\r\n<body>\r\n" ++ x :=
    fun _ => rfl
  have h2 : bytes "</body>\r\n" ++ bytes "</html>\r\n" = bytes "</body>\r\n</html>\r\n" := rfl
  simp only [method_not_allowed, output_common_header_fields_some, fprintf, error_header_text,
    method_not_allowed_body, List.append_assoc, h1, h2]

theorem not_implemented_some (date : List Nat) (req : HTTPRequest) (out : List Nat) :
    not_implemented (some date) req out =
      { out := out ++ error_header_text (bytes "501 Not Implemented") date ++
          not_implemented_body req.method, fatal := none } := by
  have h1 : ∀ x : List Nat, bytes "<html>\r\n" ++ (bytes "<header>\r\n" ++
      (bytes "<title>501 Not Implemented</title>\r\n" ++ (bytes "<header>\r\n" ++
      (bytes "<body>\r\n" ++ x)))) =
      bytes "<html>\r\n<header>\r\n<title>501 Not Implemented</title>\r\n<header>\r\n<body>\r\n" ++ x :=
    fun _ => rfl
  have h2 : bytes "</body>\r\n" ++ bytes "</html>\r\n" = bytes "</body>\r\n</html>\r\n" := rfl
  simp only [not_implemented, output_common_header_fields_some, fprintf, error_header_text,
    not_implemented_body, List.append_assoc, h1, h2]

/-! ## C1 – C4: the response writer -/

/-- C1 (counterexample): under `/proc/sys/kernel` the path `/ostype` names a
regular file with the six bytes `Linux` LF as content, for which `lstat`
reports the size 0: `do_file_response` writes `Content-Length: 0` and then the
six bytes.  Under `/srv` the path `/secret.txt` names a regular file of 13
bytes that may not be opened: `do_file_response` writes the 200 header block
and no body, and ends in the fatal error of `open`. -/
theorem do_file_response_size_and_open_counterexample :
    do_file_response sample_fs (some sample_date)
        (sample_request (bytes "GET") (bytes "/ostype")) [] (bytes "/proc/sys/kernel") =
      { out := bytes "HTTP/1.0 200 OK\r\n" ++ (bytes "Date: " ++ sample_date ++ bytes "\r\n") ++
          bytes "Server: LittleHTTP/1.0\r\n" ++ bytes "Connection: close\r\n" ++
          bytes "Content-Length: 0\r\n" ++
          bytes "Content-Type: text/plain\r\n" ++ bytes "\r\n" ++ bytes "Linux\n",
        fatal := none } ∧
    (bytes "Linux\n").length = 6 ∧
    do_file_response sample_fs (some sample_date)
        (sample_request (bytes "GET") (bytes "/secret.txt")) [] (bytes "/srv") =
      { out := bytes "HTTP/1.0 200 OK\r\n" ++ (bytes "Date: " ++ sample_date ++ bytes "\r\n") ++
          bytes "Server: LittleHTTP/1.0\r\n" ++ bytes "Connection: close\r\n" ++
          bytes "Content-Length: 13\r\n" ++
          bytes "Content-Type: text/plain\r\n" ++ bytes "\r\n",
        fatal := some Fatal.failed_to_open } := by
  decide

/-- C1 (amended): for a request with method GET whose docroot+path names an
existing regular file that can be opened for reading, with the size `S`
reported by `lstat` and the content `B`, of any length, `do_file_response`
writes the status line `HTTP/1.0 200 OK`, the common header lines, the header
`Content-Length:` with the decimal numeral of `S`, the content type, a blank
line, and then exactly the bytes of `B`; it ends without a fatal error.  The
header gives the length of `B` when the reported size is the length of the
content. -/
theorem do_file_response_get_sends_file (fs : FileSystem) (date : List Nat)
    (req : HTTPRequest) (out docroot B : List Nat) (S : Nat)
    (hmethod : req.method = bytes "GET")
    (hfile : fs (build_fspath docroot req.path) =
      some { kind := FileKind.regular, size := S, content := B, readable := true }) :
    do_file_response fs (some date) req out docroot =
      { out := out ++
          (bytes "HTTP/1.0 200 OK\r\n" ++ (bytes "Date: " ++ date ++ bytes "\r\n") ++
            bytes "Server: LittleHTTP/1.0\r\n" ++ bytes "Connection: close\r\n" ++
            (bytes "Content-Length: " ++ bytes (Nat.repr S) ++ bytes "\r\n") ++
            bytes "Content-Type: text/plain\r\n" ++ bytes "\r\n") ++ B,
        fatal := none } ∧
    (S = B.length →
      do_file_response fs (some date) req out docroot =
        { out := out ++
            (bytes "HTTP/1.0 200 OK\r\n" ++ (bytes "Date: " ++ date ++ bytes "\r\n") ++
              bytes "Server: LittleHTTP/1.0\r\n" ++ bytes "Connection: close\r\n" ++
              (bytes "Content-Length: " ++ bytes (Nat.repr B.length) ++ bytes "\r\n") ++
              bytes "Content-Type: text/plain\r\n" ++ bytes "\r\n") ++ B,
          fatal := none }) := by
  have hne : ¬ strcmp (bytes "GET") (bytes "HEAD") = 0 := by decide
  have hs : ∀ x : List Nat, bytes "HTTP/1.0 " ++ (bytes "200 OK" ++ (bytes "\r\n" ++ x)) =
      bytes "HTTP/1.0 200 OK\r\n" ++ x := fun _ => rfl
  have hmain : do_file_response fs (some date) req out docroot =
      { out := out ++
          (bytes "HTTP/1.0 200 OK\r\n" ++ (bytes "Date: " ++ date ++ bytes "\r\n") ++
            bytes "Server: LittleHTTP/1.0\r\n" ++ bytes "Connection: close\r\n" ++
            (bytes "Content-Length: " ++ bytes (Nat.repr S) ++ bytes "\r\n") ++
            bytes "Content-Type: text/plain\r\n" ++ bytes "\r\n") ++ B,
        fatal := none } := by
    rw [do_file_response_regular fs date req out docroot _ hfile rfl, hmethod, if_neg hne]
    simp only [if_true, ok_header_text, common_header_text, List.append_assoc, hs]
  refine ⟨hmain, ?_⟩
  intro hS
  rw [hmain, hS]

theorem do_file_response_get_sends_file_witness :
    (sample_request (bytes "GET") (bytes "/index.html")).method = bytes "GET" ∧
    sample_fs (build_fspath (bytes "/srv") (sample_request (bytes "GET") (bytes "/index.html")).path) =
      some { kind := FileKind.regular, size := 13, content := bytes "Hello, world\n",
             readable := true } ∧
    do_file_response sample_fs (some sample_date)
        (sample_request (bytes "GET") (bytes "/index.html")) [] (bytes "/srv") =
      { out := [] ++
          (bytes "HTTP/1.0 200 OK\r\n" ++ (bytes "Date: " ++ sample_date ++ bytes "\r\n") ++
            bytes "Server: LittleHTTP/1.0\r\n" ++ bytes "Connection: close\r\n" ++
            (bytes "Content-Length: " ++ bytes (Nat.repr (bytes "Hello, world\n").length) ++
              bytes "\r\n") ++
            bytes "Content-Type: text/plain\r\n" ++ bytes "\r\n") ++ bytes "Hello, world\n",
        fatal := none } :=
  ⟨rfl, by decide,
    (do_file_response_get_sends_file sample_fs sample_date
      (sample_request (bytes "GET") (bytes "/index.html")) [] (bytes "/srv")
      (bytes "Hello, world\n") 13 rfl (by decide)).2 (by decide)⟩

/-- C2: for a path that names an existing regular file and a fixed timestamp,
`respond_to` answers a HEAD request with exactly the 200 header block (status
line, common headers, `Content-Length:` with the size of the file as `lstat`
reports it, content type, blank line) and nothing behind it; the output for the GET request on
the same path is this same header block followed by the body bytes (the bytes
of the file when it can be opened): the HEAD output is the GET output cut off
right after the blank line that ends the headers. -/
theorem respond_to_head_is_get_cut_after_headers (fs : FileSystem) (date : List Nat)
    (head get : HTTPRequest) (out docroot : List Nat) (e : Entry)
    (hhead : head.method = bytes "HEAD") (hget : get.method = bytes "GET")
    (hpath : head.path = get.path)
    (hfile : fs (build_fspath docroot get.path) = some e)
    (hreg : e.kind = FileKind.regular) :
    respond_to fs (some date) head out docroot =
        { out := out ++ ok_header_text date e.size, fatal := none } ∧
    (respond_to fs (some date) get out docroot).out =
        (respond_to fs (some date) head out docroot).out ++
          (if e.readable then e.content else []) ∧
    bytes "\r\n\r\n" <:+ (respond_to fs (some date) head out docroot).out := by
  have h1 : ¬ strcmp (bytes "HEAD") (bytes "GET") = 0 := by decide
  have h2 : ¬ strcmp (bytes "GET") (bytes "HEAD") = 0 := by decide
  have hH : respond_to fs (some date) head out docroot =
      { out := out ++ ok_header_text date e.size, fatal := none } := by
    have hfile2 : fs (docroot ++ head.path) = some e := by
      rw [hpath]; exact hfile
    simp only [respond_to, hhead, h1, if_false, strcmp_self, if_true]
    rw [do_file_response_regular fs date head out docroot e hfile2 hreg, hhead]
    simp [strcmp_self]
  have hG : (respond_to fs (some date) get out docroot).out =
      out ++ ok_header_text date e.size ++ (if e.readable then e.content else []) := by
    simp only [respond_to, hget, strcmp_self, if_true]
    rw [do_file_response_regular fs date get out docroot e hfile hreg, hget, if_neg h2]
    by_cases hread : e.readable = true
    · simp [hread]
    · simp [hread]
  refine ⟨hH, ?_, ?_⟩
  · rw [hG, hH]
  · rw [hH]
    refine ⟨out ++ (common_header_text (bytes "200 OK") date ++
      (bytes "Content-Length: " ++ bytes (Nat.repr e.size) ++ bytes "\r\n") ++
      bytes "Content-Type: text/plain") , ?_⟩
    have h4 : bytes "Content-Type: text/plain" ++ bytes "\r\n\r\n" =
        bytes "Content-Type: text/plain\r\n" ++ bytes "\r\n" := rfl
    simp only [ok_header_text, List.append_assoc, h4]

theorem respond_to_head_is_get_cut_after_headers_witness :
    sample_fs (build_fspath (bytes "/srv") (bytes "/index.html")) =
      some { kind := FileKind.regular, size := 13, content := bytes "Hello, world\n",
             readable := true } ∧
    respond_to sample_fs (some sample_date) (sample_request (bytes "HEAD") (bytes "/index.html"))
        [] (bytes "/srv") =
      { out := [] ++ ok_header_text sample_date 13, fatal := none } ∧
    (respond_to sample_fs (some sample_date) (sample_request (bytes "GET") (bytes "/index.html"))
        [] (bytes "/srv")).out =
      (respond_to sample_fs (some sample_date)
          (sample_request (bytes "HEAD") (bytes "/index.html")) [] (bytes "/srv")).out ++
        (if true then bytes "Hello, world\n" else []) ∧
    bytes "\r\n\r\n" <:+ (respond_to sample_fs (some sample_date)
      (sample_request (bytes "HEAD") (bytes "/index.html")) [] (bytes "/srv")).out :=
  ⟨by decide,
    respond_to_head_is_get_cut_after_headers sample_fs sample_date
      (sample_request (bytes "HEAD") (bytes "/index.html"))
      (sample_request (bytes "GET") (bytes "/index.html")) [] (bytes "/srv")
      { kind := FileKind.regular, size := 13, content := bytes "Hello, world\n",
        readable := true }
      rfl rfl rfl (by decide) rfl⟩

/-- C3: for a request with method GET or HEAD whose docroot+path names no
entry, or an entry that is not a regular file, `respond_to` writes the 404
header block (status line `HTTP/1.0 404 Not Found`, common headers, content
type, blank line); for HEAD nothing follows the blank line, for GET the
non-empty HTML body follows it. -/
theorem respond_to_missing_file_is_404 (fs : FileSystem) (date : List Nat)
    (req : HTTPRequest) (out docroot : List Nat)
    (hmethod : req.method = bytes "GET" ∨ req.method = bytes "HEAD")
    (hfile : fs (build_fspath docroot req.path) = none ∨
      ∃ e, fs (build_fspath docroot req.path) = some e ∧ e.kind ≠ FileKind.regular) :
    respond_to fs (some date) req out docroot =
        { out := out ++
            (bytes "HTTP/1.0 404 Not Found\r\n" ++ (bytes "Date: " ++ date ++ bytes "\r\n") ++
              bytes "Server: LittleHTTP/1.0\r\n" ++ bytes "Connection: close\r\n" ++
              bytes "Content-Type: text/html\r\n" ++ bytes "\r\n") ++
            (if req.method = bytes "HEAD" then [] else not_found_body),
          fatal := none } ∧
    not_found_body ≠ [] := by
  have h1 : ¬ strcmp (bytes "HEAD") (bytes "GET") = 0 := by decide
  have h2 : ¬ strcmp (bytes "GET") (bytes "HEAD") = 0 := by decide
  have h3 : bytes "GET" ≠ bytes "HEAD" := by decide
  have hs : ∀ x : List Nat, bytes "HTTP/1.0 " ++ (bytes "404 Not Found" ++ (bytes "\r\n" ++ x)) =
      bytes "HTTP/1.0 404 Not Found\r\n" ++ x := fun _ => rfl
  have hok : (get_fileinfo fs docroot req.path).ok = false := by
    rcases hfile with h | ⟨e, h, hk⟩
    · exact get_fileinfo_absent fs docroot req.path h
    · exact get_fileinfo_not_regular fs docroot req.path e h hk
  have hdo : do_file_response fs (some date) req out docroot = not_found (some date) req out := by
    simp [do_file_response, hok]
  refine ⟨?_, by decide⟩
  rcases hmethod with hm | hm
  · have hr : respond_to fs (some date) req out docroot = not_found (some date) req out := by
      simp only [respond_to, hm, strcmp_self, if_true, hdo]
    rw [hr, not_found_some, hm, if_neg h2, if_neg h3]
    simp only [error_header_text, common_header_text, List.append_assoc, hs]
  · have hr : respond_to fs (some date) req out docroot = not_found (some date) req out := by
      simp only [respond_to, hm, h1, if_false, strcmp_self, if_true, hdo]
    rw [hr, not_found_some, hm]
    simp only [strcmp_self, if_true, error_header_text, common_header_text, List.append_assoc, hs]

theorem respond_to_missing_file_is_404_witness :
    ((sample_request (bytes "GET") (bytes "/pub")).method = bytes "GET" ∨
      (sample_request (bytes "GET") (bytes "/pub")).method = bytes "HEAD") ∧
    (respond_to sample_fs (some sample_date) (sample_request (bytes "GET") (bytes "/pub")) []
        (bytes "/srv") =
        { out := [] ++
            (bytes "HTTP/1.0 404 Not Found\r\n" ++ (bytes "Date: " ++ sample_date ++ bytes "\r\n") ++
              bytes "Server: LittleHTTP/1.0\r\n" ++ bytes "Connection: close\r\n" ++
              bytes "Content-Type: text/html\r\n" ++ bytes "\r\n") ++
            (if (sample_request (bytes "GET") (bytes "/pub")).method = bytes "HEAD" then []
              else not_found_body),
          fatal := none } ∧
      not_found_body ≠ []) :=
  ⟨Or.inl rfl,
    respond_to_missing_file_is_404 sample_fs sample_date
      (sample_request (bytes "GET") (bytes "/pub")) [] (bytes "/srv") (Or.inl rfl)
      (Or.inr ⟨{ kind := FileKind.directory, size := 4096, content := [], readable := true },
        by decide, by decide⟩)⟩

/-- C4: for a request whose method (a C string) is neither GET nor HEAD, the
output of `respond_to` is the same for every file system, document root and
for every request with that method (path, headers and body do not matter);
it is the 405 response (status line `HTTP/1.0 405 Method Not Allowed`) when
the method is exactly POST and the 501 response (status line
`HTTP/1.0 501 Not Implemented`) for every other method. -/
theorem respond_to_other_methods (fs fs2 : FileSystem) (date : List Nat)
    (req req2 : HTTPRequest) (out docroot docroot2 : List Nat)
    (hstr : 0 ∉ req.method)
    (hget : req.method ≠ bytes "GET") (hhead : req.method ≠ bytes "HEAD")
    (hsame : req2.method = req.method) :
    respond_to fs (some date) req out docroot = respond_to fs2 (some date) req2 out docroot2 ∧
    (req.method = bytes "POST" →
      respond_to fs (some date) req out docroot =
        { out := out ++
            (bytes "HTTP/1.0 405 Method Not Allowed\r\n" ++
              (bytes "Date: " ++ date ++ bytes "\r\n") ++
              bytes "Server: LittleHTTP/1.0\r\n" ++ bytes "Connection: close\r\n" ++
              bytes "Content-Type: text/html\r\n" ++ bytes "\r\n") ++
            method_not_allowed_body (bytes "POST"),
          fatal := none }) ∧
    (req.method ≠ bytes "POST" →
      respond_to fs (some date) req out docroot =
        { out := out ++
            (bytes "HTTP/1.0 501 Not Implemented\r\n" ++
              (bytes "Date: " ++ date ++ bytes "\r\n") ++
              bytes "Server: LittleHTTP/1.0\r\n" ++ bytes "Connection: close\r\n" ++
              bytes "Content-Type: text/html\r\n" ++ bytes "\r\n") ++
            not_implemented_body req.method,
          fatal := none }) := by
  have z1 : 0 ∉ bytes "GET" := by decide
  have z2 : 0 ∉ bytes "HEAD" := by decide
  have z3 : 0 ∉ bytes "POST" := by decide
  have hG : ¬ strcmp req.method (bytes "GET") = 0 :=
    fun h => hget ((strcmp_eq_zero_iff _ _ hstr z1).mp h)
  have hH : ¬ strcmp req.method (bytes "HEAD") = 0 :=
    fun h => hhead ((strcmp_eq_zero_iff _ _ hstr z2).mp h)
  have hs405 : ∀ x : List Nat,
      bytes "HTTP/1.0 " ++ (bytes "405 Method Not Allowed" ++ (bytes "\r\n" ++ x)) =
      bytes "HTTP/1.0 405 Method Not Allowed\r\n" ++ x := fun _ => rfl
  have hs501 : ∀ x : List Nat,
      bytes "HTTP/1.0 " ++ (bytes "501 Not Implemented" ++ (bytes "\r\n" ++ x)) =
      bytes "HTTP/1.0 501 Not Implemented\r\n" ++ x := fun _ => rfl
  have hform : ∀ (f : FileSystem) (r : HTTPRequest) (d : List Nat), r.method = req.method →
      respond_to f (some date) r out d =
        if req.method = bytes "POST" then
          { out := out ++ error_header_text (bytes "405 Method Not Allowed") date ++
              method_not_allowed_body req.method, fatal := none }
        else
          { out := out ++ error_header_text (bytes "501 Not Implemented") date ++
              not_implemented_body req.method, fatal := none } := by
    intro f r d hr
    simp only [respond_to, hr, hG, hH, if_false]
    by_cases hP : req.method = bytes "POST"
    · rw [if_pos hP, if_pos (by rw [hP]; exact strcmp_self _), method_not_allowed_some, hr]
    · have hP2 : ¬ strcmp req.method (bytes "POST") = 0 :=
        fun h => hP ((strcmp_eq_zero_iff _ _ hstr z3).mp h)
      rw [if_neg hP, if_neg hP2, not_implemented_some, hr]
  refine ⟨?_, ?_, ?_⟩
  · rw [hform fs req docroot rfl, hform fs2 req2 docroot2 hsame]
  · intro hP
    rw [hform fs req docroot rfl, if_pos hP, hP]
    simp only [error_header_text, common_header_text, List.append_assoc, hs405]
  · intro hP
    rw [hform fs req docroot rfl, if_neg hP]
    simp only [error_header_text, common_header_text, List.append_assoc, hs501]

theorem respond_to_other_methods_witness :
    respond_to sample_fs (some sample_date) (sample_request (bytes "POST") (bytes "/index.html"))
        [] (bytes "/srv") =
      respond_to empty_fs (some sample_date) (sample_request (bytes "POST") (bytes "/pub"))
        [] (bytes "/tmp") ∧
    respond_to sample_fs (some sample_date) (sample_request (bytes "POST") (bytes "/index.html"))
        [] (bytes "/srv") =
      { out := [] ++
          (bytes "HTTP/1.0 405 Method Not Allowed\r\n" ++
            (bytes "Date: " ++ sample_date ++ bytes "\r\n") ++
            bytes "Server: LittleHTTP/1.0\r\n" ++ bytes "Connection: close\r\n" ++
            bytes "Content-Type: text/html\r\n" ++ bytes "\r\n") ++
          method_not_allowed_body (bytes "POST"),
        fatal := none } :=
  ⟨(respond_to_other_methods sample_fs empty_fs sample_date
      (sample_request (bytes "POST") (bytes "/index.html"))
      (sample_request (bytes "POST") (bytes "/pub")) [] (bytes "/srv") (bytes "/tmp")
      (by decide) (by decide) (by decide) rfl).1,
   (respond_to_other_methods sample_fs empty_fs sample_date
      (sample_request (bytes "POST") (bytes "/index.html"))
      (sample_request (bytes "POST") (bytes "/pub")) [] (bytes "/srv") (bytes "/tmp")
      (by decide) (by decide) (by decide) rfl).2.1 rfl⟩

/-! ## Lemmas on the line reader -/

theorem fgets_read_line (n : Nat) (l rest : List Nat) (hl : 10 ∉ l) (hn : l.length < n) :
    fgets_read n (l ++ 10 :: rest) = (l ++ [10], rest) := by
  induction l generalizing n with
  | nil =>
    cases n with
    | zero => simp at hn
    | succ k => simp [fgets_read]
  | cons x xs ih =>
    cases n with
    | zero => simp at hn
    | succ k =>
      have hx : x ≠ 10 := fun h => hl (by simp [h])
      have hxs : 10 ∉ xs := fun h => hl (by simp [h])
      have hk : xs.length < k := by simpa using hn
      simp [fgets_read, hx, ih k hxs hk]

theorem fgets_line (size : Nat) (l rest : List Nat) (hl : 10 ∉ l) (hn : l.length + 1 < size) :
    fgets size (l ++ 10 :: rest) = some (l ++ [10], rest) := by
  have h : fgets size (l ++ 10 :: rest) = some (fgets_read (size - 1) (l ++ 10 :: rest)) := by
    cases l <;> rfl
  rw [h, fgets_read_line (size - 1) l rest hl (by omega)]

theorem fgets_read_within_first_line (n : Nat) (inp : List Nat) :
    (fgets_read n inp).1 <+: first_line inp := by
  induction inp generalizing n with
  | nil => cases n <;> simp [fgets_read]
  | cons c cs ih =>
    cases n with
    | zero => simp [fgets_read]
    | succ k =>
      by_cases hc : c = 10
      · simp [fgets_read, first_line, hc]
      · simp only [fgets_read, first_line, hc, if_false]
        exact (List.prefix_cons_inj c).mpr (ih k)

theorem strchr_append (m xs : List Nat) (c : Nat) (hc : c ∉ m) (h0 : 0 ∉ m) :
    strchr (m ++ c :: xs) c = some (m, c :: xs) := by
  induction m with
  | nil => simp [strchr]
  | cons x m ih =>
    have hx : x ≠ c := fun h => hc (by simp [h])
    have hx0 : x ≠ 0 := fun h => h0 (by simp [h])
    have hc2 : c ∉ m := fun h => hc (by simp [h])
    have h02 : 0 ∉ m := fun h => h0 (by simp [h])
    simp [strchr, hx, hx0, ih hc2 h02]

/-- A hit of `strchr` for a non-zero byte in a terminated buffer lies in front
of the terminator. -/
theorem strchr_some_split (l stale : List Nat) (c : Nat) (hc : c ≠ 0) (b a : List Nat)
    (h : strchr (l ++ 0 :: stale) c = some (b, a)) :
    ∃ l2, l = b ++ c :: l2 ∧ a = c :: l2 ++ 0 :: stale := by
  induction l generalizing b with
  | nil =>
    have h0 : ¬ (0 = c) := fun h => hc h.symm
    simp [strchr, h0] at h
  | cons x xs ih =>
    by_cases hx : x = c
    · subst hx
      simp only [List.cons_append, strchr, if_true, Option.some.injEq, Prod.mk.injEq] at h
      refine ⟨xs, ?_, ?_⟩
      · rw [← h.1]; rfl
      · rw [← h.2]; rfl
    · by_cases hx0 : x = 0
      · simp [strchr, hx, hx0] at h
        exact absurd h.1.symm hc
      · simp only [List.cons_append, strchr, hx, hx0, if_false, List.append_eq] at h
        cases hrec : strchr (xs ++ 0 :: stale) c with
        | none => simp [hrec] at h
        | some r =>
          obtain ⟨b2, a2⟩ := r
          rw [hrec] at h
          simp only [Option.some.injEq, Prod.mk.injEq] at h
          obtain ⟨l2, h1, h2⟩ := ih b2 (by rw [hrec, h.2])
          refine ⟨l2, ?_, ?_⟩
          · rw [← h.1, h1]; rfl
          · exact h2

theorem strtol_no_integer (t : List Nat) (h : has_integer t = false) : strtol t = 0 := by
  unfold has_integer at h
  unfold strtol
  generalize t.dropWhile isspace = u at h
  have hd : ∀ (c : Nat) (cs : List Nat), isdigit c = false → digits_value (c :: cs) 0 = 0 := by
    intro c cs hcd
    simp [digits_value, hcd]
  have hq : ∀ q : List Nat, (match q with | [] => false | c :: _ => isdigit c) = false →
      digits_value q 0 = 0 := by
    intro q hq
    cases q with
    | nil => rfl
    | cons c cs => exact hd c cs hq
  have hmin : min LONG_MAX ((0 : Nat) : Int) = 0 := by decide
  have hmax : max LONG_MIN (0 - ((0 : Nat) : Int)) = 0 := by decide
  by_cases h45 : ∃ q, u = 45 :: q
  · obtain ⟨q, rfl⟩ := h45
    simp only [skip_sign] at h
    simp only [hq q h, hmax]
  · by_cases h43 : ∃ q, u = 43 :: q
    · obtain ⟨q, rfl⟩ := h43
      simp only [skip_sign] at h
      simp only [hq q h, hmin]
    · have hs : skip_sign u = u := by
        unfold skip_sign
        split
        · exact absurd ⟨_, rfl⟩ h45
        · exact absurd ⟨_, rfl⟩ h43
        · rfl
      rw [hs] at h
      have : strtol.match_1 (fun _ => Int) u (fun q => max LONG_MIN (0 - (digits_value q 0 : Int)))
          (fun q => min LONG_MAX (digits_value q 0 : Int))
          (fun q => min LONG_MAX (digits_value q 0 : Int)) = min LONG_MAX (digits_value u 0 : Int) := by
        split
        · exact absurd ⟨_, rfl⟩ h45
        · exact absurd ⟨_, rfl⟩ h43
        · rfl
      rw [this, hq u h, hmin]

theorem dropWhile_isspace_append (t u : List Nat) :
    (t ++ u).dropWhile isspace =
      if t.dropWhile isspace = [] then u.dropWhile isspace else t.dropWhile isspace ++ u := by
  induction t with
  | nil => simp
  | cons x xs ih =>
    by_cases hx : isspace x = true
    · simp [List.dropWhile, hx, ih]
    · simp [List.dropWhile, hx]

/-- Text without an integer stays without one when the end of the line and the
terminator of the buffer follow it. -/
theorem has_integer_line_end (t stale : List Nat) (h : has_integer t = false) :
    has_integer (t ++ 10 :: 0 :: stale) = false := by
  unfold has_integer at h ⊢
  rw [dropWhile_isspace_append]
  by_cases hu : t.dropWhile isspace = []
  · rw [if_pos hu]
    have : (10 :: 0 :: stale).dropWhile isspace = 0 :: stale := by
      simp [List.dropWhile, isspace]
    rw [this]
    rfl
  · rw [if_neg hu]
    generalize t.dropWhile isspace = u at h hu
    match u, hu, h with
    | 45 :: [], _, _ => rfl
    | 43 :: [], _, _ => rfl
    | 45 :: c :: cs, _, h => exact h
    | 43 :: c :: cs, _, h => exact h
    | c :: cs, _, h =>
      by_cases h45 : c = 45
      · subst h45
        cases cs with
        | nil => rfl
        | cons d ds => exact h
      · by_cases h43 : c = 43
        · subst h43
          cases cs with
          | nil => rfl
          | cons d ds => exact h
        · have hs : ∀ v : List Nat, skip_sign (c :: v) = c :: v := by
            intro v
            unfold skip_sign
            split
            · rename_i heq; exact absurd (List.cons.inj heq).1 h45
            · rename_i heq; exact absurd (List.cons.inj heq).1 h43
            · rfl
          rw [List.cons_append, hs]
          rw [hs] at h
          exact h

theorem atoi_no_integer (t : List Nat) (h : has_integer t = false) : atoi t = 0 := by
  unfold atoi
  rw [strtol_no_integer t h]
  decide

theorem not_mem_upcase_zero (m : List Nat) (h : 0 ∉ m) : 0 ∉ upcase m := by
  unfold upcase
  intro hm
  rw [List.mem_map] at hm
  obtain ⟨c, hc, hc0⟩ := hm
  unfold toupper at hc0
  split at hc0
  · omega
  · exact h (hc0 ▸ hc)

/-- The request line `method SP path SP token LF`: the token is found behind
the second space, whatever it is. -/
theorem read_request_line_split (stale : List Nat) (req : HTTPRequest)
    (method path token rest : List Nat)
    (hm : ∀ c ∈ method, c ≠ 32 ∧ c ≠ 0 ∧ c ≠ 10)
    (hp : ∀ c ∈ path, c ≠ 32 ∧ c ≠ 0 ∧ c ≠ 10)
    (ht : 10 ∉ token)
    (hlen : (method ++ 32 :: (path ++ 32 :: (token ++ [10]))).length < LINE_BUF_SIZE) :
    read_request_line stale req (method ++ 32 :: (path ++ 32 :: (token ++ 10 :: rest))) =
      if strncasecmp (token ++ 10 :: 0 :: stale) HTTP_1_DOT
          (if strlen HTTP_1_DOT ≠ 0 then 1 else 0) ≠ 0 then
        .error .parse_error_request_line_3
      else
        .ok ({ req with method := upcase method, path := path,
                        protocol_minor_version :=
                          atoi ((token ++ 10 :: 0 :: stale).drop (strlen HTTP_1_DOT)) }, rest) := by
  have hl : 10 ∉ method ++ 32 :: (path ++ 32 :: token) := by
    intro h
    simp only [List.mem_append, List.mem_cons] at h
    rcases h with h | h | h | h | h
    · exact (hm 10 h).2.2 rfl
    · omega
    · exact (hp 10 h).2.2 rfl
    · omega
    · exact ht h
  have hlen2 : (method ++ 32 :: (path ++ 32 :: token)).length + 1 < LINE_BUF_SIZE := by
    simp only [List.length_append, List.length_cons, List.length_nil] at hlen ⊢
    omega
  have hin : method ++ 32 :: (path ++ 32 :: (token ++ 10 :: rest)) =
      (method ++ 32 :: (path ++ 32 :: token)) ++ 10 :: rest := by simp
  have hbuf : (method ++ 32 :: (path ++ 32 :: token)) ++ [10] ++ 0 :: stale =
      method ++ 32 :: (path ++ 32 :: (token ++ 10 :: 0 :: stale)) := by simp
  have hm32 : 32 ∉ method := fun h => (hm 32 h).1 rfl
  have hm0 : 0 ∉ method := fun h => (hm 0 h).2.1 rfl
  have hp32 : 32 ∉ path := fun h => (hp 32 h).1 rfl
  have hp0 : 0 ∉ path := fun h => (hp 0 h).2.1 rfl
  rw [hin]
  unfold read_request_line
  rw [fgets_line LINE_BUF_SIZE _ rest hl hlen2]
  simp only [hbuf, strchr_append method _ 32 hm32 hm0, List.tail_cons,
    strchr_append path _ 32 hp32 hp0]

/-! ## C5 – C7: the request line -/

/-- C5 (evaluation at the failing input): the request line
`GET / HTTP/2.0` has two spaces and a protocol token that does not begin with
`HTTP/1.`, and `read_request_line` accepts it: the comparison looks at one
byte only, because its length argument is `strlen("HTTP/1.") != 0`. -/
theorem read_request_line_accepts_http_2 :
    read_request_line [] HTTPRequest.blank (bytes "GET / HTTP/2.0\r\n") =
      .ok ({ protocol_minor_version := 0, method := bytes "GET", path := bytes "/",
             header := [], body := none, length := 0 }, []) := by
  decide

/-- C6 (counterexample): for the request line `GET / HTTP/1.x`, whose protocol
token has the prefix `HTTP/1.` and no integer behind it, `read_request_line`
reports no parse error and returns a request with protocol minor version 0. -/
theorem read_request_line_http_1_x_counterexample :
    read_request_line [] HTTPRequest.blank (bytes "GET / HTTP/1.x\r\n") =
      .ok ({ protocol_minor_version := 0, method := bytes "GET", path := bytes "/",
             header := [], body := none, length := 0 }, []) := by
  decide

/-- C6 (amended): for every newline-terminated request line
`method SP path SP HTTP/1.` + `t` that fits the line buffer, where the method
and the path hold no space, no zero byte and no newline, `t` holds no newline,
and `t` holds no integer that `atoi` can parse (behind leading white space and
an optional sign no digit follows), `read_request_line` reports no error: it
returns the request with the upper-cased method, the path, and protocol minor
version 0, and leaves the stream behind the line. -/
theorem read_request_line_no_minor_version (stale : List Nat) (req : HTTPRequest)
    (method path t rest : List Nat)
    (hm : ∀ c ∈ method, c ≠ 32 ∧ c ≠ 0 ∧ c ≠ 10)
    (hp : ∀ c ∈ path, c ≠ 32 ∧ c ≠ 0 ∧ c ≠ 10)
    (ht : 10 ∉ t)
    (hint : has_integer t = false)
    (hlen : (method ++ 32 :: (path ++ 32 :: (HTTP_1_DOT ++ t ++ [10]))).length < LINE_BUF_SIZE) :
    read_request_line stale req (method ++ 32 :: (path ++ 32 :: (HTTP_1_DOT ++ t ++ 10 :: rest))) =
      .ok ({ req with method := upcase method, path := path, protocol_minor_version := 0 },
        rest) := by
  have htok : 10 ∉ HTTP_1_DOT ++ t := by
    intro h
    rcases List.mem_append.mp h with h | h
    · exact absurd h (by decide)
    · exact ht h
  have hcmp : ¬ (strncasecmp (HTTP_1_DOT ++ t ++ 10 :: 0 :: stale) HTTP_1_DOT
      (if strlen HTTP_1_DOT ≠ 0 then 1 else 0) ≠ 0) := by
    simp [strncasecmp, HTTP_1_DOT, bytes, strlen, cstr]
  have hdrop : (HTTP_1_DOT ++ t ++ 10 :: 0 :: stale).drop (strlen HTTP_1_DOT) =
      t ++ 10 :: 0 :: stale := by
    have h7 : strlen HTTP_1_DOT = HTTP_1_DOT.length := by decide
    rw [h7, List.append_assoc, List.drop_left]
  rw [read_request_line_split stale req method path (HTTP_1_DOT ++ t) rest hm hp htok hlen,
    if_neg hcmp, hdrop, atoi_no_integer _ (has_integer_line_end t stale hint)]

theorem read_request_line_no_minor_version_witness :
    has_integer (bytes "x\r") = false ∧
    read_request_line [] HTTPRequest.blank
        (bytes "GET" ++ 32 :: (bytes "/" ++ 32 :: (HTTP_1_DOT ++ bytes "x\r" ++ 10 :: bytes "\r\n"))) =
      .ok ({ HTTPRequest.blank with method := upcase (bytes "GET"), path := bytes "/",
                                    protocol_minor_version := 0 }, bytes "\r\n") :=
  ⟨by decide,
    read_request_line_no_minor_version [] HTTPRequest.blank (bytes "GET") (bytes "/")
      (bytes "x\r") (bytes "\r\n") (by decide) (by decide) (by decide) (by decide) (by decide)⟩

/-- C7: when the first input line holds fewer than two space characters,
`read_request_line` ends in one of its two fatal parse errors for a missing
space, and so does `read_request`: no request is produced. -/
theorem read_request_line_too_few_spaces (stale : List Nat) (req : HTTPRequest)
    (inp : List Nat) (hne : inp ≠ []) (hcount : (first_line inp).count 32 < 2) :
    (read_request_line stale req inp = .error .parse_error_on_request_line_1 ∨
      read_request_line stale req inp = .error .parse_error_on_request_line_2) ∧
    (read_request stale inp = .error .parse_error_on_request_line_1 ∨
      read_request stale inp = .error .parse_error_on_request_line_2) := by
  have key : ∀ r : HTTPRequest,
      read_request_line stale r inp = .error .parse_error_on_request_line_1 ∨
      read_request_line stale r inp = .error .parse_error_on_request_line_2 := by
    intro r
    have hfg : fgets LINE_BUF_SIZE inp = some (fgets_read (LINE_BUF_SIZE - 1) inp) := by
      cases inp with
      | nil => exact absurd rfl hne
      | cons c cs => rfl
    have hle : (fgets_read (LINE_BUF_SIZE - 1) inp).1.count 32 ≤ (first_line inp).count 32 :=
      (fgets_read_within_first_line _ inp).sublist.count_le 32
    generalize fgets_read (LINE_BUF_SIZE - 1) inp = lr at hfg hle
    obtain ⟨line, rest⟩ := lr
    simp only at hle
    unfold read_request_line
    rw [hfg]
    simp only
    cases h1 : strchr (line ++ 0 :: stale) 32 with
    | none => left; rfl
    | some r1 =>
      obtain ⟨m, p⟩ := r1
      obtain ⟨l2, hl2, hp⟩ := strchr_some_split line stale 32 (by decide) m p h1
      subst hp
      simp only [List.cons_append, List.tail_cons]
      cases h2 : strchr (l2 ++ 0 :: stale) 32 with
      | none => right; rfl
      | some r2 =>
        obtain ⟨m2, p2⟩ := r2
        obtain ⟨l3, hl3, _⟩ := strchr_some_split l2 stale 32 (by decide) m2 p2 h2
        exfalso
        rw [hl2, hl3] at hle
        simp only [List.count_append, List.count_cons_self] at hle
        omega
  refine ⟨key req, ?_⟩
  rcases key HTTPRequest.blank with h | h
  · left; simp [read_request, h]
  · right; simp [read_request, h]

theorem read_request_line_too_few_spaces_witness :
    bytes "GET /\r\n\r\n" ≠ [] ∧ (first_line (bytes "GET /\r\n\r\n")).count 32 < 2 ∧
    ((read_request_line [] HTTPRequest.blank (bytes "GET /\r\n\r\n") =
        .error .parse_error_on_request_line_1 ∨
      read_request_line [] HTTPRequest.blank (bytes "GET /\r\n\r\n") =
        .error .parse_error_on_request_line_2) ∧
    (read_request [] (bytes "GET /\r\n\r\n") = .error .parse_error_on_request_line_1 ∨
      read_request [] (bytes "GET /\r\n\r\n") = .error .parse_error_on_request_line_2)) :=
  ⟨by decide, by decide,
    read_request_line_too_few_spaces [] HTTPRequest.blank (bytes "GET /\r\n\r\n")
      (by decide) (by decide)⟩

/-! ## Lemmas on `read_request` -/

/-- What `read_request` does behind the header lines, in terms of its parts. -/
theorem read_request_of_parts (stale inp : List Nat) (r : HTTPRequest) (inp1 : List Nat)
    (hs : List HTTPHeaderField) (inp2 : List Nat) (N : Int)
    (hline : read_request_line stale HTTPRequest.blank inp = .ok (r, inp1))
    (hhdr : read_header_fields (inp1.length + 1) [] inp1 = .ok (hs, inp2))
    (hcl : content_length { r with header := hs } = .ok N) :
    read_request stale inp =
      if N ≠ 0 then
        if N > MAX_REQUEST_BODY_LENGTH then .error .request_body_too_long
        else if N.toNat ≤ inp2.length then
          .ok ({ r with header := hs, length := N, body := some (inp2.take N.toNat) },
            inp2.drop N.toNat)
        else .error .failed_to_read_request_body
      else .ok ({ r with header := hs, length := N, body := none }, inp2) := by
  unfold read_request
  simp only [hline, hhdr, hcl]
  by_cases h0 : N = 0
  · simp [h0]
  · by_cases h1 : N > MAX_REQUEST_BODY_LENGTH
    · simp [h0, h1]
    · by_cases h2 : N.toNat ≤ inp2.length
      · simp [h0, h1, h2, fread]
      · simp [h0, h1, h2, fread]

theorem read_request_header (stale inp : List Nat) (req : HTTPRequest) (rest : List Nat)
    (h : read_request stale inp = .ok (req, rest)) :
    ∃ r inp1 inp2, read_request_line stale HTTPRequest.blank inp = .ok (r, inp1) ∧
      read_header_fields (inp1.length + 1) [] inp1 = .ok (req.header, inp2) := by
  cases hline : read_request_line stale HTTPRequest.blank inp with
  | error e => simp [read_request, hline] at h
  | ok v =>
    obtain ⟨r, inp1⟩ := v
    cases hhdr : read_header_fields (inp1.length + 1) [] inp1 with
    | error e => simp [read_request, hline, hhdr] at h
    | ok w =>
      obtain ⟨hs, inp2⟩ := w
      cases hcl : content_length { r with header := hs } with
      | error e => simp [read_request, hline, hhdr, hcl] at h
      | ok N =>
        rw [read_request_of_parts stale inp r inp1 hs inp2 N hline hhdr hcl] at h
        refine ⟨r, inp1, inp2, rfl, ?_⟩
        split at h
        · split at h
          · exact absurd h (by simp)
          · split at h
            · simp only [Except.ok.injEq, Prod.mk.injEq] at h
              rw [← h.1]
              exact hhdr
            · exact absurd h (by simp)
        · simp only [Except.ok.injEq, Prod.mk.injEq] at h
          rw [← h.1]
          exact hhdr

/-- The header loop puts the fields in front of the list one by one: its
result is the textual order reversed. -/
theorem read_header_fields_eq_reverse (fuel : Nat) (acc : List HTTPHeaderField)
    (inp : List Nat) :
    read_header_fields fuel acc inp =
      match fields_in_text_order fuel inp with
      | .error e => .error e
      | .ok (fields, rest) => .ok (fields.reverse ++ acc, rest) := by
  induction fuel generalizing acc inp with
  | zero => rfl
  | succ k ih =>
    unfold read_header_fields fields_in_text_order
    cases hrh : read_header_field inp with
    | error e => rfl
    | ok v =>
      obtain ⟨o, rest⟩ := v
      cases o with
      | none => simp
      | some h =>
        simp only
        rw [ih]
        cases fields_in_text_order k rest with
        | error e => rfl
        | ok w =>
          obtain ⟨fs, rest2⟩ := w
          simp

theorem tolower_eq_zero (x : Nat) : tolower x = 0 ↔ x = 0 := by
  unfold tolower
  split <;> omega

theorem strcasecmp_eq_zero_iff (a b : List Nat) (ha : 0 ∉ a) (hb : 0 ∉ b) :
    strcasecmp a b = 0 ↔ eq_ignoring_case a b := by
  unfold eq_ignoring_case
  induction a generalizing b with
  | nil =>
    cases b with
    | nil => simp [strcasecmp]
    | cons y ys =>
      have hy : y ≠ 0 := fun h => hb (by simp [h])
      have hy2 : tolower y ≠ 0 := fun h => hy ((tolower_eq_zero y).mp h)
      have hne : (0 : Int) - (tolower y : Int) ≠ 0 := by omega
      simp only [strcasecmp, hne, false_iff]
      simp
  | cons x xs ih =>
    have hx : x ≠ 0 := fun h => ha (by simp [h])
    have hx2 : tolower x ≠ 0 := fun h => hx ((tolower_eq_zero x).mp h)
    cases b with
    | nil =>
      have hne : (tolower x : Int) ≠ 0 := by omega
      simp only [strcasecmp, hne, false_iff]
      simp
    | cons y ys =>
      have hxs : 0 ∉ xs := fun h => ha (by simp [h])
      have hys : 0 ∉ ys := fun h => hb (by simp [h])
      by_cases hxy : tolower x = tolower y
      · simp [strcasecmp, hxy, hx, ih ys hxs hys]
      · have hne : (tolower x : Int) - (tolower y : Int) ≠ 0 := by omega
        simp [strcasecmp, hxy, hne]

theorem strchr_before_no_zero (s : List Nat) (c : Nat) (b a : List Nat)
    (h : strchr s c = some (b, a)) : 0 ∉ b := by
  induction s generalizing b with
  | nil => simp [strchr] at h
  | cons x xs ih =>
    by_cases hx : x = c
    · simp only [strchr, hx, if_true, Option.some.injEq, Prod.mk.injEq] at h
      rw [← h.1]
      simp
    · by_cases hx0 : x = 0
      · simp [strchr, hx, hx0] at h
        omega
      · simp only [strchr, hx, hx0, if_false] at h
        cases hrec : strchr xs c with
        | none => simp [hrec] at h
        | some r =>
          obtain ⟨b2, a2⟩ := r
          rw [hrec] at h
          simp only [Option.some.injEq, Prod.mk.injEq] at h
          have h2 := ih b2 (by rw [hrec, h.2])
          rw [← h.1]
          intro hmem
          rcases List.mem_cons.mp hmem with h0 | h0
          · exact hx0 h0.symm
          · exact h2 h0

theorem read_header_field_name_no_zero (inp : List Nat) (h : HTTPHeaderField) (rest : List Nat)
    (hr : read_header_field inp = .ok (some h, rest)) : 0 ∉ h.name := by
  unfold read_header_field at hr
  cases hfg : fgets LINE_BUF_SIZE inp with
  | none => simp [hfg] at hr
  | some v =>
    obtain ⟨line, rest1⟩ := v
    simp only [hfg] at hr
    split at hr
    · simp at hr
    · cases hs : strchr (line ++ [0]) 58 with
      | none => simp [hs] at hr
      | some w =>
        obtain ⟨name, p⟩ := w
        simp only [hs, Except.ok.injEq, Prod.mk.injEq, Option.some.injEq] at hr
        rw [← hr.1]
        exact strchr_before_no_zero _ _ _ _ hs

theorem fields_in_text_order_names (fuel : Nat) (inp : List Nat) (fields : List HTTPHeaderField)
    (rest : List Nat) (h : fields_in_text_order fuel inp = .ok (fields, rest)) :
    ∀ f ∈ fields, 0 ∉ f.name := by
  induction fuel generalizing inp fields with
  | zero => simp [fields_in_text_order] at h
  | succ k ih =>
    unfold fields_in_text_order at h
    cases hrh : read_header_field inp with
    | error e => simp [hrh] at h
    | ok v =>
      obtain ⟨o, rest1⟩ := v
      cases o with
      | none =>
        simp only [hrh, Except.ok.injEq, Prod.mk.injEq] at h
        rw [← h.1]
        simp
      | some hf =>
        simp only [hrh] at h
        cases hrec : fields_in_text_order k rest1 with
        | error e => simp [hrec] at h
        | ok w =>
          obtain ⟨fs, rest2⟩ := w
          simp only [hrec, Except.ok.injEq, Prod.mk.injEq] at h
          rw [← h.1]
          intro f hf2
          rcases List.mem_cons.mp hf2 with h1 | h1
          · rw [h1]; exact read_header_field_name_no_zero inp hf rest1 hrh
          · exact ih rest1 fs (by rw [hrec, h.2]) f h1

theorem MAX_REQUEST_BODY_LENGTH_eq : MAX_REQUEST_BODY_LENGTH = 1048576 := by decide

theorem fgets_read_length (n : Nat) (inp : List Nat) :
    (fgets_read n inp).1.length + (fgets_read n inp).2.length = inp.length := by
  induction inp generalizing n with
  | nil => cases n <;> simp [fgets_read]
  | cons c cs ih =>
    cases n with
    | zero => simp [fgets_read]
    | succ k =>
      by_cases hc : c = 10
      · simp [fgets_read, hc]
        omega
      · simp only [fgets_read, hc, if_false, List.length_cons]
        have := ih k
        omega

/-- A call of `fgets` that returns a line takes at least one byte from the
stream. -/
theorem fgets_consumes (inp line rest : List Nat)
    (h : fgets LINE_BUF_SIZE inp = some (line, rest)) : rest.length < inp.length := by
  cases inp with
  | nil => simp [fgets] at h
  | cons c cs =>
    simp only [fgets, Option.some.injEq] at h
    have hlen := fgets_read_length (LINE_BUF_SIZE - 1) (c :: cs)
    rw [h] at hlen
    have hpos : 0 < line.length := by
      have hl : line = (fgets_read (LINE_BUF_SIZE - 1) (c :: cs)).1 := by rw [h]
      rw [hl]
      have h4 : LINE_BUF_SIZE - 1 = 4094 + 1 := rfl
      rw [h4]
      by_cases hc : c = 10
      · simp [fgets_read, hc]
      · simp [fgets_read, hc]
    simp only at hlen
    omega

theorem read_header_field_consumes (inp : List Nat) (o : Option HTTPHeaderField)
    (rest : List Nat) (h : read_header_field inp = .ok (o, rest)) :
    rest.length < inp.length := by
  unfold read_header_field at h
  cases hfg : fgets LINE_BUF_SIZE inp with
  | none => simp [hfg] at h
  | some v =>
    obtain ⟨line, rest1⟩ := v
    have hlt := fgets_consumes inp line rest1 hfg
    simp only [hfg] at h
    split at h
    · simp only [Except.ok.injEq, Prod.mk.injEq] at h
      rw [← h.2]; exact hlt
    · cases hs : strchr (line ++ [0]) 58 with
      | none => simp [hs] at h
      | some w =>
        obtain ⟨name, p⟩ := w
        simp only [hs, Except.ok.injEq, Prod.mk.injEq] at h
        rw [← h.2]; exact hlt

/-- The bound of the header loop is never reached: with more iterations
allowed than the input has bytes, the loop ends by itself. -/
theorem read_header_fields_within_bound (fuel : Nat) (acc : List HTTPHeaderField)
    (inp : List Nat) (h : inp.length < fuel) :
    read_header_fields fuel acc inp ≠ .error .out_of_fuel := by
  induction fuel generalizing acc inp with
  | zero => omega
  | succ k ih =>
    unfold read_header_fields
    cases hrh : read_header_field inp with
    | error e =>
      simp only
      intro he
      have he2 : e = Fatal.out_of_fuel := by injection he
      subst he2
      unfold read_header_field at hrh
      cases hfg : fgets LINE_BUF_SIZE inp with
      | none => simp [hfg] at hrh
      | some v =>
        simp only [hfg] at hrh
        split at hrh
        · simp at hrh
        · split at hrh
          · simp at hrh
          · simp at hrh
    | ok v =>
      obtain ⟨o, rest⟩ := v
      have hlt := read_header_field_consumes inp o rest hrh
      cases o with
      | none => simp
      | some hf => exact ih (hf :: acc) rest (by omega)

/-! ## C9: the limit of the body length -/

/-- C9: when the request line and the header lines are read and the content
length of the request is `N`: for `N > 1048576`, `read_request` ends in the
fatal error "request body too long", whatever follows the header lines; for
`N = 1048576` it does not: it returns the request with the first 1048576
bytes behind the empty line as body when that many follow, and otherwise ends
in "failed to read request body". -/
theorem read_request_body_too_long (stale inp : List Nat) (r : HTTPRequest)
    (inp1 : List Nat) (hs : List HTTPHeaderField) (inp2 : List Nat) (N : Int)
    (hline : read_request_line stale HTTPRequest.blank inp = .ok (r, inp1))
    (hhdr : read_header_fields (inp1.length + 1) [] inp1 = .ok (hs, inp2))
    (hcl : content_length { r with header := hs } = .ok N) :
    (N > 1048576 → read_request stale inp = .error .request_body_too_long) ∧
    (N = 1048576 →
      read_request stale inp ≠ .error .request_body_too_long ∧
      (1048576 ≤ inp2.length →
        read_request stale inp =
          .ok ({ r with header := hs, length := 1048576, body := some (inp2.take 1048576) },
            inp2.drop 1048576)) ∧
      (inp2.length < 1048576 →
        read_request stale inp = .error .failed_to_read_request_body)) := by
  have hrr := read_request_of_parts stale inp r inp1 hs inp2 N hline hhdr hcl
  rw [MAX_REQUEST_BODY_LENGTH_eq] at hrr
  constructor
  · intro hN
    have h0 : N ≠ 0 := by omega
    rw [hrr, if_pos h0, if_pos hN]
  · intro hN
    subst hN
    have h0 : (1048576 : Int) ≠ 0 := by decide
    have hmax : ¬ ((1048576 : Int) > 1048576) := by decide
    have hnat : (1048576 : Int).toNat = 1048576 := by decide
    rw [if_pos h0, if_neg hmax, hnat] at hrr
    refine ⟨?_, ?_, ?_⟩
    · rw [hrr]
      split
      · exact fun h => Except.noConfusion h
      · exact fun h => by cases h
    · intro hle
      rw [hrr, if_pos hle]
    · intro hlt
      rw [hrr, if_neg (by omega)]

theorem read_request_body_too_long_witness :
    content_length { sample_request (bytes "POST") (bytes "/x") with
        header := [{ name := bytes "Content-Length", value := bytes "1048577\r\n" }] } =
      .ok 1048577 ∧
    read_request [] sample_too_long = .error .request_body_too_long :=
  ⟨by decide,
    (read_request_body_too_long [] sample_too_long
      (sample_request (bytes "POST") (bytes "/x"))
      (bytes "Content-Length: 1048577\r\n\r\nhello")
      [{ name := bytes "Content-Length", value := bytes "1048577\r\n" }]
      (bytes "hello") 1048577 (by decide) (by decide) (by decide)).1 (by decide)⟩

/-! ## Lemmas on the errors of `read_request` -/

theorem read_request_line_errors (stale : List Nat) (req : HTTPRequest) (inp : List Nat)
    (e : Fatal) (h : read_request_line stale req inp = .error e) :
    e = .no_request_line ∨ e = .parse_error_on_request_line_1 ∨
      e = .parse_error_on_request_line_2 ∨ e = .parse_error_request_line_3 := by
  unfold read_request_line at h
  split at h
  · injection h with h; simp [← h]
  · simp only at h
    split at h
    · injection h with h; simp [← h]
    · split at h
      · injection h with h; simp [← h]
      · split at h
        all_goals
          split at h
          · injection h with h; simp [← h]
          · exact absurd h (by simp)

theorem read_header_field_errors (inp : List Nat) (e : Fatal)
    (h : read_header_field inp = .error e) :
    e = .failed_to_read_request_header_field ∨ e = .parse_error_on_request_header_field := by
  unfold read_header_field at h
  split at h
  · injection h with h; simp [← h]
  · simp only at h
    split at h
    · exact absurd h (by simp)
    · split at h
      · injection h with h; simp [← h]
      · exact absurd h (by simp)

theorem read_header_fields_errors (fuel : Nat) (acc : List HTTPHeaderField) (inp : List Nat)
    (e : Fatal) (hfuel : inp.length < fuel) (h : read_header_fields fuel acc inp = .error e) :
    e = .failed_to_read_request_header_field ∨ e = .parse_error_on_request_header_field := by
  induction fuel generalizing acc inp with
  | zero => omega
  | succ k ih =>
    unfold read_header_fields at h
    cases hrh : read_header_field inp with
    | error e2 =>
      simp only [hrh] at h
      injection h with h
      rw [← h]
      exact read_header_field_errors inp e2 hrh
    | ok v =>
      obtain ⟨o, rest⟩ := v
      have hlt := read_header_field_consumes inp o rest hrh
      cases o with
      | none => simp [hrh] at h
      | some hf =>
        simp only [hrh] at h
        exact ih (hf :: acc) rest (by omega) h

theorem content_length_errors (req : HTTPRequest) (e : Fatal)
    (h : content_length req = .error e) : e = .negative_content_length_value := by
  unfold content_length at h
  split at h
  · exact absurd h (by simp)
  · simp only at h
    split at h
    · injection h with h; exact h.symm
    · exact absurd h (by simp)

/-- Every error of `read_request` is one of the nine calls of `log_exit` in
the request parser. -/
theorem read_request_errors (stale inp : List Nat) (e : Fatal)
    (h : read_request stale inp = .error e) :
    e ∈ [Fatal.no_request_line, Fatal.parse_error_on_request_line_1,
      Fatal.parse_error_on_request_line_2, Fatal.parse_error_request_line_3,
      Fatal.failed_to_read_request_header_field, Fatal.parse_error_on_request_header_field,
      Fatal.negative_content_length_value, Fatal.request_body_too_long,
      Fatal.failed_to_read_request_body] := by
  cases hline : read_request_line stale HTTPRequest.blank inp with
  | error e1 =>
    have he : e = e1 := by
      simp only [read_request, hline] at h
      injection h with h; exact h.symm
    rcases read_request_line_errors stale _ inp e1 hline with h1 | h1 | h1 | h1 <;>
      simp [he, h1]
  | ok v =>
    obtain ⟨r, inp1⟩ := v
    cases hhdr : read_header_fields (inp1.length + 1) [] inp1 with
    | error e1 =>
      have he : e = e1 := by
        simp only [read_request, hline, hhdr] at h
        injection h with h; exact h.symm
      rcases read_header_fields_errors _ _ inp1 e1 (Nat.lt_succ_self _) hhdr with h1 | h1 <;>
        simp [he, h1]
    | ok w =>
      obtain ⟨hs, inp2⟩ := w
      cases hcl : content_length { r with header := hs } with
      | error e1 =>
        have he : e = e1 := by
          simp only [read_request, hline, hhdr, hcl] at h
          injection h with h; exact h.symm
        simp [he, content_length_errors _ e1 hcl]
      | ok N =>
        rw [read_request_of_parts stale inp r inp1 hs inp2 N hline hhdr hcl] at h
        split at h
        · split at h
          · injection h with h; simp [← h]
          · split at h
            · exact absurd h (by simp)
            · injection h with h; simp [← h]
        · exact absurd h (by simp)

/-! ## C11: the content length -/

/-- C11: for a request whose header names are C strings: `content_length`
returns 0 when no header field has the name `Content-Length` in any letter
case; and when `h` is the field that the lookup finds (the first one from the
front of the list with that name), it returns the integer that `atol` parses
from the value of `h` when that is not negative, and ends in the fatal error
"negative Content-Length value" exactly when it is negative. -/
theorem content_length_cases (req : HTTPRequest) (hstr : ∀ h ∈ req.header, 0 ∉ h.name) :
    ((∀ h ∈ req.header, ¬ eq_ignoring_case h.name (bytes "Content-Length")) →
      content_length req = .ok 0) ∧
    (∀ front h back, req.header = front ++ h :: back →
      (∀ g ∈ front, ¬ eq_ignoring_case g.name (bytes "Content-Length")) →
      eq_ignoring_case h.name (bytes "Content-Length") →
        (0 ≤ atol h.value → content_length req = .ok (atol h.value)) ∧
        (content_length req = .error .negative_content_length_value ↔ atol h.value < 0)) := by
  have hn : 0 ∉ bytes "Content-Length" := by decide
  have hiff : ∀ f ∈ req.header, (strcasecmp f.name (bytes "Content-Length") = 0 ↔
      eq_ignoring_case f.name (bytes "Content-Length")) :=
    fun f hf => strcasecmp_eq_zero_iff f.name _ (hstr f hf) hn
  constructor
  · intro hno
    have hfind : req.header.find?
        (fun h => decide (strcasecmp h.name (bytes "Content-Length") = 0)) = none := by
      rw [List.find?_eq_none]
      intro f hf
      simp only [decide_eq_true_eq]
      exact fun h0 => hno f hf ((hiff f hf).mp h0)
    simp [content_length, lookup_header_field_value, hfind]
  · intro front h back heq hfront hh
    have hmem : h ∈ req.header := by rw [heq]; simp
    have hfind : req.header.find?
        (fun h => decide (strcasecmp h.name (bytes "Content-Length") = 0)) = some h := by
      rw [List.find?_eq_some]
      refine ⟨by simpa using (hiff h hmem).mpr hh, front, back, heq, ?_⟩
      intro g hg
      have hgm : g ∈ req.header := by rw [heq]; simp [hg]
      have : ¬ strcasecmp g.name (bytes "Content-Length") = 0 :=
        fun h0 => hfront g hg ((hiff g hgm).mp h0)
      simpa using this
    have hlook : lookup_header_field_value req (bytes "Content-Length") = some h.value := by
      simp [lookup_header_field_value, hfind]
    constructor
    · intro hpos
      have : ¬ atol h.value < 0 := by omega
      simp [content_length, hlook, this]
    · by_cases hneg : atol h.value < 0
      · simp [content_length, hlook, hneg]
      · simp [content_length, hlook, hneg]

theorem content_length_cases_witness :
    content_length (sample_with_header [{ name := bytes "Host", value := bytes "a\r\n" }]) =
      .ok 0 ∧
    content_length (sample_with_header [{ name := bytes "Host", value := bytes "a\r\n" },
      { name := bytes "content-LENGTH", value := bytes "42\r\n" }]) = .ok 42 ∧
    content_length (sample_with_header [{ name := bytes "Content-Length", value := bytes "-5\r\n" }]) =
      .error .negative_content_length_value :=
  ⟨(content_length_cases
      (sample_with_header [{ name := bytes "Host", value := bytes "a\r\n" }])
      (by decide)).1 (by unfold eq_ignoring_case; decide),
    ((content_length_cases
      (sample_with_header [{ name := bytes "Host", value := bytes "a\r\n" },
        { name := bytes "content-LENGTH", value := bytes "42\r\n" }])
      (by decide)).2 [{ name := bytes "Host", value := bytes "a\r\n" }]
        { name := bytes "content-LENGTH", value := bytes "42\r\n" } [] rfl
        (by unfold eq_ignoring_case; decide) (by unfold eq_ignoring_case; decide)).1
      (by decide),
    ((content_length_cases
      (sample_with_header [{ name := bytes "Content-Length", value := bytes "-5\r\n" }])
      (by decide)).2 [] { name := bytes "Content-Length", value := bytes "-5\r\n" } [] rfl
        (by simp) (by unfold eq_ignoring_case; decide)).2.mpr (by decide)⟩

/-! ## C14: the common header block -/

theorem common_header_text_lines (status date : List Nat) :
    common_header_text status date = four_common_lines status date := by
  simp only [common_header_text, four_common_lines, List.append_assoc]

theorem not_found_starts (date : List Nat) (req : HTTPRequest) (out : List Nat) :
    ∃ tail, (not_found (some date) req out).out =
      out ++ four_common_lines (bytes "404 Not Found") date ++ tail := by
  refine ⟨bytes "Content-Type: text/html\r\n" ++ bytes "\r\n" ++
    (if strcmp req.method (bytes "HEAD") = 0 then [] else not_found_body), ?_⟩
  rw [not_found_some]
  simp only [error_header_text, common_header_text_lines, List.append_assoc]

/-- Whatever the file system holds, `do_file_response` starts its output with
the common header block of the status 200 or of the status 404. -/
theorem do_file_response_starts (fs : FileSystem) (date : List Nat) (req : HTTPRequest)
    (out docroot : List Nat) :
    ∃ status tail, (status = bytes "200 OK" ∨ status = bytes "404 Not Found") ∧
      (do_file_response fs (some date) req out docroot).out =
        out ++ four_common_lines status date ++ tail := by
  have h404 : (get_fileinfo fs docroot req.path).ok = false →
      ∃ status tail, (status = bytes "200 OK" ∨ status = bytes "404 Not Found") ∧
        (do_file_response fs (some date) req out docroot).out =
          out ++ four_common_lines status date ++ tail := by
    intro hok
    have hdo : do_file_response fs (some date) req out docroot =
        not_found (some date) req out := by
      simp [do_file_response, hok]
    obtain ⟨tail, ht⟩ := not_found_starts date req out
    exact ⟨bytes "404 Not Found", tail, Or.inr rfl, by rw [hdo, ht]⟩
  cases hfile : fs (docroot ++ req.path) with
  | none => exact h404 (get_fileinfo_absent fs docroot req.path hfile)
  | some e =>
    by_cases hreg : e.kind = FileKind.regular
    · have hform : ∃ body, (do_file_response fs (some date) req out docroot).out =
          out ++ ok_header_text date e.size ++ body := by
        rw [do_file_response_regular fs date req out docroot e hfile hreg]
        split
        · exact ⟨[], by simp⟩
        · split
          · exact ⟨e.content, rfl⟩
          · exact ⟨[], by simp⟩
      obtain ⟨body, hb⟩ := hform
      refine ⟨bytes "200 OK", (bytes "Content-Length: " ++ bytes (Nat.repr e.size) ++
        bytes "\r\n") ++ bytes "Content-Type: text/plain\r\n" ++ bytes "\r\n" ++ body,
        Or.inl rfl, ?_⟩
      rw [hb]
      simp only [ok_header_text, common_header_text_lines, List.append_assoc]
    · exact h404 (get_fileinfo_not_regular fs docroot req.path e hfile hreg)

/-- C14: with a timestamp from the clock, each response function starts its
output with the same four CRLF-terminated lines, in this order: the status
line `HTTP/1.0 ` + status text, `Date: ` + timestamp, `Server: LittleHTTP/1.0`
and `Connection: close`; the status text is `404 Not Found` for `not_found`,
`405 Method Not Allowed` for `method_not_allowed`, `501 Not Implemented` for
`not_implemented`, `200 OK` or `404 Not Found` for `do_file_response`, and one
of the four for `respond_to`.  The request is arbitrary, so the `0` of the
status line does not depend on its protocol minor version. -/
theorem responses_start_with_common_lines (fs : FileSystem) (date : List Nat)
    (req : HTTPRequest) (out docroot : List Nat) :
    (∃ tail, (not_found (some date) req out).out =
      out ++ four_common_lines (bytes "404 Not Found") date ++ tail) ∧
    (∃ tail, (method_not_allowed (some date) req out).out =
      out ++ four_common_lines (bytes "405 Method Not Allowed") date ++ tail) ∧
    (∃ tail, (not_implemented (some date) req out).out =
      out ++ four_common_lines (bytes "501 Not Implemented") date ++ tail) ∧
    (∃ status tail, (status = bytes "200 OK" ∨ status = bytes "404 Not Found") ∧
      (do_file_response fs (some date) req out docroot).out =
        out ++ four_common_lines status date ++ tail) ∧
    (∃ status tail, status ∈ status_texts ∧
      (respond_to fs (some date) req out docroot).out =
        out ++ four_common_lines status date ++ tail) ∧
    (∀ minor : Int,
      respond_to fs (some date) { req with protocol_minor_version := minor } out docroot =
        respond_to fs (some date) req out docroot) := by
  have hnf := not_found_starts date req out
  have hna : ∃ tail, (method_not_allowed (some date) req out).out =
      out ++ four_common_lines (bytes "405 Method Not Allowed") date ++ tail := by
    refine ⟨bytes "Content-Type: text/html\r\n" ++ bytes "\r\n" ++
      method_not_allowed_body req.method, ?_⟩
    rw [method_not_allowed_some]
    simp only [error_header_text, common_header_text_lines, List.append_assoc]
  have hni : ∃ tail, (not_implemented (some date) req out).out =
      out ++ four_common_lines (bytes "501 Not Implemented") date ++ tail := by
    refine ⟨bytes "Content-Type: text/html\r\n" ++ bytes "\r\n" ++
      not_implemented_body req.method, ?_⟩
    rw [not_implemented_some]
    simp only [error_header_text, common_header_text_lines, List.append_assoc]
  have hdo := do_file_response_starts fs date req out docroot
  have hdo2 : ∃ status tail, status ∈ status_texts ∧
      (do_file_response fs (some date) req out docroot).out =
        out ++ four_common_lines status date ++ tail := by
    obtain ⟨status, tail, hs, heq⟩ := hdo
    refine ⟨status, tail, ?_, heq⟩
    rcases hs with hs | hs <;> simp [hs, status_texts]
  refine ⟨hnf, hna, hni, hdo, ?_, ?_⟩
  · unfold respond_to
    split
    · exact hdo2
    · split
      · exact hdo2
      · split
        · obtain ⟨tail, heq⟩ := hna
          exact ⟨_, tail, by simp [status_texts], heq⟩
        · obtain ⟨tail, heq⟩ := hni
          exact ⟨_, tail, by simp [status_texts], heq⟩
  · intro minor
    rfl

/-! ## C15: the signal setup -/

/-- C15 (counterexample): in a process that starts with the default
dispositions, the signal setup succeeds, and afterwards the delivery of
SIGPIPE ends the process through `signal_exit` and `log_exit`: the signal is
not ignored, and a write to a closed connection does not return a failure. -/
theorem sigpipe_ends_the_process_counterexample :
    (install_signal_handlers (fun _ => Disposition.default)).map
        (fun t => decide (t SIGPIPE = Disposition.ignore)) = .ok false ∧
    (install_signal_handlers (fun _ => Disposition.default)).map
        (fun t => deliver t SIGPIPE) = .ok (Fate.exited (Fatal.exit_by_signal 13)) ∧
    (install_signal_handlers (fun _ => Disposition.default)).map
        (fun t => write_to_closed_socket t) =
      .ok (Fate.exited (Fatal.exit_by_signal 13), none) := by
  decide

/-- C15 (amended): whatever the dispositions were before, the signal setup
succeeds and leaves SIGPIPE caught by the handler `signal_exit`; in the
process and in every child it forks, the delivery of SIGPIPE ends the process
with `log_exit("exit by signal 13")`, so a write to a closed connection ends
the process instead of returning a failure. -/
theorem install_signal_handlers_sigpipe_exits (t0 : SignalTable) :
    ∃ t, install_signal_handlers t0 = .ok t ∧
      t SIGPIPE = Disposition.caught
        { sa_handler := Handler.signal_exit, SA_RESTART := true, SA_NOCLDWAIT := false } ∧
      deliver t SIGPIPE = Fate.exited (Fatal.exit_by_signal SIGPIPE) ∧
      deliver (fork_child t) SIGPIPE = Fate.exited (Fatal.exit_by_signal SIGPIPE) ∧
      write_to_closed_socket (fork_child t) = (Fate.exited (Fatal.exit_by_signal SIGPIPE), none) := by
  have h1 : trap_signal t0 SIGPIPE Handler.signal_exit =
      .ok (fun s => if s = SIGPIPE then Disposition.caught
        { sa_handler := Handler.signal_exit, SA_RESTART := true, SA_NOCLDWAIT := false }
        else t0 s) := by
    simp [trap_signal, sigaction, SIGPIPE]
  have h2 : install_signal_handlers t0 =
      .ok (fun s => if s = SIGCHLD then Disposition.caught
        { sa_handler := Handler.noop_handler, SA_RESTART := true, SA_NOCLDWAIT := true }
        else (fun s => if s = SIGPIPE then Disposition.caught
          { sa_handler := Handler.signal_exit, SA_RESTART := true, SA_NOCLDWAIT := false }
          else t0 s) s) := by
    simp only [install_signal_handlers, h1, detach_children, sigaction]
    simp [SIGCHLD]
  refine ⟨_, h2, ?_, ?_, ?_, ?_⟩
  · simp [SIGPIPE, SIGCHLD]
  · simp [deliver, signal_exit, SIGPIPE, SIGCHLD]
  · simp [fork_child, deliver, signal_exit, SIGPIPE, SIGCHLD]
  · simp [write_to_closed_socket, fork_child, deliver, signal_exit, SIGPIPE, SIGCHLD]

/-! ## C16: the file system path -/

/-- C16: for all strings `docroot` and `path`, `build_fspath docroot path` is
`docroot` followed by `path`, nothing inserted, removed or rewritten (its
length is the sum of the two lengths, and with its terminator it fits the
allocated `strlen(docroot) + 1 + strlen(path) + 1` bytes); this is the path
that `get_fileinfo` hands to `lstat` and `open`; the request path `/../x`
under the document root `/srv` gives `/srv/../x`. -/
theorem build_fspath_is_concatenation (docroot path : List Nat) :
    build_fspath docroot path = docroot ++ path ∧
    (build_fspath docroot path).length = docroot.length + path.length ∧
    (build_fspath docroot path).length + 1 ≤ docroot.length + 1 + path.length + 1 ∧
    (∀ fs : FileSystem, (get_fileinfo fs docroot path).path = docroot ++ path) ∧
    build_fspath (bytes "/srv") (bytes "/../x") = bytes "/srv/../x" := by
  refine ⟨rfl, by simp [build_fspath], by simp [build_fspath], ?_, by decide⟩
  intro fs
  unfold get_fileinfo
  simp only [build_fspath]
  split
  · rfl
  · split <;> rfl

/-! ## C17: no response without a request -/

/-- C17: when `read_request` ends in a fatal error on the input, this error
is one of the nine calls of `log_exit` of the request parser (bad request
line, header line without colon, end of input in the headers, negative or too
large content length, short body), and `service` ends with this error and
leaves the output stream as it was: it writes no byte. -/
theorem service_writes_nothing_on_fatal (fs : FileSystem) (clock : Clock)
    (stale inp out docroot : List Nat) (e : Fatal)
    (h : read_request stale inp = .error e) :
    service fs clock stale inp out docroot = { out := out, fatal := some e } ∧
    (service fs clock stale inp [] docroot).out = [] ∧
    e ∈ [Fatal.no_request_line, Fatal.parse_error_on_request_line_1,
      Fatal.parse_error_on_request_line_2, Fatal.parse_error_request_line_3,
      Fatal.failed_to_read_request_header_field, Fatal.parse_error_on_request_header_field,
      Fatal.negative_content_length_value, Fatal.request_body_too_long,
      Fatal.failed_to_read_request_body] := by
  refine ⟨?_, ?_, read_request_errors stale inp e h⟩
  · simp only [service, h]
  · simp only [service, h]

theorem service_writes_nothing_on_fatal_witness :
    (service sample_fs (some sample_date) [] (bytes "GET /\r\n\r\n") [] (bytes "/srv")).out = [] ∧
    (service sample_fs (some sample_date) []
      (bytes "GET /index.html HTTP/1.0\r\nno colon here\r\n\r\n") [] (bytes "/srv")).out = [] ∧
    (service sample_fs (some sample_date) []
      (bytes "GET /index.html HTTP/1.0\r\nHost: a\r\n") [] (bytes "/srv")).out = [] ∧
    (service sample_fs (some sample_date) []
      (bytes "POST /index.html HTTP/1.0\r\nContent-Length: -1\r\n\r\n") [] (bytes "/srv")).out = [] ∧
    (service sample_fs (some sample_date) [] sample_too_long [] (bytes "/srv")).out = [] ∧
    (service sample_fs (some sample_date) []
      (bytes "POST /index.html HTTP/1.0\r\nContent-Length: 9\r\n\r\nshort") [] (bytes "/srv")).out = [] :=
  ⟨(service_writes_nothing_on_fatal sample_fs (some sample_date) [] (bytes "GET /\r\n\r\n") []
      (bytes "/srv") Fatal.parse_error_on_request_line_2 (by decide)).2.1,
   (service_writes_nothing_on_fatal sample_fs (some sample_date) []
      (bytes "GET /index.html HTTP/1.0\r\nno colon here\r\n\r\n") []
      (bytes "/srv") Fatal.parse_error_on_request_header_field (by decide)).2.1,
   (service_writes_nothing_on_fatal sample_fs (some sample_date) []
      (bytes "GET /index.html HTTP/1.0\r\nHost: a\r\n") []
      (bytes "/srv") Fatal.failed_to_read_request_header_field (by decide)).2.1,
   (service_writes_nothing_on_fatal sample_fs (some sample_date) []
      (bytes "POST /index.html HTTP/1.0\r\nContent-Length: -1\r\n\r\n") []
      (bytes "/srv") Fatal.negative_content_length_value (by decide)).2.1,
   (service_writes_nothing_on_fatal sample_fs (some sample_date) [] sample_too_long []
      (bytes "/srv") Fatal.request_body_too_long (by decide)).2.1,
   (service_writes_nothing_on_fatal sample_fs (some sample_date) []
      (bytes "POST /index.html HTTP/1.0\r\nContent-Length: 9\r\n\r\nshort") []
      (bytes "/srv") Fatal.failed_to_read_request_body (by decide)).2.1⟩

/-! ## Lemmas on lines -/

theorem first_line_append_after (inp : List Nat) :
    first_line inp ++ after_first_line inp = inp := by
  induction inp with
  | nil => rfl
  | cons c cs ih =>
    by_cases hc : c = 10
    · simp [first_line, after_first_line, hc]
    · simp [first_line, after_first_line, hc, ih]

theorem first_line_ne_nil (inp : List Nat) (h : inp ≠ []) : first_line inp ≠ [] := by
  cases inp with
  | nil => exact absurd rfl h
  | cons c cs =>
    by_cases hc : c = 10
    · simp [first_line, hc]
    · simp [first_line, hc]

theorem after_first_line_length (inp : List Nat) (h : inp ≠ []) :
    (after_first_line inp).length < inp.length := by
  have h1 := congrArg List.length (first_line_append_after inp)
  have h2 : 0 < (first_line inp).length := List.length_pos.mpr (first_line_ne_nil inp h)
  rw [List.length_append] at h1
  omega

/-- Nothing follows the newline of a first line. -/
theorem first_line_stops (inp a b : List Nat) (h : first_line inp = a ++ 10 :: b) : b = [] := by
  induction inp generalizing a with
  | nil => simp [first_line] at h
  | cons c cs ih =>
    by_cases hc : c = 10
    · simp only [first_line, hc, if_true] at h
      cases a with
      | nil => simpa using h.symm
      | cons x xs =>
        simp only [List.cons_append, List.cons.injEq] at h
        exact absurd h.2 (by simp)
    · simp only [first_line, hc, if_false] at h
      cases a with
      | nil =>
        simp only [List.nil_append, List.cons.injEq] at h
        exact absurd h.1 hc
      | cons x xs =>
        simp only [List.cons_append, List.cons.injEq] at h
        exact ih xs h.2

theorem first_line_of_line (l rest : List Nat) (hl : 10 ∉ l) :
    first_line (l ++ 10 :: rest) = l ++ [10] ∧ after_first_line (l ++ 10 :: rest) = rest := by
  induction l with
  | nil => simp [first_line, after_first_line]
  | cons x xs ih =>
    have hx : x ≠ 10 := fun h => hl (by simp [h])
    have hxs : 10 ∉ xs := fun h => hl (by simp [h])
    simp [first_line, after_first_line, hx, ih hxs]

theorem first_line_idem (inp : List Nat) :
    first_line (first_line inp) = first_line inp ∧ after_first_line (first_line inp) = [] := by
  induction inp with
  | nil => simp [first_line, after_first_line]
  | cons c cs ih =>
    by_cases hc : c = 10
    · simp [first_line, after_first_line, hc]
    · simp [first_line, after_first_line, hc, ih]

theorem split_lines_cons (inp : List Nat) (h : inp ≠ []) :
    split_lines inp = first_line inp :: split_lines (after_first_line inp) := by
  induction inp with
  | nil => exact absurd rfl h
  | cons c cs ih =>
    by_cases hc : c = 10
    · simp [split_lines, first_line, after_first_line, hc]
    · cases cs with
      | nil => simp [split_lines, first_line, after_first_line, hc]
      | cons d ds =>
        have := ih (by simp)
        simp only [split_lines, first_line, after_first_line, hc, if_false] at this ⊢
        rw [this]

theorem split_lines_flatten (inp : List Nat) : (split_lines inp).flatten = inp := by
  induction inp with
  | nil => rfl
  | cons c cs ih =>
    by_cases hc : c = 10
    · simp [split_lines, hc, ih]
    · simp only [split_lines, hc, if_false]
      cases hs : split_lines cs with
      | nil =>
        rw [hs] at ih
        simp at ih
        simp [← ih]
      | cons l ls =>
        rw [hs] at ih
        simp only [List.flatten_cons] at ih ⊢
        simp [ih]

/-- A read of `fgets` with room for the whole first line takes exactly this
line from the stream. -/
theorem fgets_read_first_line (n : Nat) (inp : List Nat) (h : (first_line inp).length ≤ n) :
    fgets_read n inp = (first_line inp, after_first_line inp) := by
  induction inp generalizing n with
  | nil => cases n <;> rfl
  | cons c cs ih =>
    by_cases hc : c = 10
    · cases n with
      | zero => simp [first_line, hc] at h
      | succ k => simp [fgets_read, first_line, after_first_line, hc]
    · cases n with
      | zero => simp [first_line, hc] at h
      | succ k =>
        have hk : (first_line cs).length ≤ k := by
          simp only [first_line, hc, if_false, List.length_cons] at h
          omega
        simp [fgets_read, first_line, after_first_line, hc, ih k hk]

theorem fgets_first_line (inp : List Nat) (hne : inp ≠ [])
    (h : (first_line inp).length < LINE_BUF_SIZE) :
    fgets LINE_BUF_SIZE inp = some (first_line inp, after_first_line inp) := by
  have h1 : fgets LINE_BUF_SIZE inp = some (fgets_read (LINE_BUF_SIZE - 1) inp) := by
    cases inp with
    | nil => exact absurd rfl hne
    | cons c cs => rfl
  rw [h1, fgets_read_first_line _ inp (by omega)]

/-- The test of `read_header_field` for the empty line, on a first line. -/
theorem empty_line_test (inp : List Nat) :
    ((first_line inp ++ [0]).head? = some 10 ∨
      strcmp (first_line inp ++ [0]) (bytes "\r\n") = 0) ↔ is_empty_line (first_line inp) := by
  have hcr : bytes "\r\n" = [13, 10] := by decide
  rw [hcr]
  unfold is_empty_line
  constructor
  · rintro (h | h)
    · left
      cases hl : first_line inp with
      | nil => simp [hl] at h
      | cons x xs =>
        simp only [hl, List.cons_append, List.head?_cons, Option.some.injEq] at h
        subst h
        have := first_line_stops inp [] xs (by simpa using hl)
        simp [this]
    · right
      cases hl : first_line inp with
      | nil => simp [hl, strcmp] at h
      | cons x xs =>
        rw [hl] at h
        by_cases hx : x = 13
        · subst hx
          cases xs with
          | nil => simp [strcmp] at h
          | cons y ys =>
            by_cases hy : y = 10
            · subst hy
              have := first_line_stops inp [13] ys (by simpa using hl)
              simp [this]
            · simp only [List.cons_append, strcmp, if_true, hy, if_false] at h
              simp at h
              omega
        · simp only [List.cons_append, strcmp, hx, if_false] at h
          omega
  · rintro (h | h)
    · left; simp [h]
    · right; rw [h]; decide

/-! ## Lemmas on `read_header_field` -/

/-- What `read_header_field` does with an input whose first line fits the
line buffer, in terms of this line. -/
theorem read_header_field_first_line (inp : List Nat) (hne : inp ≠ [])
    (hlen : (first_line inp).length < LINE_BUF_SIZE) :
    read_header_field inp =
      if is_empty_line (first_line inp) then .ok (none, after_first_line inp)
      else
        match strchr (first_line inp ++ [0]) 58 with
        | none => .error .parse_error_on_request_header_field
        | some (name, p) =>
          .ok (some { name := name,
                      value := cstr (p.tail.drop (strspn p.tail (bytes " \t"))) },
            after_first_line inp) := by
  unfold read_header_field
  rw [fgets_first_line inp hne hlen]
  simp only
  by_cases he : is_empty_line (first_line inp)
  · rw [if_pos ((empty_line_test inp).mpr he), if_pos he]
  · rw [if_neg (fun h => he ((empty_line_test inp).mp h)), if_neg he]

theorem strchr_none_of_not_mem (l : List Nat) (c : Nat) (hc : c ≠ 0) (h : c ∉ l) :
    strchr (l ++ [0]) c = none := by
  induction l with
  | nil =>
    have : ¬ (0 = c) := fun h0 => hc h0.symm
    simp [strchr, this]
  | cons x xs ih =>
    have hx : ¬ x = c := fun h0 => h (by simp [h0])
    have hxs : c ∉ xs := fun h0 => h (by simp [h0])
    by_cases hx0 : x = 0
    · subst hx0
      simp [strchr, hx]
    · simp [strchr, hx, hx0, ih hxs]

theorem cstr_terminated (y rest : List Nat) (h : 0 ∉ y) : cstr (y ++ 0 :: rest) = y := by
  induction y with
  | nil => simp [cstr]
  | cons x xs ih =>
    have hx : x ≠ 0 := fun h0 => h (by simp [h0])
    have hxs : 0 ∉ xs := fun h0 => h (by simp [h0])
    simp [cstr, hx, ih hxs]

/-- Moving a pointer over the leading spaces and tabs of a terminated
string. -/
theorem drop_strspn_blank (r rest : List Nat) :
    (r ++ 0 :: rest).drop (strspn (r ++ 0 :: rest) (bytes " \t")) =
      r.dropWhile is_space_or_tab ++ 0 :: rest := by
  have hacc : cstr (bytes " \t") = [32, 9] := by decide
  induction r with
  | nil => simp [strspn]
  | cons x xs ih =>
    by_cases hx : is_space_or_tab x = true
    · have hx2 : x ≠ 0 ∧ x ∈ cstr (bytes " \t") := by
        rw [hacc]
        simp only [is_space_or_tab, Bool.or_eq_true, decide_eq_true_eq] at hx
        rcases hx with h | h <;> simp [h]
      have hstep : strspn (x :: (xs ++ 0 :: rest)) (bytes " \t") =
          strspn (xs ++ 0 :: rest) (bytes " \t") + 1 := by
        rw [strspn, if_pos hx2]
      rw [List.cons_append, hstep, List.drop_succ_cons]
      simp only [List.dropWhile_cons, hx, if_true]
      exact ih
    · have hx2 : ¬ (x ≠ 0 ∧ x ∈ cstr (bytes " \t")) := by
        rw [hacc]
        simp only [is_space_or_tab, Bool.or_eq_true, decide_eq_true_eq, not_or] at hx
        simp [hx.1, hx.2]
      have hstep : strspn (x :: (xs ++ 0 :: rest)) (bytes " \t") = 0 := by
        rw [strspn, if_neg hx2]
      rw [List.cons_append, hstep, List.drop_zero]
      simp [List.dropWhile_cons, hx]

theorem dropWhile_blank_head (text : List Nat) :
    (text.dropWhile is_space_or_tab).head? ≠ some 32 ∧
    (text.dropWhile is_space_or_tab).head? ≠ some 9 := by
  induction text with
  | nil => simp
  | cons x xs ih =>
    by_cases hx : is_space_or_tab x = true
    · simp only [List.dropWhile_cons, hx, if_true]
      exact ih
    · simp only [List.dropWhile_cons, hx]
      simp only [is_space_or_tab, Bool.or_eq_true, decide_eq_true_eq, not_or] at hx
      simp [hx.1, hx.2]

/-- A header line without a zero byte that fits the line buffer is split at
its first colon: the name is the text in front of it, the value the text
behind it without the leading spaces and tabs. -/
theorem read_header_field_text_line (inp name text : List Nat) (hne : inp ≠ [])
    (hlen : (first_line inp).length < LINE_BUF_SIZE)
    (hnonempty : ¬ is_empty_line (first_line inp))
    (hzero : 0 ∉ first_line inp)
    (hline : first_line inp = name ++ 58 :: text) (hname : 58 ∉ name) :
    read_header_field inp =
      .ok (some { name := name, value := text.dropWhile is_space_or_tab },
        after_first_line inp) := by
  have hn0 : 0 ∉ name := fun h => hzero (by rw [hline]; simp [h])
  have ht0 : 0 ∉ text := fun h => hzero (by rw [hline]; simp [h])
  have hd0 : 0 ∉ text.dropWhile is_space_or_tab :=
    fun h => ht0 ((List.dropWhile_sublist _).subset h)
  rw [read_header_field_first_line inp hne hlen, if_neg hnonempty, hline]
  have hs : strchr (name ++ 58 :: text ++ [0]) 58 = some (name, 58 :: (text ++ [0])) := by
    have := strchr_append name (text ++ [0]) 58 hname hn0
    simpa using this
  rw [hs]
  simp only [List.tail_cons]
  rw [drop_strspn_blank text [], cstr_terminated _ [] hd0]

theorem fgets_read_exact (l rest : List Nat) (hl : 10 ∉ l) :
    fgets_read l.length (l ++ rest) = (l, rest) := by
  induction l with
  | nil => simp [fgets_read]
  | cons x xs ih =>
    have hx : x ≠ 10 := fun h => hl (by simp [h])
    have hxs : 10 ∉ xs := fun h => hl (by simp [h])
    simp [fgets_read, hx, ih hxs]

theorem strcmp_crlf (l : List Nat) (h0 : 0 ∉ l) (h : strcmp (l ++ [0]) [13, 10] = 0) :
    l = [13, 10] := by
  match l, h0, h with
  | [], _, h => simp [strcmp] at h
  | [x], h0, h =>
    by_cases hx : x = 13
    · subst hx; simp [strcmp] at h
    · simp only [List.cons_append, List.nil_append, strcmp, hx, if_false] at h
      omega
  | x :: y :: zs, h0, h =>
    by_cases hx : x = 13
    · subst hx
      by_cases hy : y = 10
      · subst hy
        cases zs with
        | nil => rfl
        | cons z zs2 =>
          have hz : z ≠ 0 := fun hz0 => h0 (by simp [hz0])
          simp only [List.cons_append, strcmp, if_true] at h
          simp at h
          omega
      · simp only [List.cons_append, strcmp, if_true, hy, if_false] at h
        simp at h
        omega
    · simp only [List.cons_append, strcmp, hx, if_false] at h
      omega

/-- A header line that fills the line buffer before its newline: the field is
made from the bytes that fit, the rest of the line stays in the stream. -/
theorem read_header_field_full_buffer (name text rest : List Nat)
    (hname : ∀ c ∈ name, c ≠ 58 ∧ c ≠ 0 ∧ c ≠ 10) (htext : ∀ c ∈ text, c ≠ 0 ∧ c ≠ 10)
    (hlen : (name ++ 58 :: text).length = LINE_BUF_SIZE - 1) :
    read_header_field (name ++ 58 :: text ++ rest) =
      .ok (some { name := name, value := text.dropWhile is_space_or_tab }, rest) := by
  have hl10 : 10 ∉ name ++ 58 :: text := by
    intro h
    simp only [List.mem_append, List.mem_cons] at h
    rcases h with h | h | h
    · exact (hname 10 h).2.2 rfl
    · omega
    · exact (htext 10 h).2 rfl
  have hl0 : 0 ∉ name ++ 58 :: text := by
    intro h
    simp only [List.mem_append, List.mem_cons] at h
    rcases h with h | h | h
    · exact (hname 0 h).2.1 rfl
    · omega
    · exact (htext 0 h).1 rfl
  have hn58 : 58 ∉ name := fun h => (hname 58 h).1 rfl
  have hn0 : 0 ∉ name := fun h => (hname 0 h).2.1 rfl
  have ht0 : 0 ∉ text := fun h => (htext 0 h).1 rfl
  have hd0 : 0 ∉ text.dropWhile is_space_or_tab :=
    fun h => ht0 ((List.dropWhile_sublist _).subset h)
  have hfg : fgets LINE_BUF_SIZE (name ++ 58 :: text ++ rest) =
      some (name ++ 58 :: text, rest) := by
    have h1 : fgets LINE_BUF_SIZE (name ++ 58 :: text ++ rest) =
        some (fgets_read (LINE_BUF_SIZE - 1) (name ++ 58 :: text ++ rest)) := by
      cases name <;> rfl
    rw [h1, ← hlen, fgets_read_exact _ rest hl10]
  have hhead : ¬ ((name ++ 58 :: text ++ [0]).head? = some 10) := by
    cases name with
    | nil => simp
    | cons x xs =>
      have hx : x ≠ 10 := (hname x (by simp)).2.2
      simpa using hx
  have hcr : bytes "\r\n" = [13, 10] := by decide
  have hcmp : ¬ (strcmp (name ++ 58 :: text ++ [0]) (bytes "\r\n") = 0) := by
    rw [hcr]
    intro h
    have h2 := strcmp_crlf _ hl0 h
    have h3 : (58 : Nat) ∈ name ++ 58 :: text := by simp
    rw [h2] at h3
    simp at h3
  have hs : strchr (name ++ 58 :: text ++ [0]) 58 = some (name, 58 :: (text ++ [0])) := by
    have := strchr_append name (text ++ [0]) 58 hn58 hn0
    simpa using this
  unfold read_header_field
  rw [hfg]
  simp only
  rw [if_neg (not_or.mpr ⟨hhead, hcmp⟩), hs]
  simp only [List.tail_cons]
  rw [drop_strspn_blank text [], cstr_terminated _ [] hd0]

theorem dropWhile_blank_run (w x : List Nat) (hw : ∀ c ∈ w, c = 32 ∨ c = 9)
    (hx : x.head? ≠ some 32 ∧ x.head? ≠ some 9) :
    (w ++ x).dropWhile is_space_or_tab = x := by
  induction w with
  | nil =>
    cases x with
    | nil => rfl
    | cons y ys =>
      have hy : is_space_or_tab y = false := by
        simp only [List.head?_cons, ne_eq, Option.some.injEq] at hx
        simp [is_space_or_tab, hx.1, hx.2]
      simp [List.dropWhile_cons, hy]
  | cons c cs ih =>
    have hc : is_space_or_tab c = true := by
      rcases hw c (by simp) with h | h <;> simp [is_space_or_tab, h]
    have hcs : ∀ d ∈ cs, d = 32 ∨ d = 9 := fun d hd => hw d (by simp [hd])
    simp only [List.cons_append, List.dropWhile_cons, hc, if_true]
    exact ih hcs

/-- The header line `Host: ` followed by more letters `a` than the line buffer
has room for: the value is made of the `n` letters that fit. -/
theorem read_header_field_long_value (n k : Nat) (hn : n + 6 = LINE_BUF_SIZE - 1) :
    read_header_field (bytes "Host: " ++ List.replicate (n + k) 97 ++ [13, 10]) =
      .ok (some { name := bytes "Host", value := List.replicate n 97 },
        List.replicate k 97 ++ [13, 10]) := by
  have hin : bytes "Host: " ++ List.replicate (n + k) 97 ++ [13, 10] =
      bytes "Host" ++ 58 :: (32 :: List.replicate n 97) ++
        (List.replicate k 97 ++ [13, 10]) := by
    have h2 : bytes "Host: " = bytes "Host" ++ [58, 32] := by decide
    rw [List.replicate_add, h2]
    simp only [List.append_assoc, List.cons_append, List.nil_append]
  have hval : (32 :: List.replicate n 97).dropWhile is_space_or_tab = List.replicate n 97 := by
    have hhead : (List.replicate n 97).head? ≠ some 32 ∧
        (List.replicate n 97).head? ≠ some 9 := by
      cases n with
      | zero => simp
      | succ m => simp [List.replicate_succ]
    have := dropWhile_blank_run [32] (List.replicate n 97) (by simp) hhead
    simpa using this
  have htext : ∀ c ∈ 32 :: List.replicate n 97, c ≠ 0 ∧ c ≠ 10 := by
    intro c hc
    rcases List.mem_cons.mp hc with h | h
    · subst h; decide
    · rw [List.eq_of_mem_replicate h]; decide
  have hlen : (bytes "Host" ++ 58 :: (32 :: List.replicate n 97)).length =
      LINE_BUF_SIZE - 1 := by
    have h4 : (bytes "Host").length = 4 := by decide
    simp only [List.length_append, List.length_cons, List.length_replicate, h4]
    omega
  rw [hin, read_header_field_full_buffer (bytes "Host") (32 :: List.replicate n 97)
    (List.replicate k 97 ++ [13, 10]) (by decide) htext hlen, hval]

/-! ## C12: name and value of a header field -/

/-- C12 (counterexample): the line `X`, zero byte, `: a`, CR, LF is one line,
not empty, shorter than the line buffer, and holds a colon; `read_header_field`
ends in the fatal parse error on it, because `strchr` stops at the zero byte:
no name and value are stored. -/
theorem read_header_field_nul_in_name_counterexample :
    first_line sample_nul_in_name = sample_nul_in_name ∧
    sample_nul_in_name.length < LINE_BUF_SIZE ∧
    ¬ is_empty_line sample_nul_in_name ∧
    58 ∈ sample_nul_in_name ∧
    read_header_field sample_nul_in_name = .error .parse_error_on_request_header_field := by
  decide

/-- C12 (amended): for an input whose first line is not empty and fits the
line buffer: if the line holds no colon, `read_header_field` ends in the fatal
parse error; if the line holds no zero byte and `name` is its text in front of
the first colon and `text` its text behind that colon (further colons and the
line terminator included), the stored name is `name` unchanged and the stored
value is `text` without its leading spaces and tabs, which does not begin
with a space or a tab; the stream is left behind the line. -/
theorem read_header_field_splits_at_first_colon (inp : List Nat) (hne : inp ≠ [])
    (hlen : (first_line inp).length < LINE_BUF_SIZE)
    (hnonempty : ¬ is_empty_line (first_line inp)) :
    (58 ∉ first_line inp →
      read_header_field inp = .error .parse_error_on_request_header_field) ∧
    (0 ∉ first_line inp → ∀ name text, first_line inp = name ++ 58 :: text → 58 ∉ name →
      read_header_field inp =
        .ok (some { name := name, value := text.dropWhile is_space_or_tab },
          after_first_line inp) ∧
      (text.dropWhile is_space_or_tab).head? ≠ some 32 ∧
      (text.dropWhile is_space_or_tab).head? ≠ some 9) := by
  constructor
  · intro hcolon
    rw [read_header_field_first_line inp hne hlen, if_neg hnonempty,
      strchr_none_of_not_mem _ 58 (by decide) hcolon]
  · intro hzero name text hline hname
    exact ⟨read_header_field_text_line inp name text hne hlen hnonempty hzero hline hname,
      dropWhile_blank_head text⟩

theorem read_header_field_splits_at_first_colon_witness :
    read_header_field (bytes "Host: \t a:b\r\nNext: x\r\n") =
      .ok (some { name := bytes "Host", value := (bytes " \t a:b\r\n").dropWhile is_space_or_tab },
        after_first_line (bytes "Host: \t a:b\r\nNext: x\r\n")) ∧
    (bytes " \t a:b\r\n").dropWhile is_space_or_tab = bytes "a:b\r\n" ∧
    read_header_field (bytes "no colon\r\nNext: x\r\n") =
      .error .parse_error_on_request_header_field :=
  ⟨((read_header_field_splits_at_first_colon (bytes "Host: \t a:b\r\nNext: x\r\n")
      (by decide) (by decide) (by decide)).2 (by decide) (bytes "Host") (bytes " \t a:b\r\n")
      (by decide) (by decide)).1,
   by decide,
   (read_header_field_splits_at_first_colon (bytes "no colon\r\nNext: x\r\n")
      (by decide) (by decide) (by decide)).1 (by decide)⟩

/-! ## C19: the value keeps the line terminator -/

/-- C19 (counterexample): for the header line `Host: ` + 4100 times `a` +
CR LF the stored value is the first 4089 letters, without the rest of the
letters and without the terminator, which stay in the stream; and for the
header line `Host: exam` + zero byte + `ple` + CR LF the stored value is
`exam`: in both cases the stored value is not the value of the line followed
by its terminator. -/
theorem header_value_without_terminator_counterexample :
    read_header_field sample_long_line =
      .ok (some { name := bytes "Host", value := List.replicate 4089 97 },
        List.replicate 11 97 ++ [13, 10]) ∧
    List.replicate 4089 97 ≠ List.replicate 4100 97 ++ [13, 10] ∧
    read_header_field sample_nul_in_value =
      .ok (some { name := bytes "Host", value := bytes "exam" }, []) := by
  refine ⟨read_header_field_long_value 4089 11 (by decide), ?_, by decide⟩
  intro h
  have h2 := congrArg List.length h
  rw [List.length_replicate, List.length_append, List.length_replicate] at h2
  simp at h2

/-- C19 (amended): for every header line `name:` + `w` + `v` + `t` that fits
the line buffer and holds no zero byte, where `name` holds no colon, `w` is a
run of spaces and tabs, `v` does not begin with a space or a tab and `t` is
the terminator (CR LF or LF), `read_header_field` stores the name `name` and
the value `v` followed by `t`: the stored value keeps the line terminator. -/
theorem read_header_field_value_keeps_terminator (name w v t rest : List Nat)
    (hname : ∀ c ∈ name, c ≠ 58 ∧ c ≠ 0 ∧ c ≠ 10)
    (hw : ∀ c ∈ w, c = 32 ∨ c = 9)
    (hv : ∀ c ∈ v, c ≠ 0 ∧ c ≠ 10)
    (hv0 : v.head? ≠ some 32 ∧ v.head? ≠ some 9)
    (ht : t = [13, 10] ∨ t = [10])
    (hlen : (name ++ 58 :: (w ++ v ++ t)).length < LINE_BUF_SIZE) :
    read_header_field (name ++ 58 :: (w ++ v ++ t) ++ rest) =
      .ok (some { name := name, value := v ++ t }, rest) := by
  obtain ⟨b, hb, hb10, hb0⟩ : ∃ b, t = b ++ [10] ∧ 10 ∉ b ∧ 0 ∉ b := by
    rcases ht with h | h
    · exact ⟨[13], by simp [h], by simp, by simp⟩
    · exact ⟨[], by simp [h], by simp, by simp⟩
  have hw10 : 10 ∉ w := fun h => by rcases hw 10 h with h1 | h1 <;> omega
  have hw0 : 0 ∉ w := fun h => by rcases hw 0 h with h1 | h1 <;> omega
  have hl10 : 10 ∉ name ++ 58 :: (w ++ v ++ b) := by
    intro h
    simp only [List.mem_append, List.mem_cons] at h
    rcases h with h | h | (h | h) | h
    · exact (hname 10 h).2.2 rfl
    · omega
    · exact hw10 h
    · exact (hv 10 h).2 rfl
    · exact hb10 h
  have hin : name ++ 58 :: (w ++ v ++ t) ++ rest =
      (name ++ 58 :: (w ++ v ++ b)) ++ 10 :: rest := by
    rw [hb]; simp
  have hfl := first_line_of_line (name ++ 58 :: (w ++ v ++ b)) rest hl10
  have hline : first_line (name ++ 58 :: (w ++ v ++ t) ++ rest) =
      name ++ 58 :: (w ++ v ++ t) := by
    rw [hin, hfl.1, hb]; simp
  have hafter : after_first_line (name ++ 58 :: (w ++ v ++ t) ++ rest) = rest := by
    rw [hin, hfl.2]
  have hne : name ++ 58 :: (w ++ v ++ t) ++ rest ≠ [] := by
    cases name <;> simp
  have hzero : 0 ∉ first_line (name ++ 58 :: (w ++ v ++ t) ++ rest) := by
    rw [hline, hb]
    intro h
    simp only [List.mem_append, List.mem_cons, List.mem_singleton, List.not_mem_nil,
      or_false] at h
    rcases h with h | h | ((h | h) | h | h)
    · exact (hname 0 h).2.1 rfl
    · omega
    · exact hw0 h
    · exact (hv 0 h).1 rfl
    · exact hb0 h
    · omega
  have hnonempty : ¬ is_empty_line (first_line (name ++ 58 :: (w ++ v ++ t) ++ rest)) := by
    rw [hline]
    intro h
    have h58 : (58 : Nat) ∈ name ++ 58 :: (w ++ v ++ t) := by simp
    rcases h with h | h <;> (rw [h] at h58; simp at h58)
  have hvt : (v ++ t).head? ≠ some 32 ∧ (v ++ t).head? ≠ some 9 := by
    cases v with
    | nil => rcases ht with h | h <;> simp [h]
    | cons y ys => simpa using hv0
  have hval : (w ++ v ++ t).dropWhile is_space_or_tab = v ++ t := by
    rw [List.append_assoc]
    exact dropWhile_blank_run w (v ++ t) hw hvt
  rw [read_header_field_text_line _ name (w ++ v ++ t) hne (by rw [hline]; exact hlen)
    hnonempty hzero hline (fun h => (hname 58 h).1 rfl), hval, hafter]

theorem read_header_field_value_keeps_terminator_witness :
    read_header_field (bytes "Host" ++ 58 :: (bytes " " ++ bytes "example" ++ [13, 10]) ++
        bytes "\r\n") =
      .ok (some { name := bytes "Host", value := bytes "example" ++ [13, 10] }, bytes "\r\n") :=
  read_header_field_value_keeps_terminator (bytes "Host") (bytes " ") (bytes "example")
    [13, 10] (bytes "\r\n") (by decide) (by decide) (by decide) (by decide) (by decide)
    (by decide)

/-! ## Lemmas on the accepted request line -/

theorem strchr_before_not_mem (s : List Nat) (c : Nat) (b a : List Nat)
    (h : strchr s c = some (b, a)) : c ∉ b := by
  induction s generalizing b with
  | nil => simp [strchr] at h
  | cons x xs ih =>
    by_cases hx : x = c
    · simp only [strchr, hx, if_true, Option.some.injEq, Prod.mk.injEq] at h
      rw [← h.1]
      simp
    · by_cases hx0 : x = 0
      · simp [strchr, hx, hx0] at h
        omega
      · simp only [strchr, hx, hx0, if_false] at h
        cases hrec : strchr xs c with
        | none => simp [hrec] at h
        | some r =>
          obtain ⟨b2, a2⟩ := r
          rw [hrec] at h
          simp only [Option.some.injEq, Prod.mk.injEq] at h
          have h2 := ih b2 (by rw [hrec, h.2])
          rw [← h.1]
          intro hmem
          rcases List.mem_cons.mp hmem with h0 | h0
          · exact hx h0.symm
          · exact h2 h0

/-- The text in front of the first occurrence of a byte is determined by any
initial part of the line that reaches this occurrence. -/
theorem before_first_unique (c : Nat) (a x b y : List Nat) (ha : c ∉ a) (hb : c ∉ b)
    (h : a ++ c :: x <+: b ++ c :: y) : a = b ∧ x <+: y := by
  induction a generalizing b with
  | nil =>
    cases b with
    | nil =>
      simp only [List.nil_append] at h
      exact ⟨rfl, (List.cons_prefix_cons.mp h).2⟩
    | cons b0 bs =>
      simp only [List.nil_append, List.cons_append] at h
      have := (List.cons_prefix_cons.mp h).1
      exact absurd this (fun h0 => hb (by simp [h0]))
  | cons a0 as ih =>
    cases b with
    | nil =>
      simp only [List.nil_append, List.cons_append] at h
      have := (List.cons_prefix_cons.mp h).1
      exact absurd this (fun h0 => ha (by simp [h0]))
    | cons b0 bs =>
      simp only [List.cons_append] at h
      obtain ⟨h0, ht⟩ := List.cons_prefix_cons.mp h
      have has : c ∉ as := fun h1 => ha (by simp [h1])
      have hbs : c ∉ bs := fun h1 => hb (by simp [h1])
      obtain ⟨h1, h2⟩ := ih bs has hbs ht
      exact ⟨by rw [h0, h1], h2⟩

/-- An accepted request line: what `fgets` read holds two spaces; the method
is made from the text in front of the first, the path is the text between the
first and the second. -/
theorem read_request_line_accepted (stale : List Nat) (req : HTTPRequest) (inp : List Nat)
    (r : HTTPRequest) (rest : List Nat)
    (h : read_request_line stale req inp = .ok (r, rest)) :
    ∃ line m pa l3, fgets LINE_BUF_SIZE inp = some (line, rest) ∧
      line = m ++ 32 :: (pa ++ 32 :: l3) ∧ 32 ∉ m ∧ 32 ∉ pa ∧
      r.method = upcase m ∧ r.path = pa := by
  unfold read_request_line at h
  cases hfg : fgets LINE_BUF_SIZE inp with
  | none => simp [hfg] at h
  | some v =>
    obtain ⟨line, rest0⟩ := v
    simp only [hfg] at h
    cases h1 : strchr (line ++ 0 :: stale) 32 with
    | none => simp [h1] at h
    | some r1 =>
      obtain ⟨m, p⟩ := r1
      obtain ⟨l2, hl2, hp⟩ := strchr_some_split line stale 32 (by decide) m p h1
      have hm := strchr_before_not_mem _ _ _ _ h1
      subst hp
      simp only [h1, List.cons_append, List.tail_cons] at h
      cases h2 : strchr (l2 ++ 0 :: stale) 32 with
      | none => simp [h2] at h
      | some r2 =>
        obtain ⟨pa, p2⟩ := r2
        obtain ⟨l3, hl3, _⟩ := strchr_some_split l2 stale 32 (by decide) pa p2 h2
        have hpa := strchr_before_not_mem _ _ _ _ h2
        simp only [h2] at h
        split at h
        all_goals
          split at h <;>
          first
          | (simp only [Except.ok.injEq, Prod.mk.injEq] at h
             exact ⟨line, m, pa, l3, by rw [← h.2], by rw [hl2, hl3], hm, hpa,
               by rw [← h.1], by rw [← h.1]⟩)
          | cases h

theorem fgets_within_first_line (inp line rest : List Nat)
    (h : fgets LINE_BUF_SIZE inp = some (line, rest)) : line <+: first_line inp := by
  cases inp with
  | nil => simp [fgets] at h
  | cons c cs =>
    simp only [fgets, Option.some.injEq] at h
    have := fgets_read_within_first_line (LINE_BUF_SIZE - 1) (c :: cs)
    rw [h] at this
    exact this

/-! ## C13: method and path -/

/-- C13: when the first input line has the form `M` SP `P` SP `T`, with no
space in `M` and in `P`, and `read_request_line` accepts it, the stored method
is `M` with every ASCII lower-case letter replaced by its upper-case letter
and every other byte unchanged, and the stored path is `P` unchanged. -/
theorem read_request_line_method_and_path (stale : List Nat) (req : HTTPRequest)
    (inp M P T : List Nat) (r : HTTPRequest) (rest : List Nat)
    (hform : first_line inp = M ++ 32 :: (P ++ 32 :: T))
    (hM : 32 ∉ M) (hP : 32 ∉ P)
    (haccept : read_request_line stale req inp = .ok (r, rest)) :
    r.method = M.map (fun c => if 97 ≤ c ∧ c ≤ 122 then c - 32 else c) ∧
    r.path = P := by
  obtain ⟨line, m, pa, l3, hfg, hline, hm, hpa, hmeth, hpath⟩ :=
    read_request_line_accepted stale req inp r rest haccept
  have hpre := fgets_within_first_line inp line rest hfg
  rw [hline, hform] at hpre
  obtain ⟨h1, hpre2⟩ := before_first_unique 32 m _ M _ hm hM hpre
  obtain ⟨h2, _⟩ := before_first_unique 32 pa _ P _ hpa hP hpre2
  constructor
  · rw [hmeth, h1]
    rfl
  · rw [hpath, h2]

theorem read_request_line_method_and_path_witness :
    (read_request_line [] HTTPRequest.blank (bytes "Get /Index.html HTTP/1.0\r\n\r\n") =
      .ok ({ HTTPRequest.blank with method := bytes "GET", path := bytes "/Index.html" },
        bytes "\r\n")) ∧
    bytes "GET" = (bytes "Get").map (fun c => if 97 ≤ c ∧ c ≤ 122 then c - 32 else c) ∧
    ({ HTTPRequest.blank with method := bytes "GET", path := bytes "/Index.html" } :
        HTTPRequest).method =
      (bytes "Get").map (fun c => if 97 ≤ c ∧ c ≤ 122 then c - 32 else c) ∧
    ({ HTTPRequest.blank with method := bytes "GET", path := bytes "/Index.html" } :
        HTTPRequest).path = bytes "/Index.html" ∧
    service sample_fs (some sample_date) [] (bytes "get /index.html HTTP/1.0\r\n\r\n") []
        (bytes "/srv") =
      service sample_fs (some sample_date) [] (bytes "GET /index.html HTTP/1.0\r\n\r\n") []
        (bytes "/srv") :=
  ⟨by decide, by decide,
    (read_request_line_method_and_path [] HTTPRequest.blank
      (bytes "Get /Index.html HTTP/1.0\r\n\r\n") (bytes "Get") (bytes "/Index.html")
      (bytes "HTTP/1.0\r\n") _ (bytes "\r\n") (by decide) (by decide) (by decide)
      (by decide)).1,
    (read_request_line_method_and_path [] HTTPRequest.blank
      (bytes "Get /Index.html HTTP/1.0\r\n\r\n") (bytes "Get") (bytes "/Index.html")
      (bytes "HTTP/1.0\r\n") _ (bytes "\r\n") (by decide) (by decide) (by decide)
      (by decide)).2,
    by decide⟩

/-! ## Lemmas on the header lines -/

theorem read_request_line_rest (stale : List Nat) (req : HTTPRequest) (inp : List Nat)
    (r : HTTPRequest) (rest : List Nat)
    (hlen : (first_line inp).length < LINE_BUF_SIZE)
    (h : read_request_line stale req inp = .ok (r, rest)) :
    inp ≠ [] ∧ rest = after_first_line inp := by
  obtain ⟨line, m, pa, l3, hfg, _⟩ := read_request_line_accepted stale req inp r rest h
  have hne : inp ≠ [] := by
    intro h0
    rw [h0] at hfg
    simp [fgets] at hfg
  rw [fgets_first_line inp hne hlen] at hfg
  simp only [Option.some.injEq, Prod.mk.injEq] at hfg
  exact ⟨hne, hfg.2.symm⟩

theorem read_header_field_nil : ∃ e, read_header_field [] = .error e :=
  ⟨_, rfl⟩

/-- A header line that `read_header_field` turns into a field gives the same
field when it is the whole input. -/
theorem read_header_field_of_first_line (inp : List Nat) (f : HTTPHeaderField)
    (rest : List Nat) (hne : inp ≠ []) (hlen : (first_line inp).length < LINE_BUF_SIZE)
    (h : read_header_field inp = .ok (some f, rest)) :
    read_header_field (first_line inp) = .ok (some f, []) ∧ rest = after_first_line inp ∧
      ¬ is_empty_line (first_line inp) := by
  have hidem := first_line_idem inp
  have hne2 := first_line_ne_nil inp hne
  rw [read_header_field_first_line inp hne hlen] at h
  rw [read_header_field_first_line (first_line inp) hne2 (by rw [hidem.1]; exact hlen),
    hidem.1, hidem.2]
  by_cases he : is_empty_line (first_line inp)
  · simp [he] at h
  · rw [if_neg he] at h ⊢
    cases hs : strchr (first_line inp ++ [0]) 58 with
    | none => simp [hs] at h
    | some v =>
      obtain ⟨name, p⟩ := v
      simp only [hs, Except.ok.injEq, Prod.mk.injEq, Option.some.injEq] at h ⊢
      exact ⟨⟨h.1, trivial⟩, h.2.symm, he⟩

/-- The fields that the header loop collects belong to the lines in front of
the first empty line, one field for each line, in the order of the lines; the
stream is left behind the empty line. -/
theorem fields_in_text_order_lines (fuel : Nat) (inp : List Nat)
    (fields : List HTTPHeaderField) (rest : List Nat)
    (hshort : ∀ l ∈ split_lines inp, l.length < LINE_BUF_SIZE)
    (h : fields_in_text_order fuel inp = .ok (fields, rest)) :
    ∃ header_lines empty_line,
      split_lines inp = header_lines ++ empty_line :: split_lines rest ∧
      is_empty_line empty_line ∧ (∀ l ∈ header_lines, ¬ is_empty_line l) ∧
      List.Forall₂ (fun l f => read_header_field l = .ok (some f, [])) header_lines fields := by
  induction fuel generalizing inp fields with
  | zero => simp [fields_in_text_order] at h
  | succ k ih =>
    unfold fields_in_text_order at h
    by_cases hne : inp = []
    · subst hne
      simp [read_header_field, fgets] at h
    · have hsl := split_lines_cons inp hne
      have hfirst : (first_line inp).length < LINE_BUF_SIZE :=
        hshort _ (by rw [hsl]; simp)
      cases hrh : read_header_field inp with
      | error e => simp [hrh] at h
      | ok v =>
        obtain ⟨o, rest1⟩ := v
        cases o with
        | none =>
          simp only [hrh, Except.ok.injEq, Prod.mk.injEq] at h
          rw [read_header_field_first_line inp hne hfirst] at hrh
          by_cases he : is_empty_line (first_line inp)
          · rw [if_pos he] at hrh
            simp only [Except.ok.injEq, Prod.mk.injEq, true_and] at hrh
            refine ⟨[], first_line inp, ?_, he, by simp, ?_⟩
            · rw [hsl, ← h.2, ← hrh]; rfl
            · rw [← h.1]; exact List.Forall₂.nil
          · rw [if_neg he] at hrh
            cases hs : strchr (first_line inp ++ [0]) 58 with
            | none => simp [hs] at hrh
            | some w => obtain ⟨name, p⟩ := w; simp [hs] at hrh
        | some f =>
          simp only [hrh] at h
          obtain ⟨hf1, hrest1, hnot⟩ :=
            read_header_field_of_first_line inp f rest1 hne hfirst hrh
          cases hrec : fields_in_text_order k rest1 with
          | error e => simp [hrec] at h
          | ok w =>
            obtain ⟨fs1, rest2⟩ := w
            simp only [hrec, Except.ok.injEq, Prod.mk.injEq] at h
            have hshort1 : ∀ l ∈ split_lines rest1, l.length < LINE_BUF_SIZE := by
              intro l hl
              exact hshort l (by rw [hsl, ← hrest1]; simp [hl])
            obtain ⟨hl2, e, hsplit, hee, hnone, hall⟩ :=
              ih rest1 fs1 hshort1 (by rw [hrec, h.2])
            refine ⟨first_line inp :: hl2, e, ?_, hee, ?_, ?_⟩
            · rw [hsl, ← hrest1, hsplit]; rfl
            · intro l hl
              rcases List.mem_cons.mp hl with h0 | h0
              · rw [h0]; exact hnot
              · exact hnone l h0
            · rw [← h.1]
              exact List.Forall₂.cons hf1 hall

/-- Without an empty line in the input the header loop ends in an error. -/
theorem fields_in_text_order_no_empty_line (fuel : Nat) (inp : List Nat)
    (hshort : ∀ l ∈ split_lines inp, l.length < LINE_BUF_SIZE)
    (hnone : ∀ l ∈ split_lines inp, ¬ is_empty_line l) :
    ∃ e, fields_in_text_order fuel inp = .error e := by
  induction fuel generalizing inp with
  | zero => exact ⟨_, rfl⟩
  | succ k ih =>
    unfold fields_in_text_order
    by_cases hne : inp = []
    · subst hne
      exact ⟨_, rfl⟩
    · have hsl := split_lines_cons inp hne
      have hfirst : (first_line inp).length < LINE_BUF_SIZE :=
        hshort _ (by rw [hsl]; simp)
      have hnot : ¬ is_empty_line (first_line inp) := hnone _ (by rw [hsl]; simp)
      rw [read_header_field_first_line inp hne hfirst, if_neg hnot]
      cases hs : strchr (first_line inp ++ [0]) 58 with
      | none => exact ⟨_, rfl⟩
      | some w =>
        obtain ⟨name, p⟩ := w
        simp only
        obtain ⟨e, he⟩ := ih (after_first_line inp)
          (fun l hl => hshort l (by rw [hsl]; simp [hl]))
          (fun l hl => hnone l (by rw [hsl]; simp [hl]))
        rw [he]
        exact ⟨_, rfl⟩

theorem read_request_parts (stale inp : List Nat) (req : HTTPRequest) (rest : List Nat)
    (h : read_request stale inp = .ok (req, rest)) :
    ∃ r inp1 inp2, read_request_line stale HTTPRequest.blank inp = .ok (r, inp1) ∧
      read_header_fields (inp1.length + 1) [] inp1 = .ok (req.header, inp2) ∧
      req.body.getD [] ++ rest = inp2 ∧ (req.body.getD []).length = req.length.toNat := by
  cases hline : read_request_line stale HTTPRequest.blank inp with
  | error e => simp [read_request, hline] at h
  | ok v =>
    obtain ⟨r, inp1⟩ := v
    cases hhdr : read_header_fields (inp1.length + 1) [] inp1 with
    | error e => simp [read_request, hline, hhdr] at h
    | ok w =>
      obtain ⟨hs, inp2⟩ := w
      cases hcl : content_length { r with header := hs } with
      | error e => simp [read_request, hline, hhdr, hcl] at h
      | ok N =>
        rw [read_request_of_parts stale inp r inp1 hs inp2 N hline hhdr hcl] at h
        refine ⟨r, inp1, inp2, rfl, ?_⟩
        split at h
        · split at h
          · exact absurd h (by simp)
          · split at h
            · rename_i hle
              simp only [Except.ok.injEq, Prod.mk.injEq] at h
              rw [← h.1, ← h.2]
              refine ⟨hhdr, by simp, ?_⟩
              simp only [Option.getD_some, List.length_take]
              omega
            · exact absurd h (by simp)
        · rename_i h0
          simp only [Except.ok.injEq, Prod.mk.injEq] at h
          rw [← h.1, ← h.2]
          have hN : N = 0 := by
            by_contra hc
            exact h0 hc
          refine ⟨hhdr, by simp, ?_⟩
          simp [hN]

/-! ## C18: one field for each header line -/

/-- C18: for an input whose lines are all shorter than the line buffer: when
`read_request` returns a request, the lines of the input are the request
line, then header lines none of which is empty, then an empty line (`\n` or
`\r\n`), then the later lines; the header list holds exactly one field for
each of these header lines (the field that `read_header_field` makes of the
line, the list being in reverse order of the lines) and none for a later
line; and the body followed by the unread rest of the stream is the input
right behind the empty line.  When no line behind the first one is empty,
`read_request` ends in a fatal error. -/
theorem read_request_one_field_per_header_line (stale inp : List Nat)
    (hshort : ∀ l ∈ split_lines inp, l.length < LINE_BUF_SIZE) :
    (∀ req rest, read_request stale inp = .ok (req, rest) →
      ∃ request_line header_lines empty_line later,
        split_lines inp = request_line :: (header_lines ++ empty_line :: later) ∧
        is_empty_line empty_line ∧ (∀ l ∈ header_lines, ¬ is_empty_line l) ∧
        List.Forall₂ (fun l f => read_header_field l = .ok (some f, []))
          header_lines req.header.reverse ∧
        req.header.length = header_lines.length ∧
        later.flatten = req.body.getD [] ++ rest ∧
        (req.body.getD []).length = req.length.toNat) ∧
    ((∀ l ∈ (split_lines inp).tail, ¬ is_empty_line l) →
      ∃ e, read_request stale inp = .error e ∧ e ≠ .out_of_fuel) := by
  have hline_facts : ∀ r inp1, read_request_line stale HTTPRequest.blank inp = .ok (r, inp1) →
      split_lines inp = first_line inp :: split_lines inp1 ∧
      (∀ l ∈ split_lines inp1, l.length < LINE_BUF_SIZE) := by
    intro r inp1 hline
    obtain ⟨line, m, pa, l3, hfg, _⟩ :=
      read_request_line_accepted stale HTTPRequest.blank inp r inp1 hline
    have hne : inp ≠ [] := by
      intro h0
      rw [h0] at hfg
      simp [fgets] at hfg
    have hsl := split_lines_cons inp hne
    have hfirst : (first_line inp).length < LINE_BUF_SIZE := hshort _ (by rw [hsl]; simp)
    have hrest := (read_request_line_rest stale _ inp r inp1 hfirst hline).2
    rw [← hrest] at hsl
    exact ⟨hsl, fun l hl => hshort l (by rw [hsl]; simp [hl])⟩
  constructor
  · intro req rest h
    obtain ⟨r, inp1, inp2, hline, hhdr, hbody, hblen⟩ := read_request_parts stale inp req rest h
    obtain ⟨hsl, hshort1⟩ := hline_facts r inp1 hline
    rw [read_header_fields_eq_reverse] at hhdr
    cases hft : fields_in_text_order (inp1.length + 1) inp1 with
    | error e => simp [hft] at hhdr
    | ok v =>
      obtain ⟨fields, rest2⟩ := v
      simp only [hft, List.append_nil, Except.ok.injEq, Prod.mk.injEq] at hhdr
      obtain ⟨hl, e, hsplit, hee, hnone, hall⟩ :=
        fields_in_text_order_lines _ inp1 fields rest2 hshort1 hft
      have hrev : req.header.reverse = fields := by
        rw [← hhdr.1, List.reverse_reverse]
      refine ⟨first_line inp, hl, e, split_lines rest2, ?_, hee, hnone, ?_, ?_, ?_, hblen⟩
      · rw [hsl, hsplit]
      · rw [hrev]; exact hall
      · rw [hall.length_eq, ← hrev, List.length_reverse]
      · rw [split_lines_flatten, hhdr.2, hbody]
  · intro hnone
    have hno_fuel : ∀ e, read_request stale inp = .error e → e ≠ Fatal.out_of_fuel := by
      intro e he hfuel
      have := read_request_errors stale inp e he
      rw [hfuel] at this
      simp at this
    cases hline : read_request_line stale HTTPRequest.blank inp with
    | error e =>
      have he : read_request stale inp = .error e := by simp [read_request, hline]
      exact ⟨e, he, hno_fuel e he⟩
    | ok v =>
      obtain ⟨r, inp1⟩ := v
      obtain ⟨hsl, hshort1⟩ := hline_facts r inp1 hline
      have hnone1 : ∀ l ∈ split_lines inp1, ¬ is_empty_line l := by
        intro l hl
        exact hnone l (by rw [hsl]; simpa using hl)
      obtain ⟨e, he⟩ := fields_in_text_order_no_empty_line (inp1.length + 1) inp1 hshort1 hnone1
      have hhdr : read_header_fields (inp1.length + 1) [] inp1 = .error e := by
        rw [read_header_fields_eq_reverse, he]
      have hr : read_request stale inp = .error e := by simp [read_request, hline, hhdr]
      exact ⟨e, hr, hno_fuel e hr⟩

theorem read_request_one_field_per_header_line_witness :
    (∃ request_line header_lines empty_line later,
      split_lines sample_post = request_line :: (header_lines ++ empty_line :: later) ∧
      is_empty_line empty_line ∧ (∀ l ∈ header_lines, ¬ is_empty_line l) ∧
      List.Forall₂ (fun l f => read_header_field l = .ok (some f, [])) header_lines
        [{ name := bytes "Content-Length", value := bytes "5\r\n" }] ∧
      [({ name := bytes "Content-Length", value := bytes "5\r\n" } : HTTPHeaderField)].length =
        header_lines.length ∧
      later.flatten = bytes "hello" ++ bytes "EXTRA" ∧
      (bytes "hello").length = (5 : Int).toNat) ∧
    (∃ e, read_request [] (bytes "GET / HTTP/1.0\r\nHost: a\r\nAccept: b\r\n") = .error e ∧
      e ≠ Fatal.out_of_fuel) :=
  ⟨(read_request_one_field_per_header_line [] sample_post (by decide)).1
      { protocol_minor_version := 0, method := bytes "POST", path := bytes "/x",
        header := [{ name := bytes "Content-Length", value := bytes "5\r\n" }],
        body := some (bytes "hello"), length := 5 }
      (bytes "EXTRA") (by decide),
   (read_request_one_field_per_header_line []
      (bytes "GET / HTTP/1.0\r\nHost: a\r\nAccept: b\r\n") (by decide)).2 (by decide)⟩

/-! ## Lemmas on decimal numerals and on header lines -/

theorem digitChar_toNat (k : Nat) (h : k < 10) : (Nat.digitChar k).toNat = 48 + k := by
  interval_cases k <;> rfl

theorem isdigit_digitChar (k : Nat) (h : k < 10) : isdigit (Nat.digitChar k).toNat = true := by
  interval_cases k <;> rfl

/-- Reading back the digits that `Nat.toDigitsCore` puts in front of `ds`. -/
theorem digits_value_toDigitsCore (fuel n : Nat) (ds : List Char) (tail : List Nat)
    (h : n < fuel) :
    digits_value ((Nat.toDigitsCore 10 fuel n ds).map Char.toNat ++ tail) 0 =
      digits_value (ds.map Char.toNat ++ tail) n := by
  induction fuel generalizing n ds with
  | zero => omega
  | succ k ih =>
    have hmod : n % 10 < 10 := Nat.mod_lt _ (by decide)
    have hd := digitChar_toNat (n % 10) hmod
    have hi := isdigit_digitChar (n % 10) hmod
    rw [hd] at hi
    unfold Nat.toDigitsCore
    simp only
    by_cases h0 : n / 10 = 0
    · rw [if_pos h0]
      simp only [List.map_cons, List.cons_append, digits_value, hd, hi, if_true]
      congr 1
      omega
    · rw [if_neg h0, ih (n / 10) _ (by omega)]
      simp only [List.map_cons, List.cons_append, digits_value, hd, hi, if_true]
      congr 1
      omega

theorem toDigitsCore_digits (fuel n : Nat) (ds : List Char)
    (hds : ∀ c ∈ ds, isdigit c.toNat = true) :
    ∀ c ∈ Nat.toDigitsCore 10 fuel n ds, isdigit c.toNat = true := by
  induction fuel generalizing n ds with
  | zero => simpa [Nat.toDigitsCore] using hds
  | succ k ih =>
    have hmod : n % 10 < 10 := Nat.mod_lt _ (by decide)
    have hi := isdigit_digitChar (n % 10) hmod
    have hds2 : ∀ c ∈ Nat.digitChar (n % 10) :: ds, isdigit c.toNat = true := by
      intro c hc
      rcases List.mem_cons.mp hc with h | h
      · rw [h]; exact hi
      · exact hds c h
    unfold Nat.toDigitsCore
    simp only
    by_cases h0 : n / 10 = 0
    · rw [if_pos h0]; exact hds2
    · rw [if_neg h0]; exact ih (n / 10) _ hds2

theorem toDigitsCore_ne_nil (fuel n : Nat) (ds : List Char) (hds : ds ≠ []) :
    Nat.toDigitsCore 10 fuel n ds ≠ [] := by
  induction fuel generalizing n ds with
  | zero => simpa [Nat.toDigitsCore] using hds
  | succ k ih =>
    unfold Nat.toDigitsCore
    simp only
    by_cases h0 : n / 10 = 0
    · rw [if_pos h0]; simp
    · rw [if_neg h0]; exact ih (n / 10) _ (by simp)

theorem bytes_repr (n : Nat) : bytes (Nat.repr n) = (Nat.toDigits 10 n).map Char.toNat := by
  simp [bytes, Nat.repr, List.asString]

/-- The decimal numeral of a number is a non-empty run of digits. -/
theorem repr_digits (n : Nat) :
    bytes (Nat.repr n) ≠ [] ∧ ∀ c ∈ bytes (Nat.repr n), isdigit c = true := by
  rw [bytes_repr]
  constructor
  · intro h
    have h2 : Nat.toDigits 10 n = [] := by simpa using h
    unfold Nat.toDigits at h2
    have : Nat.toDigitsCore 10 (n + 1) n [] ≠ [] := by
      unfold Nat.toDigitsCore
      simp only
      by_cases h0 : n / 10 = 0
      · rw [if_pos h0]; simp
      · rw [if_neg h0]; exact toDigitsCore_ne_nil _ _ _ (by simp)
    exact this h2
  · intro c hc
    obtain ⟨d, hd, hdc⟩ := List.mem_map.mp hc
    rw [← hdc]
    exact toDigitsCore_digits (n + 1) n [] (by simp) d hd

/-- The function `digits_value` reads the decimal numeral of a number back,
whatever follows it, when that does not begin with a digit. -/
theorem digits_value_repr (n : Nat) (tail : List Nat)
    (htail : ∀ c cs, tail = c :: cs → isdigit c = false) :
    digits_value (bytes (Nat.repr n) ++ tail) 0 = n := by
  rw [bytes_repr]
  unfold Nat.toDigits
  rw [digits_value_toDigitsCore (n + 1) n [] tail (by omega)]
  simp only [List.map_nil, List.nil_append]
  cases tail with
  | nil => rfl
  | cons c cs => simp [digits_value, htail c cs rfl]

/-- The function `atol` on the decimal numeral of a number below `2^63`. -/
theorem atol_repr (n : Nat) (tail : List Nat) (hn : n < 2 ^ 63)
    (htail : ∀ c cs, tail = c :: cs → isdigit c = false) :
    atol (bytes (Nat.repr n) ++ tail) = (n : Int) := by
  obtain ⟨hne, hdig⟩ := repr_digits n
  have hv := digits_value_repr n tail htail
  cases hb : bytes (Nat.repr n) with
  | nil => exact absurd hb hne
  | cons d ds =>
    have hd : isdigit d = true := hdig d (by rw [hb]; simp)
    rw [hb] at hv
    have hsp : isspace d = false := by
      simp only [isdigit, Bool.and_eq_true, decide_eq_true_eq] at hd
      simp only [isspace, Bool.or_eq_false_iff, Bool.and_eq_false_iff, decide_eq_false_iff_not]
      omega
    have h45 : d ≠ 45 := by
      simp only [isdigit, Bool.and_eq_true, decide_eq_true_eq] at hd
      omega
    have h43 : d ≠ 43 := by
      simp only [isdigit, Bool.and_eq_true, decide_eq_true_eq] at hd
      omega
    unfold atol strtol
    simp only [List.cons_append, List.dropWhile_cons, hsp]
    have hmin : min LONG_MAX ((digits_value (d :: (ds ++ tail)) 0 : Nat) : Int) = (n : Int) := by
      rw [show d :: (ds ++ tail) = d :: ds ++ tail from rfl, hv]
      unfold LONG_MAX
      omega
    split
    · rename_i q heq
      simp only [Bool.false_eq_true, if_false, List.cons.injEq] at heq
      exact absurd heq.1 h45
    · rename_i q heq
      simp only [Bool.false_eq_true, if_false, List.cons.injEq] at heq
      exact absurd heq.1 h43
    · simp only [Bool.false_eq_true, if_false]
      exact hmin


theorem cstr_append_zero (y rest : List Nat) :
    cstr (y ++ 0 :: rest) = y.takeWhile (fun c => decide (c ≠ 0)) := by
  induction y with
  | nil => simp [cstr]
  | cons x xs ih =>
    by_cases hx : x = 0
    · simp [cstr, hx]
    · simp [cstr, hx, List.takeWhile_cons, ih]

theorem line_name_split (name t : List Nat) (h : 58 ∉ name) :
    line_name (name ++ 58 :: t) = name := by
  unfold line_name
  induction name with
  | nil => simp [List.takeWhile_cons]
  | cons x xs ih =>
    have hx : x ≠ 58 := fun h0 => h (by simp [h0])
    have hxs : 58 ∉ xs := fun h0 => h (by simp [h0])
    have hp : (fun c => decide (c ≠ 58)) x = true := by simpa using hx
    rw [List.cons_append, List.takeWhile_cons, if_pos hp, ih hxs]

theorem line_value_split (name t : List Nat) (h : 58 ∉ name) :
    line_value (name ++ 58 :: t) =
      (t.dropWhile is_space_or_tab).takeWhile (fun c => decide (c ≠ 0)) := by
  unfold line_value
  have hd : (name ++ 58 :: t).dropWhile (fun c => decide (c ≠ 58)) = 58 :: t := by
    induction name with
    | nil => simp [List.dropWhile_cons]
    | cons x xs ih =>
      have hx : x ≠ 58 := fun h0 => h (by simp [h0])
      have hxs : 58 ∉ xs := fun h0 => h (by simp [h0])
      have hp : (fun c => decide (c ≠ 58)) x = true := by simpa using hx
      rw [List.cons_append, List.dropWhile_cons, if_pos hp, ih hxs]
  rw [hd]
  rfl

/-- The field that `read_header_field` makes of a line that fits the line
buffer has the name and the value of the line. -/
theorem read_header_field_field_of_line (inp : List Nat) (f : HTTPHeaderField)
    (rest : List Nat) (hne : inp ≠ []) (hlen : (first_line inp).length < LINE_BUF_SIZE)
    (h : read_header_field inp = .ok (some f, rest)) :
    f = field_of_line (first_line inp) := by
  rw [read_header_field_first_line inp hne hlen] at h
  by_cases he : is_empty_line (first_line inp)
  · simp [he] at h
  · rw [if_neg he] at h
    cases hs : strchr (first_line inp ++ [0]) 58 with
    | none => simp [hs] at h
    | some v =>
      obtain ⟨name, p⟩ := v
      obtain ⟨l2, hl2, hp⟩ := strchr_some_split (first_line inp) [] 58 (by decide) name p hs
      have hname := strchr_before_not_mem _ _ _ _ hs
      simp only [hs, Except.ok.injEq, Prod.mk.injEq, Option.some.injEq] at h
      rw [← h.1, hl2]
      unfold field_of_line
      rw [line_name_split name l2 hname, line_value_split name l2 hname, hp]
      simp only [List.cons_append, List.tail_cons]
      rw [drop_strspn_blank l2 [], cstr_append_zero]

theorem split_at_first (c : Nat) (l : List Nat) (h : c ∈ l) :
    ∃ name u, l = name ++ c :: u ∧ c ∉ name := by
  induction l with
  | nil => simp at h
  | cons x xs ih =>
    by_cases hx : x = c
    · exact ⟨[], xs, by simp [hx], by simp⟩
    · rcases List.mem_cons.mp h with h0 | h0
      · exact absurd h0.symm hx
      · obtain ⟨name, u, hl, hname⟩ := ih h0
        refine ⟨x :: name, u, by simp [hl], ?_⟩
        intro hmem
        rcases List.mem_cons.mp hmem with h1 | h1
        · exact hx h1.symm
        · exact hname h1

theorem is_header_line_split (l : List Nat) (h : is_header_line l) :
    ∃ name text, l = name ++ 58 :: (text ++ [10]) ∧ 58 ∉ name ∧ 0 ∉ name ∧ 10 ∉ name ∧
      10 ∉ text := by
  obtain ⟨_, hlast, hno, hcolon, hzero⟩ := h
  obtain ⟨name, u, hl, hname⟩ := split_at_first 58 l hcolon
  rw [hl, line_name_split name u hname] at hzero
  rcases List.eq_nil_or_concat u with hu | ⟨text, c, hu⟩
  · rw [hl, hu] at hlast
    simp at hlast
  · rw [List.concat_eq_append] at hu
    rw [hl, hu] at hlast hno
    have hc : c = 10 := by
      have : (name ++ 58 :: (text ++ [c])).getLast? = some c := by
        rw [show name ++ 58 :: (text ++ [c]) = (name ++ 58 :: text) ++ [c] by simp]
        exact List.getLast?_concat _
      rw [this] at hlast
      simpa using hlast
    have hdl : (name ++ 58 :: (text ++ [c])).dropLast = name ++ 58 :: text := by
      rw [show name ++ 58 :: (text ++ [c]) = (name ++ 58 :: text) ++ [c] by simp]
      exact List.dropLast_concat
    rw [hdl] at hno
    refine ⟨name, text, by rw [hl, hu, hc], hname, hzero, ?_, ?_⟩
    · exact fun h0 => hno (by simp [h0])
    · exact fun h0 => hno (by simp [h0])

/-- What `read_header_field` does with a well-formed header line in front of
the input. -/
theorem read_header_field_header_line (l rest : List Nat) (h : is_header_line l) :
    read_header_field (l ++ rest) = .ok (some (field_of_line l), rest) := by
  obtain ⟨name, text, hl, hname, hzero, hn10, ht10⟩ := is_header_line_split l h
  have hl10 : 10 ∉ name ++ 58 :: text := by
    intro h0
    simp only [List.mem_append, List.mem_cons] at h0
    rcases h0 with h0 | h0 | h0
    · exact hn10 h0
    · omega
    · exact ht10 h0
  have hin : l ++ rest = (name ++ 58 :: text) ++ 10 :: rest := by rw [hl]; simp
  have hfl := first_line_of_line (name ++ 58 :: text) rest hl10
  have hline : first_line (l ++ rest) = l := by rw [hin, hfl.1, hl]; simp
  have hafter : after_first_line (l ++ rest) = rest := by rw [hin, hfl.2]
  have hne : l ++ rest ≠ [] := by rw [hl]; cases name <;> simp
  have hnonempty : ¬ is_empty_line (first_line (l ++ rest)) := by
    rw [hline]
    intro h0
    have h58 : (58 : Nat) ∈ l := h.2.2.2.1
    rcases h0 with h0 | h0 <;> (rw [h0] at h58; simp at h58)
  have hs : strchr (l ++ [0]) 58 = some (name, 58 :: (text ++ [10] ++ [0])) := by
    have := strchr_append name (text ++ [10] ++ [0]) 58 hname hzero
    rw [hl]
    simpa using this
  rw [read_header_field_first_line (l ++ rest) hne (by rw [hline]; exact h.1),
    if_neg hnonempty, hline, hs, hafter]
  simp only [List.tail_cons]
  rw [drop_strspn_blank (text ++ [10]) [], cstr_append_zero]
  unfold field_of_line
  rw [hl, line_name_split name _ hname, line_value_split name _ hname]

theorem read_header_field_empty_line (e rest : List Nat) (h : is_empty_line e) :
    read_header_field (e ++ rest) = .ok (none, rest) := by
  have hfl : first_line (e ++ rest) = e ∧ after_first_line (e ++ rest) = rest := by
    rcases h with h | h
    · rw [h]; exact first_line_of_line [] rest (by simp)
    · rw [h]; exact first_line_of_line [13] rest (by simp)
  have hne : e ++ rest ≠ [] := by rcases h with h | h <;> simp [h]
  have hlen : (first_line (e ++ rest)).length < LINE_BUF_SIZE := by
    rw [hfl.1]
    rcases h with h | h <;> (rw [h]; decide)
  rw [read_header_field_first_line (e ++ rest) hne hlen, hfl.1, if_pos h, hfl.2]

/-- More iterations allowed do not change the result of the header loop. -/
theorem fields_in_text_order_fuel (k k2 : Nat) (inp : List Nat) (hk : k ≤ k2)
    (h : fields_in_text_order k inp ≠ .error .out_of_fuel) :
    fields_in_text_order k2 inp = fields_in_text_order k inp := by
  induction k generalizing k2 inp with
  | zero => exact absurd rfl h
  | succ j ih =>
    obtain ⟨j2, hj2⟩ : ∃ j2, k2 = j2 + 1 := ⟨k2 - 1, by omega⟩
    subst hj2
    unfold fields_in_text_order at h ⊢
    cases hrh : read_header_field inp with
    | error e => rfl
    | ok v =>
      obtain ⟨o, rest⟩ := v
      cases o with
      | none => rfl
      | some f =>
        simp only [hrh] at h ⊢
        have hrec : fields_in_text_order j rest ≠ .error .out_of_fuel := by
          intro h0
          rw [h0] at h
          exact h rfl
        rw [ih j2 rest (by omega) hrec]

/-- A result of the header loop under any bound is its result under the bound
that `read_request` uses. -/
theorem read_header_fields_of_text_order (k : Nat) (inp : List Nat)
    (fields : List HTTPHeaderField) (rest : List Nat)
    (h : fields_in_text_order k inp = .ok (fields, rest)) :
    read_header_fields (inp.length + 1) [] inp = .ok (fields.reverse, rest) := by
  have hbound := read_header_fields_within_bound (inp.length + 1) [] inp (by omega)
  rw [read_header_fields_eq_reverse] at hbound ⊢
  have hnf : fields_in_text_order (inp.length + 1) inp ≠ .error .out_of_fuel := by
    intro h0
    rw [h0] at hbound
    exact hbound rfl
  have heq : fields_in_text_order (inp.length + 1) inp = .ok (fields, rest) := by
    rcases Nat.le_total k (inp.length + 1) with hle | hle
    · rw [fields_in_text_order_fuel k _ inp hle (by rw [h]; exact fun h0 => by cases h0), h]
    · rw [← fields_in_text_order_fuel _ k inp hle hnf, h]
  rw [heq]
  simp

/-- The header loop on well-formed header lines followed by an empty line:
one field for each line, in the order of the lines. -/
theorem fields_in_text_order_header_lines (hl : List (List Nat)) (e tail : List Nat)
    (hhl : ∀ l ∈ hl, is_header_line l) (he : is_empty_line e) :
    fields_in_text_order (hl.length + 1) (hl.flatten ++ (e ++ tail)) =
      .ok (hl.map field_of_line, tail) := by
  induction hl with
  | nil =>
    simp only [List.flatten_nil, List.nil_append, List.length_nil, List.map_nil]
    unfold fields_in_text_order
    rw [read_header_field_empty_line e tail he]
  | cons l ls ih =>
    have hl1 : is_header_line l := hhl l (by simp)
    have hls : ∀ x ∈ ls, is_header_line x := fun x hx => hhl x (by simp [hx])
    simp only [List.flatten_cons, List.append_assoc, List.length_cons, List.map_cons]
    unfold fields_in_text_order
    rw [read_header_field_header_line l _ hl1]
    simp only
    rw [ih hls]

/-- The fields that the header loop collects are the fields of the header
lines of the input, when every line fits the line buffer. -/
theorem fields_in_text_order_textual (fuel : Nat) (inp : List Nat)
    (fields : List HTTPHeaderField) (rest : List Nat)
    (hshort : ∀ l ∈ split_lines inp, l.length < LINE_BUF_SIZE)
    (h : fields_in_text_order fuel inp = .ok (fields, rest)) :
    ∃ header_lines empty_line,
      split_lines inp = header_lines ++ empty_line :: split_lines rest ∧
      is_empty_line empty_line ∧ (∀ l ∈ header_lines, ¬ is_empty_line l) ∧
      fields = header_lines.map field_of_line := by
  obtain ⟨hl, e, hsplit, he, hnone, hall⟩ :=
    fields_in_text_order_lines fuel inp fields rest hshort h
  refine ⟨hl, e, hsplit, he, hnone, ?_⟩
  have hlen : ∀ l ∈ hl, l.length < LINE_BUF_SIZE :=
    fun l hmem => hshort l (by rw [hsplit]; simp [hmem])
  clear hsplit hnone h
  induction hall with
  | nil => rfl
  | @cons l f ls fs hlf _ ih =>
    have hne : l ≠ [] := by
      intro h0
      rw [h0] at hlf
      simp [read_header_field, fgets] at hlf
    have hpre : (first_line l).length ≤ l.length := by
      have := congrArg List.length (first_line_append_after l)
      rw [List.length_append] at this
      omega
    have hshortl := hlen l (by simp)
    have hfirst : (first_line l).length < LINE_BUF_SIZE := by omega
    have hf := read_header_field_field_of_line l f [] hne hfirst hlf
    have hafter := (read_header_field_of_first_line l f [] hne hfirst hlf).2.1
    have hwhole : first_line l = l := by
      have := first_line_append_after l
      rw [← hafter, List.append_nil] at this
      exact this
    rw [hwhole] at hf
    rw [List.map_cons, ← hf, ih (fun x hx => hlen x (by simp [hx]))]

theorem find_last {α : Type} (p : α → Bool) (xs : List α) (x : α) :
    xs.reverse.find? p = some x ↔
      ∃ before after_x, xs = before ++ x :: after_x ∧ p x = true ∧
        ∀ g ∈ after_x, p g = false := by
  constructor
  · intro h
    obtain ⟨hp, as, bs, heq, hno⟩ := List.find?_eq_some.mp h
    refine ⟨bs.reverse, as.reverse, ?_, hp, ?_⟩
    · have := congrArg List.reverse heq
      simpa using this
    · intro g hg
      have := hno g (List.mem_reverse.mp hg)
      simpa using this
  · rintro ⟨before, after_x, heq, hp, hno⟩
    rw [heq, List.reverse_append, List.reverse_cons, List.append_assoc]
    rw [List.find?_append]
    have hnone : after_x.reverse.find? p = none := by
      rw [List.find?_eq_none]
      intro g hg
      simpa using hno g (List.mem_reverse.mp hg)
    rw [hnone]
    simp [hp]

/-- The lookup in a header list that holds the fields of the header lines,
the last line first: the textually last line with the name wins. -/
theorem lookup_header_field_value_of_lines (req : HTTPRequest) (hl : List (List Nat))
    (n : List Nat) (hn : 0 ∉ n) (hnames : ∀ l ∈ hl, 0 ∉ line_name l)
    (hheader : req.header = (hl.map field_of_line).reverse) :
    (∀ v, lookup_header_field_value req n = some v ↔
      ∃ before l after_l, hl = before ++ l :: after_l ∧ eq_ignoring_case (line_name l) n ∧
        (∀ g ∈ after_l, ¬ eq_ignoring_case (line_name g) n) ∧ line_value l = v) ∧
    (lookup_header_field_value req n = none ↔
      ∀ l ∈ hl, ¬ eq_ignoring_case (line_name l) n) := by
  have hiff : ∀ l ∈ hl, (strcasecmp (line_name l) n = 0 ↔ eq_ignoring_case (line_name l) n) :=
    fun l hmem => strcasecmp_eq_zero_iff (line_name l) n (hnames l hmem) hn
  have hfind : req.header.find? (fun h => decide (strcasecmp h.name n = 0)) =
      (hl.reverse.find? (fun l => decide (strcasecmp (line_name l) n = 0))).map
        field_of_line := by
    rw [hheader, ← List.map_reverse, List.find?_map]
    rfl
  unfold lookup_header_field_value
  rw [hfind]
  constructor
  · intro v
    constructor
    · intro h
      cases hf : hl.reverse.find? (fun l => decide (strcasecmp (line_name l) n = 0)) with
      | none => simp [hf] at h
      | some l =>
        simp only [hf, Option.map_some', Option.some.injEq] at h
        obtain ⟨before, after_l, heq, hp, hno⟩ := (find_last _ hl l).mp hf
        have hlmem : l ∈ hl := by rw [heq]; simp
        refine ⟨before, l, after_l, heq, (hiff l hlmem).mp (by simpa using hp), ?_, h⟩
        intro g hg hcase
        have hgmem : g ∈ hl := by rw [heq]; simp [hg]
        have := hno g hg
        simp only [decide_eq_false_iff_not] at this
        exact this ((hiff g hgmem).mpr hcase)
    · rintro ⟨before, l, after_l, heq, hcase, hno, hv⟩
      have hlmem : l ∈ hl := by rw [heq]; simp
      have hf : hl.reverse.find? (fun l => decide (strcasecmp (line_name l) n = 0)) =
          some l := by
        refine (find_last _ hl l).mpr ⟨before, after_l, heq, ?_, ?_⟩
        · simpa using (hiff l hlmem).mpr hcase
        · intro g hg
          have hgmem : g ∈ hl := by rw [heq]; simp [hg]
          simp only [decide_eq_false_iff_not]
          exact fun h0 => hno g hg ((hiff g hgmem).mp h0)
      simp only [hf, Option.map_some', ← hv]
      rfl
  · constructor
    · intro h l hmem hcase
      cases hf : hl.reverse.find? (fun l => decide (strcasecmp (line_name l) n = 0)) with
      | some g => simp [hf] at h
      | none =>
        rw [List.find?_eq_none] at hf
        have := hf l (List.mem_reverse.mpr hmem)
        simp only [decide_eq_true_eq] at this
        exact this ((hiff l hmem).mpr hcase)
    · intro h
      have hf : hl.reverse.find? (fun l => decide (strcasecmp (line_name l) n = 0)) = none := by
        rw [List.find?_eq_none]
        intro l hmem
        simp only [decide_eq_true_eq]
        exact fun h0 => h l (List.mem_reverse.mp hmem) ((hiff l (List.mem_reverse.mp hmem)).mp h0)
      simp only [hf, Option.map_none']

/-! ## Lemmas on whole requests -/

theorem split_lines_line (l rest : List Nat) (hl : 10 ∉ l) :
    split_lines (l ++ 10 :: rest) = (l ++ [10]) :: split_lines rest := by
  have hne : l ++ 10 :: rest ≠ [] := by cases l <;> simp
  rw [split_lines_cons _ hne, (first_line_of_line l rest hl).1, (first_line_of_line l rest hl).2]

/-- The request line `method SP path SP HTTP/1.0` with CR LF is accepted. -/
theorem read_request_line_http_1_0 (method path rest : List Nat)
    (hm : ∀ c ∈ method, c ≠ 32 ∧ c ≠ 0 ∧ c ≠ 10)
    (hp : ∀ c ∈ path, c ≠ 32 ∧ c ≠ 0 ∧ c ≠ 10)
    (hlen : (method ++ 32 :: (path ++ 32 :: (bytes "HTTP/1.0\r" ++ [10]))).length <
      LINE_BUF_SIZE) :
    read_request_line [] HTTPRequest.blank
        (method ++ 32 :: (path ++ 32 :: (bytes "HTTP/1.0\r" ++ 10 :: rest))) =
      .ok (sample_request (upcase method) path, rest) := by
  have hcmp : ¬ (strncasecmp (bytes "HTTP/1.0\r" ++ 10 :: 0 :: []) HTTP_1_DOT
      (if strlen HTTP_1_DOT ≠ 0 then 1 else 0) ≠ 0) := by decide
  have hat : atoi ((bytes "HTTP/1.0\r" ++ 10 :: 0 :: []).drop (strlen HTTP_1_DOT)) = 0 := by
    decide
  rw [read_request_line_split [] HTTPRequest.blank method path (bytes "HTTP/1.0\r") rest hm hp
    (by decide) hlen, if_neg hcmp, hat]
  rfl

/-- What `read_request` returns when the request line is accepted, the header
loop ends, and no `Content-Length` field is found. -/
theorem read_request_without_body (stale inp : List Nat) (r : HTTPRequest) (inp1 : List Nat)
    (k : Nat) (fields : List HTTPHeaderField) (inp2 : List Nat)
    (hline : read_request_line stale HTTPRequest.blank inp = .ok (r, inp1))
    (htext : fields_in_text_order k inp1 = .ok (fields, inp2))
    (hcl : content_length { r with header := fields.reverse } = .ok 0) :
    read_request stale inp =
      .ok ({ r with header := fields.reverse, length := 0, body := none }, inp2) := by
  have hhdr := read_header_fields_of_text_order k inp1 fields inp2 htext
  rw [read_request_of_parts stale inp r inp1 _ inp2 0 hline hhdr hcl]
  simp

/-- What `read_request` returns when the request line is accepted, the header
loop ends, and the content length is a number from 1 to the maximum. -/
theorem read_request_with_body (stale inp : List Nat) (r : HTTPRequest) (inp1 : List Nat)
    (k : Nat) (fields : List HTTPHeaderField) (inp2 : List Nat) (N : Nat)
    (hline : read_request_line stale HTTPRequest.blank inp = .ok (r, inp1))
    (htext : fields_in_text_order k inp1 = .ok (fields, inp2))
    (hcl : content_length { r with header := fields.reverse } = .ok (N : Int))
    (h1 : 1 ≤ N) (h2 : N ≤ 1048576) :
    read_request stale inp =
      if N ≤ inp2.length then
        .ok ({ r with header := fields.reverse, length := (N : Int),
                      body := some (inp2.take N) }, inp2.drop N)
      else .error .failed_to_read_request_body := by
  have hhdr := read_header_fields_of_text_order k inp1 fields inp2 htext
  have h0 : (N : Int) ≠ 0 := by omega
  have hmax : ¬ ((N : Int) > MAX_REQUEST_BODY_LENGTH) := by
    rw [MAX_REQUEST_BODY_LENGTH_eq]; omega
  rw [read_request_of_parts stale inp r inp1 _ inp2 (N : Int) hline hhdr hcl, if_pos h0,
    if_neg hmax, Int.toNat_ofNat]

theorem dropWhile_blank_letters (as tail : List Nat) (has : ∀ c ∈ as, c = 97)
    (htail : tail.head? ≠ some 32 ∧ tail.head? ≠ some 9) :
    (32 :: (as ++ tail)).dropWhile is_space_or_tab = as ++ tail := by
  have hhead : (as ++ tail).head? ≠ some 32 ∧ (as ++ tail).head? ≠ some 9 := by
    cases as with
    | nil => simpa using htail
    | cons x xs =>
      have hx : x = 97 := has x (by simp)
      simp [hx]
  have := dropWhile_blank_run [32] (as ++ tail) (by simp) hhead
  simpa using this

/-- The request `sample_split_header` with any run of letters that fills the
line buffer: the text `Host: evil` behind the letters becomes a field. -/
theorem read_request_split_header (as : List Nat) (has : ∀ c ∈ as, c = 97)
    (hlen : as.length + 3 = LINE_BUF_SIZE - 1) :
    read_request []
        (bytes "GET / HTTP/1.0\r\n" ++
          (bytes "A: " ++ as ++ (bytes "Host: evil\r\n" ++ bytes "\r\n"))) =
      .ok ({ protocol_minor_version := 0, method := bytes "GET", path := bytes "/",
             header := [{ name := bytes "Host", value := bytes "evil\r\n" },
                        { name := bytes "A", value := as }],
             body := none, length := 0 }, []) ∧
    split_lines
        (bytes "GET / HTTP/1.0\r\n" ++
          (bytes "A: " ++ as ++ (bytes "Host: evil\r\n" ++ bytes "\r\n"))) =
      [bytes "GET / HTTP/1.0\r\n", bytes "A: " ++ as ++ bytes "Host: evil\r\n", bytes "\r\n"] ∧
    line_name (bytes "A: " ++ as ++ bytes "Host: evil\r\n") = bytes "A" := by
  have has10 : 10 ∉ as := fun h => absurd (has 10 h) (by decide)
  have hline : read_request_line [] HTTPRequest.blank
      (bytes "GET / HTTP/1.0\r\n" ++
        (bytes "A: " ++ as ++ (bytes "Host: evil\r\n" ++ bytes "\r\n"))) =
      .ok (sample_request (bytes "GET") (bytes "/"),
        bytes "A: " ++ as ++ (bytes "Host: evil\r\n" ++ bytes "\r\n")) :=
    read_request_line_http_1_0 (bytes "GET") (bytes "/") _ (by decide) (by decide) (by decide)
  have hf1 : read_header_field (bytes "A: " ++ as ++ (bytes "Host: evil\r\n" ++ bytes "\r\n")) =
      .ok (some { name := bytes "A", value := as }, bytes "Host: evil\r\n" ++ bytes "\r\n") := by
    have htext : ∀ c ∈ 32 :: as, c ≠ 0 ∧ c ≠ 10 := by
      intro c hc
      rcases List.mem_cons.mp hc with h | h
      · subst h; decide
      · rw [has c h]; decide
    have hl : (bytes "A" ++ 58 :: (32 :: as)).length = LINE_BUF_SIZE - 1 := by
      have h1 : (bytes "A").length = 1 := by decide
      simp only [List.length_append, List.length_cons, h1]
      omega
    have hval : (32 :: as).dropWhile is_space_or_tab = as := by
      have := dropWhile_blank_letters as [] has (by simp)
      simpa using this
    have := read_header_field_full_buffer (bytes "A") (32 :: as)
      (bytes "Host: evil\r\n" ++ bytes "\r\n") (by decide) htext hl
    rw [hval] at this
    exact this
  have hf2 : read_header_field (bytes "Host: evil\r\n" ++ bytes "\r\n") =
      .ok (some { name := bytes "Host", value := bytes "evil\r\n" }, bytes "\r\n") := by
    decide
  have hf3 : read_header_field (bytes "\r\n") = .ok (none, []) := by decide
  have htext : fields_in_text_order 3
      (bytes "A: " ++ as ++ (bytes "Host: evil\r\n" ++ bytes "\r\n")) =
      .ok ([{ name := bytes "A", value := as },
            { name := bytes "Host", value := bytes "evil\r\n" }], []) := by
    simp only [fields_in_text_order, hf1, hf2, hf3]
  have hcl : content_length
      { sample_request (bytes "GET") (bytes "/") with
        header := [({ name := bytes "A", value := as } : HTTPHeaderField),
                   { name := bytes "Host", value := bytes "evil\r\n" }].reverse } = .ok 0 := by
    have h1 : ¬ strcasecmp (bytes "Host") (bytes "Content-Length") = 0 := by decide
    have h2 : ¬ strcasecmp (bytes "A") (bytes "Content-Length") = 0 := by decide
    simp [content_length, lookup_header_field_value, List.find?, h1, h2]
  refine ⟨?_, ?_, ?_⟩
  · rw [read_request_without_body [] _ _ _ 3 _ _ hline htext hcl]
    rfl
  · have e1 : bytes "GET / HTTP/1.0\r\n" ++
        (bytes "A: " ++ as ++ (bytes "Host: evil\r\n" ++ bytes "\r\n")) =
        bytes "GET / HTTP/1.0\r" ++ 10 ::
          ((bytes "A: " ++ as ++ bytes "Host: evil\r") ++ 10 :: ([13] ++ 10 :: [])) := by
      have h1 : bytes "GET / HTTP/1.0\r\n" = bytes "GET / HTTP/1.0\r" ++ [10] := by decide
      have h2 : bytes "Host: evil\r\n" = bytes "Host: evil\r" ++ [10] := by decide
      have h3 : bytes "\r\n" = [13, 10] := by decide
      rw [h1, h2, h3]
      simp only [List.append_assoc, List.cons_append, List.nil_append]
    have hmid : 10 ∉ bytes "A: " ++ as ++ bytes "Host: evil\r" := by
      intro h
      simp only [List.mem_append] at h
      rcases h with (h | h) | h
      · exact absurd h (by decide)
      · exact has10 h
      · exact absurd h (by decide)
    rw [e1, split_lines_line _ _ (by decide), split_lines_line _ _ hmid,
      split_lines_line [13] [] (by decide)]
    have h2 : bytes "Host: evil\r\n" = bytes "Host: evil\r" ++ [10] := by decide
    have h3 : bytes "\r\n" = [13] ++ [10] := by decide
    have h1 : bytes "GET / HTTP/1.0\r\n" = bytes "GET / HTTP/1.0\r" ++ [10] := by decide
    rw [h1, h2, h3]
    simp only [List.append_assoc, split_lines]
  · have e : bytes "A: " ++ as ++ bytes "Host: evil\r\n" =
        bytes "A" ++ 58 :: (32 :: (as ++ bytes "Host: evil\r\n")) := by
      have h1 : bytes "A: " = bytes "A" ++ [58, 32] := by decide
      rw [h1]
      simp only [List.append_assoc, List.cons_append, List.nil_append]
    rw [e, line_name_split _ _ (by decide)]

/-- The request `sample_long_header_post` with any run of letters that makes
the header line `X` one byte longer than the line buffer has room for: the
newline of this line is taken for the empty line. -/
theorem read_request_long_header_post (as : List Nat) (has : ∀ c ∈ as, c = 97)
    (hlen : as.length + 4 = LINE_BUF_SIZE - 1) :
    read_request []
        (bytes "POST /x HTTP/1.0\r\n" ++ (bytes "Content-Length: 5\r\n" ++
          (bytes "X: " ++ as ++ (bytes "\r\n" ++ (bytes "\r\n" ++ bytes "hello"))))) =
      .ok ({ protocol_minor_version := 0, method := bytes "POST", path := bytes "/x",
             header := [{ name := bytes "X", value := as ++ [13] },
                        { name := bytes "Content-Length", value := bytes "5\r\n" }],
             body := some (bytes "\r\nhel"), length := 5 }, bytes "lo") ∧
    split_lines
        (bytes "POST /x HTTP/1.0\r\n" ++ (bytes "Content-Length: 5\r\n" ++
          (bytes "X: " ++ as ++ (bytes "\r\n" ++ (bytes "\r\n" ++ bytes "hello"))))) =
      [bytes "POST /x HTTP/1.0\r\n", bytes "Content-Length: 5\r\n",
       bytes "X: " ++ as ++ bytes "\r\n", bytes "\r\n", bytes "hello"] := by
  have has10 : 10 ∉ as := fun h => absurd (has 10 h) (by decide)
  have hline : read_request_line [] HTTPRequest.blank
      (bytes "POST /x HTTP/1.0\r\n" ++ (bytes "Content-Length: 5\r\n" ++
        (bytes "X: " ++ as ++ (bytes "\r\n" ++ (bytes "\r\n" ++ bytes "hello"))))) =
      .ok (sample_request (bytes "POST") (bytes "/x"),
        bytes "Content-Length: 5\r\n" ++
          (bytes "X: " ++ as ++ (bytes "\r\n" ++ (bytes "\r\n" ++ bytes "hello")))) :=
    read_request_line_http_1_0 (bytes "POST") (bytes "/x") _ (by decide) (by decide)
      (by decide)
  have hf1 : read_header_field (bytes "Content-Length: 5\r\n" ++
        (bytes "X: " ++ as ++ (bytes "\r\n" ++ (bytes "\r\n" ++ bytes "hello")))) =
      .ok (some { name := bytes "Content-Length", value := bytes "5\r\n" },
        bytes "X: " ++ as ++ (bytes "\r\n" ++ (bytes "\r\n" ++ bytes "hello"))) := by
    rw [read_header_field_header_line (bytes "Content-Length: 5\r\n") _ (by decide)]
    have : field_of_line (bytes "Content-Length: 5\r\n") =
        { name := bytes "Content-Length", value := bytes "5\r\n" } := by decide
    rw [this]
  have hf2 : read_header_field
      (bytes "X: " ++ as ++ (bytes "\r\n" ++ (bytes "\r\n" ++ bytes "hello"))) =
      .ok (some { name := bytes "X", value := as ++ [13] },
        10 :: (bytes "\r\n" ++ bytes "hello")) := by
    have htext : ∀ c ∈ 32 :: (as ++ [13]), c ≠ 0 ∧ c ≠ 10 := by
      intro c hc
      simp only [List.mem_cons, List.mem_append, List.mem_singleton, List.not_mem_nil,
        or_false] at hc
      rcases hc with h | h | h
      · subst h; decide
      · rw [has c h]; decide
      · subst h; decide
    have hl : (bytes "X" ++ 58 :: (32 :: (as ++ [13]))).length = LINE_BUF_SIZE - 1 := by
      have h1 : (bytes "X").length = 1 := by decide
      simp only [List.length_append, List.length_cons, List.length_nil, h1]
      omega
    have hval : (32 :: (as ++ [13])).dropWhile is_space_or_tab = as ++ [13] :=
      dropWhile_blank_letters as [13] has (by simp)
    have := read_header_field_full_buffer (bytes "X") (32 :: (as ++ [13]))
      (10 :: (bytes "\r\n" ++ bytes "hello")) (by decide) htext hl
    rw [hval] at this
    have e : bytes "X: " ++ as ++ (bytes "\r\n" ++ (bytes "\r\n" ++ bytes "hello")) =
        bytes "X" ++ 58 :: (32 :: (as ++ [13])) ++ 10 :: (bytes "\r\n" ++ bytes "hello") := by
      have h1 : bytes "X: " = bytes "X" ++ [58, 32] := by decide
      have h2 : bytes "\r\n" = [13, 10] := by decide
      rw [h1, h2]
      simp only [List.append_assoc, List.cons_append, List.nil_append]
    rw [e]
    exact this
  have hf3 : read_header_field (10 :: (bytes "\r\n" ++ bytes "hello")) =
      .ok (none, bytes "\r\n" ++ bytes "hello") := by decide
  have htext : fields_in_text_order 3
      (bytes "Content-Length: 5\r\n" ++
        (bytes "X: " ++ as ++ (bytes "\r\n" ++ (bytes "\r\n" ++ bytes "hello")))) =
      .ok ([{ name := bytes "Content-Length", value := bytes "5\r\n" },
            { name := bytes "X", value := as ++ [13] }], bytes "\r\n" ++ bytes "hello") := by
    simp only [fields_in_text_order, hf1, hf2, hf3]
  have hcl : content_length
      { sample_request (bytes "POST") (bytes "/x") with
        header := [({ name := bytes "Content-Length", value := bytes "5\r\n" } : HTTPHeaderField),
                   { name := bytes "X", value := as ++ [13] }].reverse } =
      .ok ((5 : Nat) : Int) := by
    have h1 : strcasecmp (bytes "Content-Length") (bytes "Content-Length") = 0 := by decide
    have h2 : ¬ strcasecmp (bytes "X") (bytes "Content-Length") = 0 := by decide
    have h3 : atol (bytes "5\r\n") = 5 := by decide
    simp [content_length, lookup_header_field_value, List.find?, h1, h2, h3]
  constructor
  · rw [read_request_with_body [] _ _ _ 3 _ _ 5 hline htext hcl (by decide) (by decide)]
    rfl
  · have e1 : bytes "POST /x HTTP/1.0\r\n" ++ (bytes "Content-Length: 5\r\n" ++
          (bytes "X: " ++ as ++ (bytes "\r\n" ++ (bytes "\r\n" ++ bytes "hello")))) =
        bytes "POST /x HTTP/1.0\r" ++ 10 :: (bytes "Content-Length: 5\r" ++ 10 ::
          ((bytes "X: " ++ as ++ [13]) ++ 10 :: ([13] ++ 10 :: bytes "hello"))) := by
      have h1 : bytes "POST /x HTTP/1.0\r\n" = bytes "POST /x HTTP/1.0\r" ++ [10] := by decide
      have h2 : bytes "Content-Length: 5\r\n" = bytes "Content-Length: 5\r" ++ [10] := by decide
      have h3 : bytes "\r\n" = [13, 10] := by decide
      rw [h1, h2, h3]
      simp only [List.append_assoc, List.cons_append, List.nil_append]
    have hmid : 10 ∉ bytes "X: " ++ as ++ [13] := by
      intro h
      simp only [List.mem_append] at h
      rcases h with (h | h) | h
      · exact absurd h (by decide)
      · exact has10 h
      · exact absurd h (by decide)
    have hlast : split_lines (bytes "hello") = [bytes "hello"] := by decide
    rw [e1, split_lines_line _ _ (by decide), split_lines_line _ _ (by decide),
      split_lines_line _ _ hmid, split_lines_line [13] _ (by decide), hlast]
    have h1 : bytes "POST /x HTTP/1.0\r\n" = bytes "POST /x HTTP/1.0\r" ++ [10] := by decide
    have h2 : bytes "Content-Length: 5\r\n" = bytes "Content-Length: 5\r" ++ [10] := by decide
    have h3 : bytes "\r\n" = [13] ++ [10] := by decide
    rw [h1, h2, h3]
    simp only [List.append_assoc]

/-- A name that equals `Content-Length` ignoring case holds no colon, no zero
byte and no newline. -/
theorem content_length_name_plain (cl_name : List Nat)
    (h : eq_ignoring_case cl_name (bytes "Content-Length")) :
    58 ∉ cl_name ∧ 0 ∉ cl_name ∧ 10 ∉ cl_name := by
  unfold eq_ignoring_case at h
  have key : ∀ c, tolower c = c → c ∉ (bytes "Content-Length").map tolower → c ∉ cl_name := by
    intro c hc hno hmem
    have : tolower c ∈ cl_name.map tolower := List.mem_map.mpr ⟨c, hmem, rfl⟩
    rw [h, hc] at this
    exact hno this
  exact ⟨key 58 (by decide) (by decide), key 0 (by decide) (by decide),
    key 10 (by decide) (by decide)⟩

/-- The value of the header line `Content-Length: N`. -/
theorem line_value_content_length (cl_name w cr : List Nat) (N : Nat)
    (hname : 58 ∉ cl_name) (hw : ∀ c ∈ w, c = 32 ∨ c = 9) (hcr : cr = [13] ∨ cr = []) :
    line_name (cl_name ++ 58 :: (w ++ bytes (Nat.repr N) ++ cr ++ [10])) = cl_name ∧
    line_value (cl_name ++ 58 :: (w ++ bytes (Nat.repr N) ++ cr ++ [10])) =
      bytes (Nat.repr N) ++ (cr ++ [10]) := by
  obtain ⟨hne, hdig⟩ := repr_digits N
  have hd : ∀ c ∈ bytes (Nat.repr N), 48 ≤ c ∧ c ≤ 57 := by
    intro c hc
    have := hdig c hc
    simpa [isdigit] using this
  have hhead : (bytes (Nat.repr N) ++ (cr ++ [10])).head? ≠ some 32 ∧
      (bytes (Nat.repr N) ++ (cr ++ [10])).head? ≠ some 9 := by
    cases hb : bytes (Nat.repr N) with
    | nil => exact absurd hb hne
    | cons d ds =>
      have := hd d (by rw [hb]; simp)
      simp only [List.cons_append, List.head?_cons, ne_eq, Option.some.injEq]
      omega
  have hzero : ∀ c ∈ bytes (Nat.repr N) ++ (cr ++ [10]),
      (fun c => decide (c ≠ 0)) c = true := by
    intro c hc
    simp only [List.mem_append, List.mem_singleton] at hc
    simp only [ne_eq, decide_not, Bool.not_eq_true', decide_eq_false_iff_not]
    rcases hc with h | h | h
    · have := hd c h
      omega
    · rcases hcr with h2 | h2
      · rw [h2] at h
        simp only [List.mem_singleton] at h
        omega
      · rw [h2] at h
        simp at h
    · omega
  refine ⟨line_name_split _ _ hname, ?_⟩
  rw [line_value_split _ _ hname]
  have e : w ++ bytes (Nat.repr N) ++ cr ++ [10] = w ++ (bytes (Nat.repr N) ++ (cr ++ [10])) := by
    simp only [List.append_assoc]
  rw [e, dropWhile_blank_run w _ hw hhead]
  exact List.takeWhile_eq_self_iff.mpr hzero

/-! ## C8 and C10: the body and the lookup, on the text of the request -/

/-- C8 (counterexample): the request `sample_two_lengths` has the header line
`Content-Length: 5` and ten bytes behind the empty line, and `read_request`
returns a request of length 3 with the body `hel`, because a second header
line `Content-Length: 3` follows.  The request `sample_long_header_post` has
the header line `Content-Length: 5`, a header line of 4096 bytes, the empty
line and the five bytes `hello`; `read_request` returns a request whose body
is CR, LF, `hel`: the line buffer takes the long line without its newline,
and this newline is taken for the empty line. -/
theorem read_request_body_counterexample :
    read_request [] sample_two_lengths =
      .ok ({ protocol_minor_version := 0, method := bytes "POST", path := bytes "/x",
             header := [{ name := bytes "Content-Length", value := bytes "3\r\n" },
                        { name := bytes "Content-Length", value := bytes "5\r\n" }],
             body := some (bytes "hel"), length := 3 }, bytes "loEXTRA") ∧
    split_lines sample_two_lengths =
      [bytes "POST /x HTTP/1.0\r\n", bytes "Content-Length: 5\r\n",
       bytes "Content-Length: 3\r\n", bytes "\r\n", bytes "helloEXTRA"] ∧
    read_request [] sample_long_header_post =
      .ok ({ protocol_minor_version := 0, method := bytes "POST", path := bytes "/x",
             header := [{ name := bytes "X", value := List.replicate 4091 97 ++ [13] },
                        { name := bytes "Content-Length", value := bytes "5\r\n" }],
             body := some (bytes "\r\nhel"), length := 5 }, bytes "lo") ∧
    split_lines sample_long_header_post =
      [bytes "POST /x HTTP/1.0\r\n", bytes "Content-Length: 5\r\n",
       bytes "X: " ++ List.replicate 4091 97 ++ bytes "\r\n", bytes "\r\n", bytes "hello"] ∧
    bytes "\r\nhel" ≠ bytes "hello" := by
  have hlong := read_request_long_header_post (List.replicate 4091 97)
    (fun c hc => List.eq_of_mem_replicate hc) (by rw [List.length_replicate]; decide)
  exact ⟨by decide, by decide, hlong.1, hlong.2, by decide⟩

/-- C8 (amended): for every request made of a request line
`method SP path SP HTTP/1.` + `t` that fits the line buffer (method and path
without space, zero byte and newline), header lines that are well formed
(each fits the line buffer, ends in its only newline and holds a colon with
no zero byte in front of it), and an empty line, in which `Content-Length: N`
(the name in any letter case, spaces and tabs behind the colon, `N` in
decimal with `1 ≤ N ≤ 1048576`, the terminator CR LF or LF) is the textually
last header line with that name: if at least `N` bytes follow the empty line,
`read_request` returns a request whose length is `N` and whose body is exactly
the first `N` of these bytes, leaving the rest in the stream; if fewer than
`N` bytes follow, it ends in the fatal error "failed to read request body". -/
theorem read_request_body_of_last_content_length (stale : List Nat)
    (method path t : List Nat) (before after_cl : List (List Nat))
    (cl_name w cr empty_line tail : List Nat) (N : Nat)
    (hm : ∀ c ∈ method, c ≠ 32 ∧ c ≠ 0 ∧ c ≠ 10)
    (hp : ∀ c ∈ path, c ≠ 32 ∧ c ≠ 0 ∧ c ≠ 10)
    (ht : 10 ∉ t)
    (hfit : (method ++ 32 :: (path ++ 32 :: (HTTP_1_DOT ++ t ++ [10]))).length < LINE_BUF_SIZE)
    (hlines : ∀ l ∈ before ++
        (cl_name ++ 58 :: (w ++ bytes (Nat.repr N) ++ cr ++ [10])) :: after_cl,
      is_header_line l)
    (hname : eq_ignoring_case cl_name (bytes "Content-Length"))
    (hw : ∀ c ∈ w, c = 32 ∨ c = 9)
    (hcr : cr = [13] ∨ cr = [])
    (hlast : ∀ l ∈ after_cl, ¬ eq_ignoring_case (line_name l) (bytes "Content-Length"))
    (hempty : is_empty_line empty_line)
    (h1 : 1 ≤ N) (h2 : N ≤ 1048576) :
    (N ≤ tail.length →
      ∃ req,
        read_request stale
            (method ++ 32 :: (path ++ 32 :: (HTTP_1_DOT ++ t ++ [10])) ++
              (before ++ (cl_name ++ 58 :: (w ++ bytes (Nat.repr N) ++ cr ++ [10])) ::
                after_cl).flatten ++ empty_line ++ tail) =
          .ok (req, tail.drop N) ∧
        req.length = (N : Int) ∧ req.body = some (tail.take N) ∧ (tail.take N).length = N ∧
        req.method = upcase method ∧ req.path = path) ∧
    (tail.length < N →
      read_request stale
          (method ++ 32 :: (path ++ 32 :: (HTTP_1_DOT ++ t ++ [10])) ++
            (before ++ (cl_name ++ 58 :: (w ++ bytes (Nat.repr N) ++ cr ++ [10])) ::
              after_cl).flatten ++ empty_line ++ tail) =
        .error .failed_to_read_request_body) := by
  generalize hcl_line : cl_name ++ 58 :: (w ++ bytes (Nat.repr N) ++ cr ++ [10]) = cl_line
    at hlines
  generalize hhl : before ++ cl_line :: after_cl = hl at hlines
  have hin : method ++ 32 :: (path ++ 32 :: (HTTP_1_DOT ++ t ++ [10])) ++ hl.flatten ++
      empty_line ++ tail =
      method ++ 32 :: (path ++ 32 :: ((HTTP_1_DOT ++ t) ++ 10 ::
        (hl.flatten ++ (empty_line ++ tail)))) := by
    simp only [List.append_assoc, List.cons_append, List.nil_append]
  have htok : 10 ∉ HTTP_1_DOT ++ t := by
    intro h
    rcases List.mem_append.mp h with h | h
    · exact absurd h (by decide)
    · exact ht h
  have hcmp : ¬ (strncasecmp (HTTP_1_DOT ++ t ++ 10 :: 0 :: stale) HTTP_1_DOT
      (if strlen HTTP_1_DOT ≠ 0 then 1 else 0) ≠ 0) := by
    simp [strncasecmp, HTTP_1_DOT, bytes, strlen, cstr]
  have hline := read_request_line_split stale HTTPRequest.blank method path (HTTP_1_DOT ++ t)
    (hl.flatten ++ (empty_line ++ tail)) hm hp htok hfit
  rw [if_neg hcmp] at hline
  have htext := fields_in_text_order_header_lines hl empty_line tail hlines hempty
  obtain ⟨hn58, _, _⟩ := content_length_name_plain cl_name hname
  obtain ⟨hlname, hlvalue⟩ := line_value_content_length cl_name w cr N hn58 hw hcr
  rw [hcl_line] at hlname hlvalue
  have hnames : ∀ l ∈ hl, 0 ∉ line_name l := fun l hmem => (hlines l hmem).2.2.2.2
  generalize hr : ({ HTTPRequest.blank with
      method := upcase method, path := path,
      protocol_minor_version :=
        atoi ((HTTP_1_DOT ++ t ++ 10 :: 0 :: stale).drop (strlen HTTP_1_DOT)) } :
      HTTPRequest) = r at hline
  have hrm : r.method = upcase method ∧ r.path = path := by rw [← hr]; exact ⟨rfl, rfl⟩
  have hlookup : lookup_header_field_value
      { r with header := (hl.map field_of_line).reverse } (bytes "Content-Length") =
      some (bytes (Nat.repr N) ++ (cr ++ [10])) := by
    refine ((lookup_header_field_value_of_lines _ hl (bytes "Content-Length") (by decide)
      hnames rfl).1 _).mpr ⟨before, cl_line, after_cl, hhl.symm, ?_, hlast, hlvalue⟩
    rw [hlname]
    exact hname
  have hN : atol (bytes (Nat.repr N) ++ (cr ++ [10])) = (N : Int) := by
    refine atol_repr N _ (by omega) ?_
    intro c cs hc
    rcases hcr with h | h
    · rw [h] at hc
      simp only [List.cons_append, List.nil_append, List.cons.injEq] at hc
      rw [← hc.1]
      decide
    · rw [h] at hc
      simp only [List.nil_append, List.cons.injEq] at hc
      rw [← hc.1]
      decide
  have hcl : content_length { r with header := (hl.map field_of_line).reverse } =
      .ok (N : Int) := by
    have hneg : ¬ ((N : Int) < 0) := by omega
    simp [content_length, hlookup, hN, hneg]
  have hrr := read_request_with_body stale _ r _ (hl.length + 1) _ tail N hline htext hcl h1 h2
  rw [hin]
  constructor
  · intro hle
    rw [hrr, if_pos hle]
    exact ⟨_, rfl, rfl, rfl, by rw [List.length_take]; omega, hrm.1, hrm.2⟩
  · intro hlt
    rw [hrr, if_neg (by omega)]

theorem read_request_body_of_last_content_length_witness :
    ∃ req,
      read_request []
          (bytes "POST" ++ 32 :: (bytes "/x" ++ 32 :: (HTTP_1_DOT ++ bytes "0\r" ++ [10])) ++
            ([bytes "Host: a\r\n", bytes "content-length: 9\r\n"] ++
              (bytes "Content-Length" ++ 58 :: ([32] ++ bytes (Nat.repr 5) ++ [13] ++ [10])) ::
              [bytes "X-Id: 7\r\n"]).flatten ++ bytes "\r\n" ++ bytes "helloEXTRA") =
        .ok (req, (bytes "helloEXTRA").drop 5) ∧
      req.length = ((5 : Nat) : Int) ∧ req.body = some ((bytes "helloEXTRA").take 5) ∧
      ((bytes "helloEXTRA").take 5).length = 5 ∧
      req.method = upcase (bytes "POST") ∧ req.path = bytes "/x" :=
  (read_request_body_of_last_content_length [] (bytes "POST") (bytes "/x") (bytes "0\r")
    [bytes "Host: a\r\n", bytes "content-length: 9\r\n"] [bytes "X-Id: 7\r\n"]
    (bytes "Content-Length") [32] [13] (bytes "\r\n") (bytes "helloEXTRA") 5
    (by decide) (by decide) (by decide) (by decide) (by decide)
    (by decide) (by decide) (by decide) (by decide) (by decide)
    (by decide) (by decide)).1 (by decide)

/-- C10 (counterexample): the request `sample_split_header` has one header
line, whose name is `A`: the line is longer than the line buffer, the buffer
takes `A: ` and the 4092 letters, and the text `Host: evil` behind them is
read as a line of its own.  `read_request` returns a request with two fields,
and the lookup of the name `Host` returns the value `evil` CR LF, although no
header line of the input has the name `Host`. -/
theorem lookup_header_field_value_split_line_counterexample :
    read_request [] sample_split_header =
      .ok ({ protocol_minor_version := 0, method := bytes "GET", path := bytes "/",
             header := [{ name := bytes "Host", value := bytes "evil\r\n" },
                        { name := bytes "A", value := List.replicate 4092 97 }],
             body := none, length := 0 }, []) ∧
    lookup_header_field_value
        { protocol_minor_version := 0, method := bytes "GET", path := bytes "/",
          header := [{ name := bytes "Host", value := bytes "evil\r\n" },
                     { name := bytes "A", value := List.replicate 4092 97 }],
          body := none, length := 0 } (bytes "Host") = some (bytes "evil\r\n") ∧
    split_lines sample_split_header =
      [bytes "GET / HTTP/1.0\r\n",
       bytes "A: " ++ List.replicate 4092 97 ++ bytes "Host: evil\r\n", bytes "\r\n"] ∧
    line_name (bytes "A: " ++ List.replicate 4092 97 ++ bytes "Host: evil\r\n") = bytes "A" ∧
    ¬ eq_ignoring_case (bytes "A") (bytes "Host") := by
  have h := read_request_split_header (List.replicate 4092 97)
    (fun c hc => List.eq_of_mem_replicate hc) (by rw [List.length_replicate]; decide)
  refine ⟨h.1, ?_, h.2.1, h.2.2, by decide⟩
  have h1 : strcasecmp (bytes "Host") (bytes "Host") = 0 := by decide
  simp [lookup_header_field_value, List.find?, h1]

/-- C10 (amended): for every input whose lines are all shorter than the line
buffer and every name `n` without a zero byte: when `read_request` returns a
request, the lines of the input are the request line, then header lines none
of which is empty, then an empty line, then the later lines; the header list
holds exactly one field for each header line, the last line first (duplicate
names are not merged); `lookup_header_field_value` returns the value `v`
exactly when `v` is the value of the textually last header line whose name
(its text in front of the first colon) equals `n` ignoring ASCII case, and
returns not-found exactly when no header line has such a name. -/
theorem lookup_header_field_value_last_header_line_wins (stale inp : List Nat)
    (req : HTTPRequest) (rest n : List Nat)
    (hshort : ∀ l ∈ split_lines inp, l.length < LINE_BUF_SIZE)
    (hreq : read_request stale inp = .ok (req, rest))
    (hn : 0 ∉ n) :
    ∃ request_line header_lines empty_line later,
      split_lines inp = request_line :: (header_lines ++ empty_line :: later) ∧
      is_empty_line empty_line ∧ (∀ l ∈ header_lines, ¬ is_empty_line l) ∧
      req.header = (header_lines.map field_of_line).reverse ∧
      (∀ v, lookup_header_field_value req n = some v ↔
        ∃ before l after_l, header_lines = before ++ l :: after_l ∧
          eq_ignoring_case (line_name l) n ∧
          (∀ g ∈ after_l, ¬ eq_ignoring_case (line_name g) n) ∧ line_value l = v) ∧
      (lookup_header_field_value req n = none ↔
        ∀ l ∈ header_lines, ¬ eq_ignoring_case (line_name l) n) := by
  obtain ⟨r, inp1, inp2, hline, hhdr, _, _⟩ := read_request_parts stale inp req rest hreq
  obtain ⟨line, m, pa, l3, hfg, _⟩ :=
    read_request_line_accepted stale HTTPRequest.blank inp r inp1 hline
  have hne : inp ≠ [] := by
    intro h0
    rw [h0] at hfg
    simp [fgets] at hfg
  have hsl := split_lines_cons inp hne
  have hfirst : (first_line inp).length < LINE_BUF_SIZE := hshort _ (by rw [hsl]; simp)
  have hrest := (read_request_line_rest stale _ inp r inp1 hfirst hline).2
  rw [← hrest] at hsl
  have hshort1 : ∀ l ∈ split_lines inp1, l.length < LINE_BUF_SIZE :=
    fun l hl => hshort l (by rw [hsl]; simp [hl])
  rw [read_header_fields_eq_reverse] at hhdr
  cases hft : fields_in_text_order (inp1.length + 1) inp1 with
  | error e => simp [hft] at hhdr
  | ok v =>
    obtain ⟨fields, rest2⟩ := v
    simp only [hft, List.append_nil, Except.ok.injEq, Prod.mk.injEq] at hhdr
    obtain ⟨hl, e, hsplit, hee, hnone, hfields⟩ :=
      fields_in_text_order_textual _ inp1 fields rest2 hshort1 hft
    have hheader : req.header = (hl.map field_of_line).reverse := by
      rw [← hhdr.1, hfields]
    have hnames : ∀ l ∈ hl, 0 ∉ line_name l := by
      intro l hmem
      have := fields_in_text_order_names _ _ _ _ hft (field_of_line l)
        (by rw [hfields]; exact List.mem_map.mpr ⟨l, hmem, rfl⟩)
      exact this
    obtain ⟨hsome, hnone2⟩ := lookup_header_field_value_of_lines req hl n hn hnames hheader
    exact ⟨first_line inp, hl, e, split_lines rest2, by rw [hsl, hsplit], hee, hnone,
      hheader, hsome, hnone2⟩

theorem lookup_header_field_value_last_header_line_wins_witness :
    lookup_header_field_value sample_duplicates_request (bytes "HOST") = some (bytes "b\r\n") ∧
    ∃ request_line header_lines empty_line later,
      split_lines sample_duplicates = request_line :: (header_lines ++ empty_line :: later) ∧
      is_empty_line empty_line ∧ (∀ l ∈ header_lines, ¬ is_empty_line l) ∧
      sample_duplicates_request.header = (header_lines.map field_of_line).reverse ∧
      (∀ v, lookup_header_field_value sample_duplicates_request (bytes "HOST") = some v ↔
        ∃ before l after_l, header_lines = before ++ l :: after_l ∧
          eq_ignoring_case (line_name l) (bytes "HOST") ∧
          (∀ g ∈ after_l, ¬ eq_ignoring_case (line_name g) (bytes "HOST")) ∧
          line_value l = v) ∧
      (lookup_header_field_value sample_duplicates_request (bytes "HOST") = none ↔
        ∀ l ∈ header_lines, ¬ eq_ignoring_case (line_name l) (bytes "HOST")) :=
  ⟨by decide,
    lookup_header_field_value_last_header_line_wins [] sample_duplicates
      sample_duplicates_request [] (bytes "HOST") (by decide) (by decide) (by decide)⟩

end Httpd2
